import Mathlib

/-!
# D3D12_Research: command line store, shadow partitioning, light clusters, depth pyramid,
the passes of the meshlet rasterizer, scene upload and the online descriptor allocator

A shallow embedding of
* `CommandLine::Parse`, `CommandLine::GetInt` and `CommandLine::GetBool`
  (Core/CommandLine.cpp);
* the shadow set-up block, the screenshot queue and the screenshot naming of
  `DemoApp::Update`, and `DemoApp::UploadSceneData` (DemoApp.cpp);
* `ClusteredForward::OnResize` and the volumetric fog volumes of `ClusteredForward::Execute`
  (Graphics/Techniques/ClusteredForward.cpp);
* `MeshletRasterizer::InitHZB`, `BuildHZB`, `CullAndRasterize` and `Render`
  (Renderer/Techniques/MeshletRasterizer.cpp);
* `TiledForward::Execute` and `TiledForward::VisualizeLightDensity`
  (Graphics/Techniques/TiledForward.cpp);
* `OnlineDescriptorAllocator` (Graphics/OnlineDescriptorAllocator.cpp),
with the properties proved about them.

Conventions of the embedding:
* a `std::string` is a `List Char`;
* `std::unordered_map<std::string, std::string>` is an association list with
  unique keys, read through `Store.find` only;
* a call that throws a C++ exception, fails an `assert` or has undefined behaviour returns
  `none`;
* `int` is a 32 bit two's complement integer, `uint32` a 32 bit unsigned one and `size_t`
  a 64 bit unsigned one;
* `float` arithmetic of the shadow set-up is read over the real numbers;
* a function that registers render graph passes is the list of passes it adds to the
  graph, each with its flags, accesses, targets and what its closure captures.
-/

namespace CommandLine

/-- A `std::string`. -/
abbrev Str := List Char

/-- The static `m_Parameters` map. -/
abbrev Store := List (Str × Str)

/-- The call `m_Parameters.find(k)`: the mapped value, or `none` for `end()`. -/
def Store.find : Store → Str → Option Str
  | [], _ => none
  | (k', v') :: m, k => if k' = k then some v' else Store.find m k

/-- The assignment `m_Parameters[k] = v`: overwrites the value of an existing key,
inserts the pair otherwise. -/
def Store.set : Store → Str → Str → Store
  | [], k, v => [(k, v)]
  | (k', v') :: m, k, v => if k' = k then (k', v) :: m else (k', v') :: Store.set m k v

/-- The call `m_Parameters.clear()`. -/
def Store.clear (_m : Store) : Store := []

/-- The conversion `(int)i` of a `size_t` to a 32 bit `int` (two's complement wrap). -/
def toInt32 (i : Nat) : Int :=
  if i % 2 ^ 32 < 2 ^ 31 then ((i % 2 ^ 32 : Nat) : Int) else ((i % 2 ^ 32 : Nat) : Int) - 2 ^ 32

/-- The expression `(int)i + 1`; signed overflow is undefined behaviour. -/
def intSucc (i : Nat) : Option Int :=
  if toInt32 i = 2 ^ 31 - 1 then none else some (toInt32 i + 1)

/-- The conversion of an `int` to `size_t`. -/
def toSizeT (z : Int) : Nat := (z % 2 ^ 64).toNat

/-- The expression `a - b` on `size_t` with `b` an `int` converted to `size_t`. -/
def sizeSub (a : Nat) (b : Int) : Nat := (((a : Int) - b) % 2 ^ 64).toNat

/-- The call `s.substr(pos, len)`: throws `std::out_of_range` when `pos > s.size()`. -/
def substr (s : Str) (pos : Nat) (len : Nat) : Option Str :=
  if pos > s.length then none else some ((s.drop pos).take len)

/-- The call `s.substr(pos)`. -/
def substrFrom (s : Str) (pos : Nat) : Option Str :=
  if pos > s.length then none else some (s.drop pos)

/-- The quote stripping of a value:
`if (value.front() == '"' && value.back() == '"') value = value.substr(1, value.length() - 2);`
`front()` of an empty string is undefined behaviour. -/
def stripQuotes (value : Str) : Option Str :=
  match value.head?, value.getLast? with
  | some a, some b =>
    if a = '"' ∧ b = '"' then substr value 1 (sizeSub value.length 2) else some value
  | _, _ => none

/-- The local variables of `Parse` together with `m_Parameters`. -/
structure ParseState where
  quoted : Bool
  commandStart : Int
  hasValue : Bool
  identifier : Str
  params : Store
  deriving DecidableEq

/-- The values before the loop, after `m_Parameters.clear()`. -/
def ParseState.init (prev : Store) : ParseState :=
  { quoted := false, commandStart := 0, hasValue := false, identifier := [],
    params := prev.clear }

/-- One pass through the body of the `for` loop of `Parse`, at index `i` with
`c = m_CommandLine[i]`. -/
def parseStep (s : Str) (i : Nat) (c : Char) (st : ParseState) : Option ParseState :=
  if c = '"' then
    some { st with quoted := !st.quoted }
  else if c = '-' ∧ st.quoted = false then
    (intSucc i).map fun n => { st with commandStart := n }
  else if c = '=' ∧ st.quoted = false then
    (substr s (toSizeT st.commandStart) (sizeSub i st.commandStart)).bind fun ident =>
    (intSucc i).map fun n => { st with identifier := ident, commandStart := n, hasValue := true }
  else if c = ' ' ∧ st.quoted = false then
    if st.hasValue then
      (substr s (toSizeT st.commandStart) (sizeSub i st.commandStart)).bind fun value =>
      (stripQuotes value).map fun value =>
        { st with params := st.params.set st.identifier value, hasValue := false,
                  commandStart := -1 }
    else
      (substr s (toSizeT st.commandStart) (sizeSub i st.commandStart)).map fun key =>
        { st with params := st.params.set key "1".toList, commandStart := -1 }
  else
    some st

/-- The `for` loop of `Parse` from index `i` on; `rest` is `m_CommandLine` from `i`. -/
def parseLoop (s : Str) : Str → Nat → ParseState → Option ParseState
  | [], _, st => some st
  | c :: rest, i, st => (parseStep s i c st).bind (parseLoop s rest (i + 1))

/-- The block after the loop: `if (commandStart > -1) { ... }`. -/
def parseFinish (s : Str) (st : ParseState) : Option ParseState :=
  if st.commandStart > -1 then
    if st.hasValue then
      (substrFrom s (toSizeT st.commandStart)).bind fun value =>
      (stripQuotes value).map fun value =>
        { st with params := st.params.set st.identifier value, hasValue := false,
                  commandStart := -1 }
    else
      (substrFrom s (toSizeT st.commandStart)).map fun key =>
        { st with params := st.params.set key "1".toList, commandStart := -1 }
  else
    some st

/-- The function `CommandLine::Parse(pCommandLine)`, run with `m_Parameters = prev`:
the returned `bool` and the new `m_Parameters`. -/
def Parse (prev : Store) (pCommandLine : Str) : Option (Bool × Store) :=
  ((parseLoop pCommandLine pCommandLine 0 (ParseState.init prev)).bind
    (parseFinish pCommandLine)).map fun st => (true, st.params)

/-- Whether `c` is one of the decimal digits `0` to `9`. -/
def isDecimalDigit (c : Char) : Bool := decide ('0'.toNat ≤ c.toNat ∧ c.toNat ≤ '9'.toNat)

/-- The call `std::isdigit(c)` on a plain `char` in the "C" locale. A byte of 0x80 or above
is a negative `char`, which `std::isdigit` does not accept: the behaviour is undefined
(`none`). Where `EOF` is -1 the byte 0xFF is the one negative value the function accepts;
the model does not tell it apart and gives no result there either. -/
def isdigit (c : Char) : Option Bool :=
  if c.toNat < 128 then some (isDecimalDigit c) else none

/-- White space as `std::stoi` skips it (the "C" locale). -/
def isspace (c : Char) : Bool := decide (c.toNat = 32 ∨ (9 ≤ c.toNat ∧ c.toNat ≤ 13))

/-- The number a string of decimal digits denotes. -/
def digitsValue (ds : Str) : Nat :=
  ds.foldl (fun acc c => 10 * acc + (c.toNat - '0'.toNat)) 0

/-- The call `std::stoi(str)` (base 10): skips leading white space, reads an optional sign
and the longest run of digits; throws `std::invalid_argument` when there is no digit and
`std::out_of_range` when the number is not an `int`. -/
def stoi (str : Str) : Option Int :=
  let body := str.dropWhile isspace
  let signed : Bool × Str :=
    match body with
    | '-' :: r => (true, r)
    | '+' :: r => (false, r)
    | r => (false, r)
  let ds := signed.2.takeWhile isDecimalDigit
  if ds = [] then none
  else
    let n : Int := if signed.1 then -(digitsValue ds : Int) else (digitsValue ds : Int)
    if -(2 ^ 31) ≤ n ∧ n ≤ 2 ^ 31 - 1 then some n else none

/-- What a call of `GetInt` leaves behind: the returned `bool`, the output parameter
`value` and `m_Parameters`. -/
structure GetIntResult where
  ret : Bool
  value : Int
  params : Store
  deriving DecidableEq

/-- The loop `for (char c : it->second) if (!std::isdigit(c)) ...` of `GetInt` on the
characters not yet visited: `some true` when it runs to the end, `some false` when it leaves
at a character that is not a digit, and `none` when a call of `std::isdigit` is
undefined. -/
def allDigits : Str → Option Bool
  | [] => some true
  | c :: rest =>
    match isdigit c with
    | none => none
    | some false => some false
    | some true => allDigits rest

/-- The function `CommandLine::GetInt(name, value, defaultValue)`. -/
def GetInt (params : Store) (name : Str) (defaultValue : Int) : Option GetIntResult :=
  match params.find name with
  | some second =>
    match allDigits second with
    | none => none
    | some true => (stoi second).map fun n => { ret := true, value := n, params := params }
    | some false => some { ret := false, value := defaultValue, params := params }
  | none => some { ret := false, value := defaultValue, params := params }

/-- The function `CommandLine::GetBool(parameter)`. -/
def GetBool (params : Store) (parameter : Str) : Bool :=
  (params.find parameter).isSome

/-! ### Command lines made of tokens -/

/-- A token of a command line: `-name`, `-name=value` or `-name="text"`. -/
inductive Token where
  | flag (name : Str)
  | valued (name value : Str)
  | quotedValue (name text : Str)
  deriving DecidableEq

/-- The characters of a token. -/
def Token.render : Token → Str
  | .flag name => '-' :: name
  | .valued name value => '-' :: (name ++ '=' :: value)
  | .quotedValue name text => '-' :: (name ++ '=' :: '"' :: (text ++ ['"']))

/-- The name of a token. -/
def Token.name : Token → Str
  | .flag name => name
  | .valued name _ => name
  | .quotedValue name _ => name

/-- The value a token gives to its name. -/
def Token.value : Token → Str
  | .flag _ => ['1']
  | .valued _ value => value
  | .quotedValue _ text => text

/-- A string that is not empty and has no space, `-`, `=` or `"`. -/
def plainWord (w : Str) : Prop :=
  w ≠ [] ∧ ∀ c ∈ w, c ≠ ' ' ∧ c ≠ '-' ∧ c ≠ '=' ∧ c ≠ '"'

/-- The tokens the parser is specified on: plain names, plain values, and quoted texts
without a `"`. -/
def Token.wellFormed : Token → Prop
  | .flag name => plainWord name
  | .valued name value => plainWord name ∧ plainWord value
  | .quotedValue name text => plainWord name ∧ ∀ c ∈ text, c ≠ '"'

/-- A token of the form `-name` or `-name=value`. -/
def Token.unquoted : Token → Prop
  | .quotedValue _ _ => False
  | _ => True

/-- The tokens separated by single spaces. -/
def commandLineOf : List Token → Str
  | [] => []
  | [t] => t.render
  | t :: ts => t.render ++ ' ' :: commandLineOf ts

/-- The value the last token named `key` gives, if there is such a token. -/
def lastValue (ts : List Token) (key : Str) : Option Str :=
  (ts.reverse.find? fun t => decide (t.name = key)).map Token.value

/-! ### Auxiliary definitions for the proofs about `Parse` -/

/-- The index at which the last substring of a token starting at `p` begins. -/
def Token.start : Token → Nat → Nat
  | .flag _, p => p + 1
  | .valued name _, p => p + name.length + 2
  | .quotedValue name _, p => p + name.length + 2

/-- The last substring of a token, from `Token.start` to its end. -/
def Token.raw : Token → Str
  | .flag name => name
  | .valued _ value => value
  | .quotedValue _ text => '"' :: (text ++ ['"'])

/-- The locals of `Parse` after the characters of a token starting at index `p`. -/
def afterToken (t : Token) (p : Nat) (st : ParseState) : ParseState :=
  match t with
  | .flag _ => { st with commandStart := ((t.start p : Nat) : Int) }
  | .valued name _ =>
    { st with identifier := name, commandStart := ((t.start p : Nat) : Int), hasValue := true }
  | .quotedValue name _ =>
    { st with identifier := name, commandStart := ((t.start p : Nat) : Int), hasValue := true }

/-- The locals of `Parse` once the token is stored. -/
def afterStore (t : Token) (p : Nat) (st : ParseState) : ParseState :=
  { afterToken t p st with
    params := st.params.set t.name t.value, hasValue := false, commandStart := -1 }

/-- The store after the assignments of the tokens, in their order. -/
def storeTokens (m : Store) (ts : List Token) : Store :=
  ts.foldl (fun acc t => acc.set t.name t.value) m

end CommandLine

namespace DemoApp

/-! ### Shadow set-up of `DemoApp::Update`, with `float` read as a real number -/

/-- The constant `MAX_CASCADES`. -/
def MAX_CASCADES : Nat := 4

/-- The value written to `cascadeSplits[i]` by the loop body
`p = (i + 1) / (float)g_ShadowCascades; log = minZ * std::pow(maxZ / minZ, p);
uniform = minZ + (maxZ - minZ) * p; d = g_PSSMFactor * (log - uniform) + uniform;
cascadeSplits[i] = d - nearPlane`, for camera planes `n`, `f`, the depth range
`minPoint`, `maxPoint`, the PSSM factor and the cascade count. -/
noncomputable def cascadeSplit (n f minPoint maxPoint pssmFactor : ℝ) (shadowCascades : Nat)
    (i : Nat) : ℝ :=
  let nearPlane := min n f
  let farPlane := max n f
  let clipPlaneRange := farPlane - nearPlane
  let minZ := nearPlane + minPoint * clipPlaneRange
  let maxZ := nearPlane + maxPoint * clipPlaneRange
  let p := (((i + 1 : Nat) : ℝ)) / (shadowCascades : ℝ)
  let log := minZ * (maxZ / minZ) ^ p
  let uniform := minZ + (maxZ - minZ) * p
  let d := pssmFactor * (log - uniform) + uniform
  d - nearPlane

/-- The array `cascadeSplits` after the loop `for (i = 0; i < g_ShadowCascades; ++i)`:
zero-initialised, entries below the cascade count written; a write past
`MAX_CASCADES` entries is out of bounds (`none`). -/
noncomputable def cascadeSplits (n f minPoint maxPoint pssmFactor : ℝ) (shadowCascades : Nat) :
    Option (Fin 4 → ℝ) :=
  if shadowCascades ≤ MAX_CASCADES then
    some fun i =>
      if i.val < shadowCascades then
        cascadeSplit n f minPoint maxPoint pssmFactor shadowCascades i.val
      else 0
  else none

/-- A `Vector4`. -/
structure Vector4 where
  x : ℝ
  y : ℝ
  z : ℝ
  w : ℝ

/-- A `Matrix`: four rows of four entries, row-vector convention. -/
abbrev Matrix4 := Matrix (Fin 4) (Fin 4) ℝ

/-- The call `Vector4::Transform(v, m)`: the row vector `v` times `m`. -/
def Vector4.Transform (v : Vector4) (m : Matrix4) : Vector4 :=
  { x := v.x * m 0 0 + v.y * m 1 0 + v.z * m 2 0 + v.w * m 3 0
    y := v.x * m 0 1 + v.y * m 1 1 + v.z * m 2 1 + v.w * m 3 1
    z := v.x * m 0 2 + v.y * m 1 2 + v.z * m 2 2 + v.w * m 3 2
    w := v.x * m 0 3 + v.y * m 1 3 + v.z * m 2 3 + v.w * m 3 3 }

/-- The product `v * k` of a `Vector4` and a scalar (`v *= k`). -/
def Vector4.scale (v : Vector4) (k : ℝ) : Vector4 :=
  { x := v.x * k, y := v.y * k, z := v.z * k, w := v.w * k }

/-- The difference `a - b` of two `Vector4`. -/
def Vector4.sub (a b : Vector4) : Vector4 :=
  { x := a.x - b.x, y := a.y - b.y, z := a.z - b.z, w := a.w - b.w }

/-- One component of `XMVectorRound`: the nearest integer, a tie going to the even one. -/
noncomputable def roundNearestEven (x : ℝ) : ℝ :=
  if x - (⌊x⌋ : ℝ) < 1 / 2 then (⌊x⌋ : ℝ)
  else if 1 / 2 < x - (⌊x⌋ : ℝ) then (⌊x⌋ : ℝ) + 1
  else if ⌊x⌋ % 2 = 0 then (⌊x⌋ : ℝ) else (⌊x⌋ : ℝ) + 1

/-- The call `XMVectorRound(v)`. -/
noncomputable def XMVectorRound (v : Vector4) : Vector4 :=
  { x := roundNearestEven v.x, y := roundNearestEven v.y,
    z := roundNearestEven v.z, w := roundNearestEven v.w }

/-- The call `Matrix::CreateTranslation(Vector3(v))`: the identity with the fourth row
`(v.x, v.y, v.z, 1)`. -/
def CreateTranslation (v : Vector4) : Matrix4 :=
  !![1, 0, 0, 0; 0, 1, 0, 0; 0, 0, 1, 0; v.x, v.y, v.z, 1]

/-- The constant `shadowMapSize` of the snapping block. -/
def shadowMapSize : ℝ := 2048

/-- The vector `roundedOffset` of the snapping block, from the projected origin
`shadowOrigin = Vector4::Transform(Vector4(0, 0, 0, 1), lightViewProjection)`:
`shadowOrigin *= shadowMapSize / 2.0f; rounded = XMVectorRound(shadowOrigin);
roundedOffset = rounded - shadowOrigin; roundedOffset *= 2.0f / shadowMapSize;
roundedOffset.z = 0; roundedOffset.w = 0`. -/
noncomputable def roundedOffset (shadowOrigin : Vector4) : Vector4 :=
  let scaled := shadowOrigin.scale (shadowMapSize / 2)
  let rounded := XMVectorRound scaled
  let offset := (rounded.sub scaled).scale (2 / shadowMapSize)
  { offset with z := 0, w := 0 }

/-- The matrix `projectionMatrix` after `projectionMatrix *= Matrix::CreateTranslation(
Vector3(roundedOffset))`, with stabilization on. -/
noncomputable def snappedProjection (shadowView projectionMatrix : Matrix4) : Matrix4 :=
  let lightViewProjection := shadowView * projectionMatrix
  let shadowOrigin := Vector4.Transform ⟨0, 0, 0, 1⟩ lightViewProjection
  projectionMatrix * CreateTranslation (roundedOffset shadowOrigin)

/-- The matrix `lightViewProjection = shadowView * projectionMatrix` after the snapping
block, with stabilization on. -/
noncomputable def snappedLightViewProjection (shadowView projectionMatrix : Matrix4) :
    Matrix4 :=
  shadowView * snappedProjection shadowView projectionMatrix

end DemoApp

namespace DemoApp

/-! ### Shadow slots of the lights in `DemoApp::Update` -/

/-- The enumeration `LightType`. -/
inductive LightType where
  | Directional
  | Point
  | Spot
  | MAX
  deriving DecidableEq

/-- The members of `Light` that the shadow set-up reads and writes. -/
structure Light where
  type : LightType
  CastShadows : Bool
  ShadowIndex : Int
  deriving DecidableEq

/-- The number of slots the specification gives a light: none when it casts no shadows,
else the cascade count for a directional light, 1 for a spot light, 6 for a point light. -/
def slotCount (shadowCascades : Nat) (light : Light) : Nat :=
  if light.CastShadows then
    match light.type with
    | .Directional => shadowCascades
    | .Spot => 1
    | .Point => 6
    | .MAX => 0
  else 0

/-- The slots the specification gives to a list of lights. -/
def slotTotal (shadowCascades : Nat) (lights : List Light) : Nat :=
  (lights.map (slotCount shadowCascades)).sum

end DemoApp

namespace ClusteredForward

/-! ### Cluster buffers of `ClusteredForward::OnResize` -/

/-- The constant `gLightClusterTexelSize`. -/
def gLightClusterTexelSize : Nat := 64

/-- The constant `gLightClustersNumZ`. -/
def gLightClustersNumZ : Nat := 32

/-- The constant `gMaxLightsPerCluster`. -/
def gMaxLightsPerCluster : Nat := 32

/-- The value of `(float)n` for a non-negative integer `n`: `n` itself below 2^24, else
`n` rounded to 24 significant bits, a tie going to the even significand. -/
def floatOfNat (n : Nat) : Nat :=
  if n < 2 ^ 24 then n
  else
    let e := Nat.log 2 n - 23
    let q := n / 2 ^ e
    let r := n % 2 ^ e
    let q1 := if 2 ^ (e - 1) < r ∨ (r = 2 ^ (e - 1) ∧ q % 2 = 1) then q + 1 else q
    q1 * 2 ^ e

/-- The value of `(float)z` for an `int`. -/
def floatOfInt (z : Int) : ℚ :=
  if z < 0 then -((floatOfNat z.natAbs : Nat) : ℚ) else ((floatOfNat z.toNat : Nat) : ℚ)

/-- Modelled from the spec: `Math::RoundUp` of Math.h, which is not among the sources;
the specification gives `Cx = ceil(W / 64)`, so it is the ceiling of its argument. -/
def RoundUp (value : ℚ) : Int := ⌈value⌉

/-- The conversion of an integer to `uint32`. -/
def toUInt32 (z : Int) : Nat := (z % 2 ^ 32).toNat

/-- The product `a * b` of two `uint32`. -/
def mulUInt32 (a b : Nat) : Nat := (a * b) % 2 ^ 32

/-- The arguments of `BufferDesc::CreateStructured(elementCount, elementSize)`. -/
structure StructuredBufferDesc where
  elementCount : Nat
  elementSize : Nat
  deriving DecidableEq

/-- The cluster counts and the descriptors of the buffers `OnResize` creates. -/
structure ClusterResources where
  ClusterCountX : Nat
  ClusterCountY : Nat
  AABBs : StructuredBufferDesc
  LightIndexGrid : StructuredBufferDesc
  LightGrid : StructuredBufferDesc

/-- The cluster part of `ClusteredForward::OnResize(windowWidth, windowHeight)`; the
members `m_ClusterCountX`, `m_ClusterCountY` are 32 bit unsigned like
`totalClusterCount`, `sizeof(Vector4) * 2` is 32 and `sizeof(uint32)` is 4. -/
def OnResize (windowWidth windowHeight : Int) : ClusterResources :=
  let clusterCountX := toUInt32 (RoundUp (floatOfInt windowWidth / (gLightClusterTexelSize : ℚ)))
  let clusterCountY := toUInt32 (RoundUp (floatOfInt windowHeight / (gLightClusterTexelSize : ℚ)))
  let totalClusterCount := mulUInt32 (mulUInt32 clusterCountX clusterCountY) gLightClustersNumZ
  { ClusterCountX := clusterCountX
    ClusterCountY := clusterCountY
    AABBs := { elementCount := totalClusterCount, elementSize := 32 }
    LightIndexGrid :=
      { elementCount := mulUInt32 gMaxLightsPerCluster totalClusterCount, elementSize := 4 }
    LightGrid := { elementCount := mulUInt32 2 totalClusterCount, elementSize := 4 } }

end ClusteredForward

namespace MeshletRasterizer

/-! ### The depth pyramid of `MeshletRasterizer::InitHZB` -/

/-- Modelled from the spec: `Math::NextPowerOfTwo` of Math.h, which is not among the
sources; the least power of two greater than or equal to its argument. -/
def NextPowerOfTwo (v : Nat) : Nat := 2 ^ Nat.clog 2 v

/-- The members of `TextureDesc` that `TextureDesc::Create2D(width, height, format, mips)`
receives from `InitHZB`; the format is `ResourceFormat::R16_FLOAT`. -/
structure TextureDesc where
  Width : Nat
  Height : Nat
  Mips : Nat
  deriving DecidableEq

/-- The descriptor built by `MeshletRasterizer::InitHZB(graph, viewDimensions)`:
`hzbDimensions.x = Math::Max(Math::NextPowerOfTwo(viewDimensions.x) >> 1u, 1u)`, the same
for y, and `numMips = (uint32)Math::Floor(log2f((float)Math::Max(x, y)))`. The argument
of `log2f` is a power of two, which the conversion to `float` and `log2f` treat exactly, so
the floor is the integer logarithm. -/
def InitHZB (viewDimensions : Nat × Nat) : TextureDesc :=
  let x := max (NextPowerOfTwo viewDimensions.1 >>> 1) 1
  let y := max (NextPowerOfTwo viewDimensions.2 >>> 1) 1
  let numMips := Nat.log 2 (max x y)
  { Width := x, Height := y, Mips := numMips }

/-- The extent of mip level `m` of a texture of extent `base` (Direct3D 12). -/
def mipExtent (base m : Nat) : Nat := max (base >>> m) 1

/-- The difference `a - b` of two `uint32`. -/
def subUInt32 (a b : Nat) : Nat := (a + 2 ^ 32 - b % 2 ^ 32) % 2 ^ 32

/-- The last argument `mips - 1` that `BuildHZB` passes to `SpdSetup`, with
`uint32 mips = pHZB->GetDesc().Mips`. -/
def BuildHZB_spdMips (desc : TextureDesc) : Nat := subUInt32 desc.Mips 1

end MeshletRasterizer

namespace RenderGraph

/-! ### The render graph, as far as pass registration goes

The render graph itself (RenderGraph.h) is not among the sources; its operations are
modelled from the specification's data model: a pass is a node with a name, a flag set, a
read set and a write set of virtual resources, optional render targets and depth-stencil
target, and an execute closure. Of the closure the model keeps the buffers it hands to
`ExecuteIndirect` and the source HZB it binds. -/

/-- The enumeration `RGPassFlag`. -/
inductive RGPassFlag where
  | Compute
  | Raster
  | Copy
  | NeverCull
  deriving DecidableEq

/-- A virtual resource: the handle `graph.Create` or `graph.TryImport` returns. -/
structure RGResource where
  id : Nat
  deriving DecidableEq

/-- The sizes a frame supplies from outside the graph: the size of the depth target and
the size of the HZB texture kept from the previous frame. -/
structure ViewSizes where
  depthSize : Nat × Nat
  previousHZBSize : Nat × Nat

/-- The size and mip count of a texture descriptor (all 0 for a buffer). -/
structure RGTextureDesc where
  Size2D : Nat × Nat
  Mips : Nat
  deriving DecidableEq

/-- What the graph records about a virtual resource: its name and its descriptor, kept as
a function of the sizes supplied from outside, so that the passes a function registers
can be computed before these sizes are known. -/
structure RGResourceDesc where
  name : String
  desc : ViewSizes → RGTextureDesc

/-- Modelled from the spec: a pass of the graph. `scope` holds the names of the
`RG_GRAPH_SCOPE` blocks open when the pass was added, outermost first; the last four
fields describe the execute closure: the buffers it passes to `context.ExecuteIndirect`,
whether it fills `params.HZBDimensions` and `params.HZB`, the pointer `pSourceHZB` it
captured and the texture it binds as `params.HZB`. -/
structure RGPass where
  name : String
  flags : List RGPassFlag
  scope : List String := []
  reads : List RGResource := []
  writes : List RGResource := []
  renderTargets : List RGResource := []
  depthStencil : Option RGResource := none
  executeIndirect : List RGResource := []
  usesHZB : Bool := false
  pSourceHZB : Option RGResource := none
  hzb : Option RGResource := none

/-- Modelled from the spec: the call `pass.Read({ ... })`; a null resource adds nothing. -/
def RGPass.Read (p : RGPass) (rs : List (Option RGResource)) : RGPass :=
  { p with reads := p.reads ++ rs.filterMap id }

/-- Modelled from the spec: the call `pass.Write({ ... })`; a null resource adds
nothing. -/
def RGPass.Write (p : RGPass) (rs : List (Option RGResource)) : RGPass :=
  { p with writes := p.writes ++ rs.filterMap id }

/-- Modelled from the spec: the call `pass.ReadWrite(resource)`. -/
def RGPass.ReadWrite (p : RGPass) (r : RGResource) : RGPass :=
  { p with reads := p.reads ++ [r], writes := p.writes ++ [r] }

/-- Modelled from the spec: the call `pass.DepthStencil(texture, flags)`. -/
def RGPass.DepthStencil (p : RGPass) (r : RGResource) : RGPass :=
  { p with depthStencil := some r }

/-- Modelled from the spec: the call `pass.RenderTarget(texture, flags)`. -/
def RGPass.RenderTarget (p : RGPass) (r : RGResource) : RGPass :=
  { p with renderTargets := p.renderTargets ++ [r] }

/-- Modelled from the spec: the graph under construction: the resources created or
imported so far (a handle is an index into them), the passes in the order of their
registration, the exported resources and the open `RG_GRAPH_SCOPE` blocks. -/
structure RGGraph where
  resources : List RGResourceDesc := []
  passes : List RGPass := []
  exports : List RGResource := []
  scopes : List String := []

/-- Modelled from the spec: `graph.Create(name, desc)`. -/
def RGGraph.Create (g : RGGraph) (name : String) (desc : ViewSizes → RGTextureDesc) :
    RGGraph × RGResource :=
  ({ g with resources := g.resources ++ [{ name := name, desc := desc }] },
    { id := g.resources.length })

/-- Modelled from the spec: `graph.CreateBuffer(name, desc)` or `graph.Create` of a
buffer. -/
def RGGraph.CreateBuffer (g : RGGraph) (name : String) : RGGraph × RGResource :=
  g.Create name fun _ => { Size2D := (0, 0), Mips := 0 }

/-- Modelled from the spec: `graph.TryImport(texture, fallback)`. -/
def RGGraph.TryImport (g : RGGraph) (name : String) (size : ViewSizes → Nat × Nat) :
    RGGraph × RGResource :=
  g.Create name fun s => { Size2D := size s, Mips := 1 }

/-- Modelled from the spec: `graph.AddPass(name, flags)` followed by the builder calls
that make up `p`. -/
def RGGraph.AddPass (g : RGGraph) (p : RGPass) : RGGraph :=
  { g with passes := g.passes ++ [{ p with scope := g.scopes }] }

/-- Modelled from the spec: `graph.Export(resource, target, flags)`. -/
def RGGraph.Export (g : RGGraph) (r : RGResource) : RGGraph :=
  { g with exports := g.exports ++ [r] }

/-- Modelled from the spec: the start of an `RG_GRAPH_SCOPE(name, graph)` block. -/
def RGGraph.PushScope (g : RGGraph) (name : String) : RGGraph :=
  { g with scopes := g.scopes ++ [name] }

/-- Modelled from the spec: the end of an `RG_GRAPH_SCOPE` block. -/
def RGGraph.PopScope (g : RGGraph) : RGGraph :=
  { g with scopes := g.scopes.dropLast }

/-- The size the graph records for a resource, `resource->GetDesc().Size2D()`. -/
def RGGraph.Size2D (g : RGGraph) (r : RGResource) (s : ViewSizes) : Nat × Nat :=
  match g.resources.get? r.id with
  | some d => (d.desc s).Size2D
  | none => (0, 0)

/-- A Raster pass declares a render target or a depth-stencil target, and a Compute pass
declares neither. -/
def RGPass.targetsMatchFlag (p : RGPass) : Prop :=
  (RGPassFlag.Raster ∈ p.flags → p.renderTargets ≠ [] ∨ p.depthStencil ≠ none) ∧
  (RGPassFlag.Compute ∈ p.flags → p.renderTargets = [] ∧ p.depthStencil = none)

instance (p : RGPass) : Decidable p.targetsMatchFlag :=
  inferInstanceAs (Decidable
    ((RGPassFlag.Raster ∈ p.flags → p.renderTargets ≠ [] ∨ p.depthStencil ≠ none) ∧
     (RGPassFlag.Compute ∈ p.flags → p.renderTargets = [] ∧ p.depthStencil = none)))

/-- Checks, pass by pass, that each buffer a pass hands to `ExecuteIndirect` is among its
reads and among the writes of a pass in `earlier`, the passes before it. -/
def indirectArgsDeclared : List RGPass → List RGPass → Bool
  | _, [] => true
  | earlier, p :: rest =>
    (p.executeIndirect.all fun b =>
      decide (b ∈ p.reads) && earlier.any fun q => decide (b ∈ q.writes)) &&
    indirectArgsDeclared (earlier ++ [p]) rest

end RenderGraph

namespace MeshletRasterizer

open RenderGraph

/-! ### The passes registered by `MeshletRasterizer::Render` -/

/-- The enumeration `RasterMode`. -/
inductive RasterMode where
  | VisibilityBuffer
  | Shadows
  deriving DecidableEq

/-- The enumeration `RasterPhase`. -/
inductive RasterPhase where
  | Phase1
  | Phase2
  deriving DecidableEq

/-- The structure `RasterContext`; the texture `*pPreviousHZB` is imported in phase 1 with
the size `ViewSizes.previousHZBSize`. -/
structure RasterContext where
  Mode : RasterMode
  pDepth : RGResource
  EnableOcclusionCulling : Bool
  EnableDebug : Bool
  WorkGraph : Bool
  pCandidateMeshlets : RGResource
  pVisibleMeshlets : RGResource
  pOccludedInstances : RGResource
  pOccludedInstancesCounter : RGResource
  pCandidateMeshletsCounter : RGResource
  pVisibleMeshletsCounter : RGResource
  pBinnedMeshletOffsetAndCounts : Option RGResource × Option RGResource := (none, none)

/-- The structure `RasterResult`. -/
structure RasterResult where
  pHZB : Option RGResource := none
  pVisibilityBuffer : Option RGResource := none
  pVisibleMeshlets : Option RGResource := none
  pDebugData : Option RGResource := none

/-- What `Render` reads besides the raster context: `pView->FreezeCull` and
`m_pDevice->GetCapabilities().SupportsWorkGraphs()`. -/
structure RenderEnv where
  FreezeCull : Bool
  SupportsWorkGraphs : Bool

/-- The constructor `RasterContext::RasterContext(graph, pDepth, mode, pPreviousHZB)`,
followed by the caller setting the three switches. -/
def RasterContext.create (graph : RGGraph) (pDepth : RGResource) (mode : RasterMode)
    (enableOcclusionCulling enableDebug workGraph : Bool) :
    RGGraph × RasterContext :=
  let (graph, pCandidateMeshlets) := graph.CreateBuffer "GPURender.CandidateMeshlets"
  let (graph, pVisibleMeshlets) := graph.CreateBuffer "GPURender.VisibleMeshlets"
  let (graph, pOccludedInstances) := graph.CreateBuffer "GPURender.OccludedInstances"
  let (graph, pOccludedInstancesCounter) :=
    graph.CreateBuffer "GPURender.OccludedInstances.Counter"
  let (graph, pCandidateMeshletsCounter) :=
    graph.CreateBuffer "GPURender.CandidateMeshlets.Counter"
  let (graph, pVisibleMeshletsCounter) := graph.CreateBuffer "GPURender.VisibleMeshlets.Counter"
  (graph,
    { Mode := mode, pDepth := pDepth,
      EnableOcclusionCulling := enableOcclusionCulling, EnableDebug := enableDebug,
      WorkGraph := workGraph,
      pCandidateMeshlets := pCandidateMeshlets, pVisibleMeshlets := pVisibleMeshlets,
      pOccludedInstances := pOccludedInstances,
      pOccludedInstancesCounter := pOccludedInstancesCounter,
      pCandidateMeshletsCounter := pCandidateMeshletsCounter,
      pVisibleMeshletsCounter := pVisibleMeshletsCounter })

/-- The function `MeshletRasterizer::BuildHZB(graph, pDepth, pHZB)`: the passes
"HZB Create" and "HZB Mips" inside the scope "HZB". -/
def BuildHZB (graph : RGGraph) (pDepth : RGResource) (pHZB : Option RGResource) : RGGraph :=
  let graph := graph.PushScope "HZB"
  let graph := graph.AddPass
    (({ name := "HZB Create", flags := [RGPassFlag.Compute] } : RGPass).Read [some pDepth]
      |>.Write [pHZB])
  let (graph, pSPDCounter) := graph.CreateBuffer "SPD.Counter"
  let graph := graph.AddPass
    (({ name := "HZB Mips", flags := [RGPassFlag.Compute] } : RGPass).Write
      [pHZB, some pSPDCounter])
  graph.PopScope

/-- The value of `params.HZBDimensions` when the closure of a pass runs:
`pSourceHZB ? pSourceHZB->GetDesc().Size2D() : Vector2u(0, 0)`. -/
def HZBDimensions (graph : RGGraph) (pSourceHZB : Option RGResource) (s : ViewSizes) :
    Nat × Nat :=
  match pSourceHZB with
  | some r => graph.Size2D r s
  | none => (0, 0)

/-- The value of `params.HZB`:
`EnableOcclusionCulling ? resources.GetSRV(pSourceHZB) : TextureView::Invalid()`. -/
def sourceHZBView (rasterContext : RasterContext) (pSourceHZB : Option RGResource) :
    Option RGResource :=
  if rasterContext.EnableOcclusionCulling then pSourceHZB else none

/-- The work graph branch of `CullAndRasterize`: the passes "Clear Raster Bins" and
"Work Graph". -/
def CullAndRasterize_workGraph (graph : RGGraph) (rasterContext : RasterContext)
    (pSourceHZB : Option RGResource) (pMeshletOffsetAndCounts pBinnedMeshlets : RGResource) :
    RGGraph :=
  let graph := graph.AddPass
    (({ name := "Clear Raster Bins", flags := [RGPassFlag.Compute] } : RGPass).Write
      [some pMeshletOffsetAndCounts])
  let (graph, pWorkGraphBuffer) := graph.CreateBuffer "Work Graph Buffer"
  let wgPass : RGPass :=
    ({ name := "Work Graph", flags := [RGPassFlag.Compute],
       usesHZB := true, pSourceHZB := pSourceHZB,
       hzb := sourceHZBView rasterContext pSourceHZB } : RGPass).Write [some pWorkGraphBuffer]
      |>.Write [some pBinnedMeshlets, some pMeshletOffsetAndCounts]
      |>.Write [some rasterContext.pCandidateMeshlets,
          some rasterContext.pCandidateMeshletsCounter]
      |>.Write [some rasterContext.pOccludedInstances,
          some rasterContext.pOccludedInstancesCounter]
      |>.Write [some rasterContext.pVisibleMeshlets,
          some rasterContext.pVisibleMeshletsCounter]
  let wgPass := if rasterContext.EnableOcclusionCulling then wgPass.Read [pSourceHZB] else wgPass
  graph.AddPass wgPass

end MeshletRasterizer

namespace MeshletRasterizer

open RenderGraph

/-- The compute branch of `CullAndRasterize`, inside the scope "Instance/Meshlet
Culling": the passes that build the indirect arguments, cull instances and meshlets and,
inside the scope "Classify Shader Types", bin the visible meshlets. -/
def CullAndRasterize_compute (graph : RGGraph) (rasterPhase : RasterPhase)
    (rasterContext : RasterContext) (pSourceHZB : Option RGResource)
    (pMeshletOffsetAndCounts pBinnedMeshlets : RGResource) : RGGraph :=
  let graph := graph.PushScope "Instance/Meshlet Culling"
  -- if (rasterPhase == RasterPhase::Phase2) "Build Instance Cull Arguments"
  let (graph, pInstanceCullArgs) : RGGraph × Option RGResource :=
    if rasterPhase = RasterPhase.Phase2 then
      let (graph, pInstanceCullArgs) := graph.CreateBuffer "GPURender.InstanceCullArgs"
      let graph := graph.AddPass
        (({ name := "Build Instance Cull Arguments", flags := [RGPassFlag.Compute] } : RGPass).Read
            [some rasterContext.pOccludedInstancesCounter]
          |>.Write [some pInstanceCullArgs])
      (graph, some pInstanceCullArgs)
    else (graph, none)
  -- "Cull Instances": Dispatch in phase 1, ExecuteIndirect(pInstanceCullArgs) in phase 2
  let cullInstancePass : RGPass :=
    ({ name := "Cull Instances", flags := [RGPassFlag.Compute],
       usesHZB := true, pSourceHZB := pSourceHZB,
       hzb := sourceHZBView rasterContext pSourceHZB,
       executeIndirect :=
         if rasterPhase = RasterPhase.Phase1 then [] else pInstanceCullArgs.toList } : RGPass).Write
      [some rasterContext.pCandidateMeshlets, some rasterContext.pCandidateMeshletsCounter,
        some rasterContext.pOccludedInstances, some rasterContext.pOccludedInstancesCounter]
  let cullInstancePass :=
    if rasterPhase = RasterPhase.Phase2 then cullInstancePass.Read [pInstanceCullArgs]
    else cullInstancePass
  let cullInstancePass :=
    if rasterContext.EnableOcclusionCulling then cullInstancePass.Read [pSourceHZB]
    else cullInstancePass
  let graph := graph.AddPass cullInstancePass
  let (graph, pMeshletCullArgs) := graph.CreateBuffer "GPURender.MeshletCullArgs"
  let graph := graph.AddPass
    (({ name := "Build Meshlet Cull Arguments", flags := [RGPassFlag.Compute] } : RGPass).Read
        [some rasterContext.pCandidateMeshletsCounter]
      |>.Write [some pMeshletCullArgs])
  let meshletCullPass : RGPass :=
    ({ name := "Cull Meshlets", flags := [RGPassFlag.Compute],
       usesHZB := true, pSourceHZB := pSourceHZB,
       hzb := sourceHZBView rasterContext pSourceHZB,
       executeIndirect := [pMeshletCullArgs] } : RGPass).Read [some pMeshletCullArgs]
      |>.Write [some rasterContext.pCandidateMeshlets,
          some rasterContext.pCandidateMeshletsCounter, some rasterContext.pVisibleMeshlets,
          some rasterContext.pVisibleMeshletsCounter]
  let meshletCullPass :=
    if rasterContext.EnableOcclusionCulling then meshletCullPass.Read [pSourceHZB]
    else meshletCullPass
  let graph := graph.AddPass meshletCullPass
  let graph := graph.PushScope "Classify Shader Types"
  let (graph, pMeshletCounts) := graph.CreateBuffer "GPURender.Classify.MeshletCounts"
  let (graph, pGlobalCount) := graph.CreateBuffer "GPURender.Classify.GlobalCount"
  let (graph, pClassifyArgs) := graph.CreateBuffer "GPURender.Classify.Args"
  let graph := graph.AddPass
    (({ name := "Prepare Classify", flags := [RGPassFlag.Compute] } : RGPass).Write
        [some pMeshletCounts, some pGlobalCount, some pClassifyArgs]
      |>.Read [some rasterContext.pVisibleMeshletsCounter])
  let graph := graph.AddPass
    (({ name := "Count Meshlets", flags := [RGPassFlag.Compute],
        executeIndirect := [pClassifyArgs] } : RGPass).Read [some pClassifyArgs]
      |>.Read [some rasterContext.pVisibleMeshletsCounter, some rasterContext.pVisibleMeshlets]
      |>.Write [some pMeshletCounts])
  let graph := graph.AddPass
    (({ name := "Compute Bin Offsets", flags := [RGPassFlag.Compute] } : RGPass).Read
        [some pMeshletCounts]
      |>.Write [some pGlobalCount, some pMeshletOffsetAndCounts])
  let graph := graph.AddPass
    (({ name := "Write Bins", flags := [RGPassFlag.Compute],
        executeIndirect := [pClassifyArgs] } : RGPass).Read [some pClassifyArgs]
      |>.Read [some rasterContext.pVisibleMeshletsCounter, some rasterContext.pVisibleMeshlets]
      |>.Write [some pMeshletOffsetAndCounts, some pBinnedMeshlets])
  let graph := graph.PopScope
  graph.PopScope

/-- The function `MeshletRasterizer::CullAndRasterize(graph, pView, rasterPhase,
rasterContext, outResult)`. -/
def CullAndRasterize (env : RenderEnv) (graph : RGGraph) (rasterPhase : RasterPhase)
    (rasterContext : RasterContext) (outResult : RasterResult) : RGGraph × RasterContext :=
  -- In Phase 1, read from the previous frame's HZB
  let (graph, pSourceHZB) : RGGraph × Option RGResource :=
    if rasterContext.EnableOcclusionCulling then
      if rasterPhase = RasterPhase.Phase1 then
        let (graph, r) := graph.TryImport "PreviousHZB" ViewSizes.previousHZBSize
        (graph, some r)
      else (graph, outResult.pHZB)
    else (graph, none)
  let (graph, pMeshletOffsetAndCounts) :=
    graph.CreateBuffer "GPURender.Classify.MeshletOffsetAndCounts"
  let (graph, pBinnedMeshlets) := graph.CreateBuffer "GPURender.Classify.BinnedMeshlets"
  let rasterContext : RasterContext :=
    { rasterContext with
      pBinnedMeshletOffsetAndCounts :=
        if rasterPhase = RasterPhase.Phase1 then
          (some pMeshletOffsetAndCounts, rasterContext.pBinnedMeshletOffsetAndCounts.2)
        else (rasterContext.pBinnedMeshletOffsetAndCounts.1, some pMeshletOffsetAndCounts) }
  let graph :=
    if rasterContext.WorkGraph && env.SupportsWorkGraphs then
      CullAndRasterize_workGraph graph rasterContext pSourceHZB pMeshletOffsetAndCounts
        pBinnedMeshlets
    else
      CullAndRasterize_compute graph rasterPhase rasterContext pSourceHZB
        pMeshletOffsetAndCounts pBinnedMeshlets
  -- "Rasterize": one ExecuteIndirect on pMeshletOffsetAndCounts for each bin
  let drawPass : RGPass :=
    ({ name := "Rasterize", flags := [RGPassFlag.Raster],
       executeIndirect := [pMeshletOffsetAndCounts] } : RGPass).Read
        [some rasterContext.pVisibleMeshlets, some pMeshletOffsetAndCounts,
          some pBinnedMeshlets]
      |>.Write [outResult.pDebugData]
      |>.DepthStencil rasterContext.pDepth
  let drawPass :=
    match outResult.pVisibilityBuffer with
    | some pVisibilityBuffer => drawPass.RenderTarget pVisibilityBuffer
    | none => drawPass
  let graph := graph.AddPass drawPass
  let graph :=
    if rasterContext.EnableOcclusionCulling && !env.FreezeCull then
      BuildHZB graph rasterContext.pDepth outResult.pHZB
    else graph
  (graph, rasterContext)

/-- The function `MeshletRasterizer::Render(graph, pView, rasterContext, outResult)`. -/
def Render (env : RenderEnv) (graph : RGGraph) (rasterContext : RasterContext)
    (outResult : RasterResult) : RGGraph × RasterContext × RasterResult :=
  let graph := graph.PushScope "Cull and Rasterize"
  let dimensions := graph.Size2D rasterContext.pDepth
  let outResult : RasterResult := { outResult with pHZB := none, pVisibilityBuffer := none }
  let (graph, outResult) : RGGraph × RasterResult :=
    if rasterContext.Mode = RasterMode.VisibilityBuffer then
      let (graph, r) := graph.Create "Visibility" fun s =>
        { Size2D := dimensions s, Mips := 1 }
      (graph, { outResult with pVisibilityBuffer := some r })
    else (graph, outResult)
  let (graph, outResult) : RGGraph × RasterResult :=
    if rasterContext.EnableOcclusionCulling then
      let (graph, r) := graph.Create "HZB" fun s =>
        { Size2D := ((InitHZB (dimensions s)).Width, (InitHZB (dimensions s)).Height),
          Mips := (InitHZB (dimensions s)).Mips }
      (graph.Export r, { outResult with pHZB := some r })
    else (graph, outResult)
  let (graph, outResult) : RGGraph × RasterResult :=
    if rasterContext.EnableDebug then
      let (graph, r) := graph.Create "GPURender.DebugData" fun s =>
        { Size2D := dimensions s, Mips := 1 }
      (graph, { outResult with pDebugData := some r })
    else (graph, outResult)
  -- Clear all counters
  let clearPass : RGPass :=
    ({ name := "Clear UAVs", flags := [RGPassFlag.Compute] } : RGPass).Write
      [some rasterContext.pCandidateMeshletsCounter,
        some rasterContext.pOccludedInstancesCounter,
        some rasterContext.pVisibleMeshletsCounter]
  let clearPass :=
    match outResult.pDebugData with
    | some pDebugData => clearPass.Write [some pDebugData]
    | none => clearPass
  let graph := graph.AddPass clearPass
  let graph := graph.PushScope "Phase 1"
  let (graph, rasterContext) :=
    CullAndRasterize env graph RasterPhase.Phase1 rasterContext outResult
  let graph := graph.PopScope
  let (graph, rasterContext) : RGGraph × RasterContext :=
    if rasterContext.EnableOcclusionCulling then
      let graph := graph.PushScope "Phase 2"
      let (graph, rasterContext) :=
        CullAndRasterize env graph RasterPhase.Phase2 rasterContext outResult
      (graph.PopScope, rasterContext)
    else (graph, rasterContext)
  let outResult := { outResult with pVisibleMeshlets := some rasterContext.pVisibleMeshlets }
  (graph.PopScope, rasterContext, outResult)

/-- The switches a call of `Render` depends on. -/
structure RenderConfig where
  Mode : RasterMode
  EnableOcclusionCulling : Bool
  EnableDebug : Bool
  WorkGraph : Bool
  SupportsWorkGraphs : Bool
  FreezeCull : Bool

/-- A call of `Render` in a fresh graph: the caller creates the depth target and the
raster context, sets the switches and passes a fresh `RasterResult`. -/
def renderGraphOf (cfg : RenderConfig) : RGGraph × RasterContext × RasterResult :=
  let graph : RGGraph := {}
  let (graph, pDepth) := graph.Create "Depth" fun s => { Size2D := s.depthSize, Mips := 1 }
  let (graph, rasterContext) :=
    RasterContext.create graph pDepth cfg.Mode cfg.EnableOcclusionCulling cfg.EnableDebug
      cfg.WorkGraph
  Render { FreezeCull := cfg.FreezeCull, SupportsWorkGraphs := cfg.SupportsWorkGraphs } graph
    rasterContext {}

end MeshletRasterizer

namespace TiledForward

open RenderGraph

/-! ### The passes registered by `TiledForward` -/

/-- The constant `MAX_LIGHT_DENSITY`. -/
def MAX_LIGHT_DENSITY : Nat := 72000

/-- The constant `FORWARD_PLUS_BLOCK_SIZE`. -/
def FORWARD_PLUS_BLOCK_SIZE : Nat := 16

/-- Modelled from the spec: `Math::DivideAndRoundUp` of Math.h, which is not among the
sources; the number of tiles of the given size needed to cover an extent. -/
def DivideAndRoundUp (nominator denominator : Nat) : Nat :=
  (nominator + denominator - 1) / denominator

/-- The members of `SceneTextures` the tiled forward passes use. -/
structure SceneTextures where
  Depth : RGResource
  AmbientOcclusion : RGResource
  PreviousColor : RGResource
  ColorTarget : RGResource
  Normals : RGResource
  Roughness : RGResource

/-- The structure `CullBlackboardData`. -/
structure CullBlackboardData where
  LightGridOpaque : RGResource

/-- Modelled from the spec: `graph.AddCopyPass(name, source, target)`, a pass with the
flag Copy that reads `source` and writes `target`. -/
def AddCopyPass (graph : RGGraph) (name : String) (source target : RGResource) : RGGraph :=
  graph.AddPass
    (({ name := name, flags := [RGPassFlag.Copy] } : RGPass).Read [some source]
      |>.Write [some target])

/-- The function `TiledForward::Execute(graph, view, sceneTextures)`; the view has the size
of the depth target. -/
def Execute (graph : RGGraph) (sceneTextures : SceneTextures) : RGGraph × CullBlackboardData :=
  let lightGridDesc : ViewSizes → RGTextureDesc := fun s =>
    { Size2D := (DivideAndRoundUp s.depthSize.1 FORWARD_PLUS_BLOCK_SIZE,
        DivideAndRoundUp s.depthSize.2 FORWARD_PLUS_BLOCK_SIZE), Mips := 1 }
  let (graph, lightGridOpaque) := graph.Create "Light Grid - Opaque" lightGridDesc
  let (graph, lightGridTransparant) := graph.Create "Light Grid - Transparant" lightGridDesc
  let (graph, lightIndexCounter) := graph.CreateBuffer "Light Index Counter"
  let (graph, lightIndexListOpaque) := graph.CreateBuffer "Light List - Opaque"
  let (graph, lightIndexListTransparant) := graph.CreateBuffer "Light List - Transparant"
  let graph := graph.AddPass
    (({ name := "Tiled Light Culling", flags := [RGPassFlag.Compute] } : RGPass).Read
        [some sceneTextures.Depth]
      |>.Write [some lightGridOpaque, some lightGridTransparant, some lightIndexListOpaque,
          some lightIndexListTransparant]
      |>.ReadWrite lightIndexCounter)
  let graph := graph.AddPass
    (({ name := "Base Pass", flags := [RGPassFlag.Raster] } : RGPass).Read
        [some sceneTextures.AmbientOcclusion, some sceneTextures.PreviousColor]
      |>.Read [some lightGridOpaque, some lightGridTransparant, some lightIndexListOpaque,
          some lightIndexListTransparant]
      |>.DepthStencil sceneTextures.Depth
      |>.RenderTarget sceneTextures.ColorTarget
      |>.RenderTarget sceneTextures.Normals
      |>.RenderTarget sceneTextures.Roughness)
  (graph, { LightGridOpaque := lightGridOpaque })

/-- The function `TiledForward::VisualizeLightDensity(graph, pDevice, view,
sceneTextures)`, with the blackboard data left by `Execute`. -/
def VisualizeLightDensity (graph : RGGraph) (sceneTextures : SceneTextures)
    (blackboardData : CullBlackboardData) : RGGraph :=
  let (graph, visualizationIntermediate) :=
    graph.Create "Light Density Debug Texture" fun s =>
      { Size2D := graph.Size2D sceneTextures.ColorTarget s, Mips := 1 }
  let lightGridOpaque := blackboardData.LightGridOpaque
  let graph := AddCopyPass graph "Cache Scene Color" sceneTextures.ColorTarget
    visualizationIntermediate
  graph.AddPass
    (({ name := "Visualize Light Density", flags := [RGPassFlag.Raster] } : RGPass).Read
        [some sceneTextures.Depth, some visualizationIntermediate, some lightGridOpaque]
      |>.Write [some sceneTextures.ColorTarget])

/-- A frame that runs `Execute` and then `VisualizeLightDensity` in a fresh graph holding
the scene textures. -/
def tiledForwardGraph : RGGraph :=
  let graph : RGGraph := {}
  let sceneDesc : ViewSizes → RGTextureDesc := fun s => { Size2D := s.depthSize, Mips := 1 }
  let (graph, depth) := graph.Create "Depth" sceneDesc
  let (graph, ambientOcclusion) := graph.Create "AmbientOcclusion" sceneDesc
  let (graph, previousColor) := graph.Create "PreviousColor" sceneDesc
  let (graph, colorTarget) := graph.Create "ColorTarget" sceneDesc
  let (graph, normals) := graph.Create "Normals" sceneDesc
  let (graph, roughness) := graph.Create "Roughness" sceneDesc
  let sceneTextures : SceneTextures :=
    { Depth := depth, AmbientOcclusion := ambientOcclusion, PreviousColor := previousColor,
      ColorTarget := colorTarget, Normals := normals, Roughness := roughness }
  let (graph, blackboardData) := Execute graph sceneTextures
  VisualizeLightDensity graph sceneTextures blackboardData

end TiledForward

namespace MeshletRasterizer

/-! ### The backing buffer of the work graph pass -/

/-- The enumeration `D3D12_SET_WORK_GRAPH_FLAGS`. -/
inductive D3D12_SET_WORK_GRAPH_FLAGS where
  | D3D12_SET_WORK_GRAPH_FLAG_NONE
  | D3D12_SET_WORK_GRAPH_FLAG_INITIALIZE
  deriving DecidableEq

/-- The member `m_pWorkGraphBuffer[2]`: for each phase index the buffer remembered from
the previous execution, `none` for a null pointer. A physical buffer is named by a
number. -/
abbrev WorkGraphBuffers := Fin 2 → Option Nat

/-- Modelled from the spec: the value of `m_pWorkGraphBuffer` before the first execution;
MeshletRasterizer.h is not among the sources, both pointers start as null. -/
def WorkGraphBuffers.initial : WorkGraphBuffers := fun _ => none

/-- The index `psoPhaseIndex = rasterPhase == RasterPhase::Phase1 ? 0 : 1`. -/
def psoPhaseIndex (rasterPhase : RasterPhase) : Fin 2 :=
  if rasterPhase = RasterPhase.Phase1 then 0 else 1

/-- One execution of the closure of the "Work Graph" pass, as far as the backing buffer
goes; `resolved` is `resources.Get(pWorkGraphBuffer)`. Returns `programDesc.WorkGraph.Flags`
and `m_pWorkGraphBuffer` after `m_pWorkGraphBuffer[psoPhaseIndex] = resolved`. -/
def workGraphExecute (m : WorkGraphBuffers) (rasterPhase : RasterPhase) (resolved : Nat) :
    D3D12_SET_WORK_GRAPH_FLAGS × WorkGraphBuffers :=
  let flags :=
    if some resolved ≠ m (psoPhaseIndex rasterPhase) then
      D3D12_SET_WORK_GRAPH_FLAGS.D3D12_SET_WORK_GRAPH_FLAG_INITIALIZE
    else D3D12_SET_WORK_GRAPH_FLAGS.D3D12_SET_WORK_GRAPH_FLAG_NONE
  (flags, Function.update m (psoPhaseIndex rasterPhase) (some resolved))

/-- The value of `m_pWorkGraphBuffer` after a sequence of executions, each given by its
phase and its resolved buffer. -/
def workGraphRun (m : WorkGraphBuffers) : List (RasterPhase × Nat) → WorkGraphBuffers
  | [] => m
  | e :: rest => workGraphRun (workGraphExecute m e.1 e.2).2 rest

/-- The buffer resolved by the last execution of the given phase in a sequence of
executions, if there is one. -/
def lastResolved (executions : List (RasterPhase × Nat)) (rasterPhase : RasterPhase) :
    Option Nat :=
  (executions.reverse.find? fun e => decide (e.1 = rasterPhase)).map Prod.snd

end MeshletRasterizer

namespace DemoApp

/-! ### The file name of a screenshot -/

/-- The structure `SYSTEMTIME` filled by `GetSystemTime`; every member is a `WORD`. -/
structure SYSTEMTIME where
  wYear : Nat
  wMonth : Nat
  wDayOfWeek : Nat
  wDay : Nat
  wHour : Nat
  wMinute : Nat
  wSecond : Nat
  wMilliseconds : Nat

/-- The ranges of the members of a `SYSTEMTIME` returned by `GetSystemTime`. -/
def SYSTEMTIME.valid (t : SYSTEMTIME) : Prop :=
  1601 ≤ t.wYear ∧ t.wYear ≤ 30827 ∧ 1 ≤ t.wMonth ∧ t.wMonth ≤ 12 ∧ t.wDayOfWeek ≤ 6 ∧
  1 ≤ t.wDay ∧ t.wDay ≤ 31 ∧ t.wHour ≤ 23 ∧ t.wMinute ≤ 59 ∧ t.wSecond ≤ 59 ∧
  t.wMilliseconds ≤ 999

/-- An argument of a `printf`-style call. -/
inductive FormatArg where
  | str (s : List Char)
  | int (z : Int)

/-- The decimal digits of a natural number, most significant first. -/
def decimal (n : Nat) : List Char :=
  if n = 0 then ['0'] else (Nat.digits 10 n).reverse.map Nat.digitChar

/-- The text of a `%d` conversion with an optional `0` flag and a minimum width. -/
def formatInt (zeroPad : Bool) (width : Nat) (z : Int) : List Char :=
  let digits := decimal z.natAbs
  let sign : List Char := if z < 0 then ['-'] else []
  let padding := width - (sign.length + digits.length)
  if zeroPad then sign ++ List.replicate padding '0' ++ digits
  else List.replicate padding ' ' ++ sign ++ digits

/-- The text of a `%s` conversion with a minimum width. -/
def formatStr (width : Nat) (s : List Char) : List Char :=
  List.replicate (width - s.length) ' ' ++ s

/-- The `printf` conversion of a format string, character by character; `spec` is `none`
outside a conversion specification and holds the `0` flag and the width read so far
inside one. The conversions are `%d`, `%s` and `%%`; another one, or an argument of the
wrong kind, is undefined behaviour (`none`). -/
def formatGo : Option (Bool × Nat) → List Char → List FormatArg → Option (List Char)
  | none, [], _ => some []
  | none, c :: rest, args =>
    if c = '%' then formatGo (some (false, 0)) rest args
    else (formatGo none rest args).map fun out => c :: out
  | some _, [], _ => none
  | some (zeroPad, width), c :: rest, args =>
    if c = '0' ∧ width = 0 ∧ zeroPad = false then formatGo (some (true, 0)) rest args
    else if c.isDigit then formatGo (some (zeroPad, 10 * width + (c.toNat - 48))) rest args
    else if c = 'd' then
      match args with
      | .int z :: args => (formatGo none rest args).map fun out => formatInt zeroPad width z ++ out
      | _ => none
    else if c = 's' then
      match args with
      | .str s :: args => (formatGo none rest args).map fun out => formatStr width s ++ out
      | _ => none
    else if c = '%' then (formatGo none rest args).map fun out => '%' :: out
    else none

/-- Modelled from the spec: `FormatString(pBuffer, bufferSize, pFormat, ...)`, a helper
that is not among the sources: the `printf` conversion of the format written to the
buffer when it fits with its terminator; what the helper does when it does not fit is not
modelled (`none`). -/
def FormatString (bufferSize : Nat) (pFormat : List Char) (args : List FormatArg) :
    Option (List Char) :=
  match formatGo none pFormat args with
  | some out => if out.length + 1 ≤ bufferSize then some out else none
  | none => none

/-- The path `filePath` of a screenshot in `DemoApp::Update`, for the directory
`Paths::ScreenshotDir()` and the time `GetSystemTime` returned. -/
def screenshotFilePath (screenshotDir : List Char) (time : SYSTEMTIME) : Option (List Char) :=
  FormatString 128 "%sScreenshot_%d_%02d_%02d__%02d_%02d_%02d_%d.png".toList
    [.str screenshotDir, .int time.wYear, .int time.wMonth, .int time.wDay, .int time.wHour,
      .int time.wMinute, .int time.wSecond, .int time.wMilliseconds]

/-- The two decimal digits of a number below 100, a leading zero included. -/
def twoDigits (n : Nat) : List Char := [Nat.digitChar (n / 10), Nat.digitChar (n % 10)]

end DemoApp

namespace DemoApp

/-! ### The screenshot queue of `DemoApp::Update` -/

/-- The members of `ScreenshotRequest`: the extent and row pitch of the captured target, the
read-back buffer (by identity) and the fence value `pContext->Execute(false)` returned for
the copy. -/
structure ScreenshotRequest where
  Width : Nat
  Height : Nat
  RowPitch : Nat
  pBuffer : Nat
  Fence : Nat

/-- What one call of `DemoApp::Update` sees of its surroundings in the screenshot block:
`Tweakables::g_Screenshot`, the request the first `if` builds when that flag is set, and the
answers of `m_pDevice->IsFenceComplete` during this call. -/
structure ScreenshotFrame where
  g_Screenshot : Bool
  request : ScreenshotRequest
  IsFenceComplete : Nat → Bool

/-- The state the screenshot block works on: the frame counter `m_Frame`, the queue
`m_ScreenshotBuffers` (front first) and the encoding tasks given to `TaskQueue::Execute` so
far, oldest first, each with the frame in which it was given. -/
structure ScreenshotState where
  m_Frame : Nat
  m_ScreenshotBuffers : List ScreenshotRequest
  tasks : List (Nat × ScreenshotRequest)

/-- The state before the first `Update`. -/
def ScreenshotState.initial : ScreenshotState :=
  { m_Frame := 0, m_ScreenshotBuffers := [], tasks := [] }

/-- The loop `while (!m_ScreenshotBuffers.empty() &&
m_pDevice->IsFenceComplete(m_ScreenshotBuffers.front().Fence))`: the body gives a copy of
the front request to `TaskQueue::Execute` and pops it. The result is the queue and the task
list after the loop. -/
def drainScreenshots (IsFenceComplete : Nat → Bool) (frame : Nat) :
    List ScreenshotRequest → List (Nat × ScreenshotRequest) →
      List ScreenshotRequest × List (Nat × ScreenshotRequest)
  | [], tasks => ([], tasks)
  | request :: rest, tasks =>
    if IsFenceComplete request.Fence then
      drainScreenshots IsFenceComplete frame rest (tasks ++ [(frame, request)])
    else (request :: rest, tasks)

/-- The screenshot block of one `DemoApp::Update`, followed by the `++m_Frame` at the end of
the frame: a set `g_Screenshot` flag emplaces the new request at the back of the queue, then
the queue is drained. -/
def updateScreenshots (st : ScreenshotState) (f : ScreenshotFrame) : ScreenshotState :=
  let queue :=
    if f.g_Screenshot then st.m_ScreenshotBuffers ++ [f.request] else st.m_ScreenshotBuffers
  let r := drainScreenshots f.IsFenceComplete st.m_Frame queue st.tasks
  { m_Frame := st.m_Frame + 1, m_ScreenshotBuffers := r.1, tasks := r.2 }

/-- The state after a sequence of `Update` calls. -/
def runScreenshots (frames : List ScreenshotFrame) : ScreenshotState :=
  frames.foldl updateScreenshots ScreenshotState.initial

/-- The requests emplaced during a sequence of `Update` calls, in the order of the calls. -/
def requested (frames : List ScreenshotFrame) : List ScreenshotRequest :=
  (frames.filter fun f => f.g_Screenshot).map fun f => f.request

end DemoApp

namespace ClusteredForward

/-! ### The light-scattering volumes of the volumetric fog -/

/-- The index into `m_pLightScatteringVolume` of `pSourceVolume` in
`ClusteredForward::Execute`: `resources.FrameIndex % 2`. -/
def sourceVolumeIndex (FrameIndex : Nat) : Nat := FrameIndex % 2

/-- The index into `m_pLightScatteringVolume` of `pDestinationVolume`:
`(resources.FrameIndex + 1) % 2`. -/
def destinationVolumeIndex (FrameIndex : Nat) : Nat := (FrameIndex + 1) % 2

/-- The light-scattering volumes the "Inject Volume Lights" pass binds: `pSourceVolume` as
the third entry of `srvs` (root parameter 3) and `pDestinationVolume` as the UAV of root
parameter 2. -/
structure InjectVolumeLights where
  srvVolume : Nat
  uavVolume : Nat
  deriving DecidableEq

/-- The "Inject Volume Lights" pass of the frame with index `FrameIndex`. -/
def injectVolumeLighting (FrameIndex : Nat) : InjectVolumeLights :=
  { srvVolume := sourceVolumeIndex FrameIndex, uavVolume := destinationVolumeIndex FrameIndex }

end ClusteredForward

namespace DemoApp

/-! ### The frustum slice of a shadow cascade -/

/-- A `Vector3`. -/
structure Vector3 where
  x : ℝ
  y : ℝ
  z : ℝ

/-- The sum `a + b` of two `Vector3`. -/
def Vector3.add (a b : Vector3) : Vector3 :=
  { x := a.x + b.x, y := a.y + b.y, z := a.z + b.z }

/-- The difference `a - b` of two `Vector3`. -/
def Vector3.sub (a b : Vector3) : Vector3 :=
  { x := a.x - b.x, y := a.y - b.y, z := a.z - b.z }

/-- The product `k * v` of a scalar and a `Vector3`. -/
def Vector3.scale (k : ℝ) (v : Vector3) : Vector3 :=
  { x := k * v.x, y := k * v.y, z := k * v.z }

/-- The call `v.Length()`. -/
noncomputable def Vector3.Length (v : Vector3) : ℝ :=
  Real.sqrt (v.x * v.x + v.y * v.y + v.z * v.z)

/-- The call `v.Normalize()`: `v` divided by its length; the zero vector stays as it is. -/
noncomputable def Vector3.Normalize (v : Vector3) : Vector3 :=
  if v.Length = 0 then v else Vector3.scale (1 / v.Length) v

/-- The local `previousCascadeSplit` of cascade `i` in `DemoApp::Update`:
`i == 0 ? minPoint : cascadeSplits[i - 1]`. -/
noncomputable def previousCascadeSplit (n f minPoint maxPoint pssmFactor : ℝ)
    (shadowCascades : Nat) (i : Nat) : ℝ :=
  if i = 0 then minPoint
  else cascadeSplit n f minPoint maxPoint pssmFactor shadowCascades (i - 1)

/-- The local `currentCascadeSplit` of cascade `i`: `cascadeSplits[i]`. -/
noncomputable def currentCascadeSplit (n f minPoint maxPoint pssmFactor : ℝ)
    (shadowCascades : Nat) (i : Nat) : ℝ :=
  cascadeSplit n f minPoint maxPoint pssmFactor shadowCascades i

/-- One turn of the loop "Adjust frustum corners based on cascade splits" for the world-space
corners `frustumCorners[j]` (near plane) and `frustumCorners[j + 4]` (far plane): the new
`frustumCorners[j]` and the new `frustumCorners[j + 4]`. -/
noncomputable def adjustCorners (nearCorner farCorner : Vector3)
    (previousCascadeSplit currentCascadeSplit : ℝ) : Vector3 × Vector3 :=
  let cornerRay := (farCorner.sub nearCorner).Normalize
  let nearPoint := Vector3.scale previousCascadeSplit cornerRay
  let farPoint := Vector3.scale currentCascadeSplit cornerRay
  (nearCorner.add nearPoint, nearCorner.add farPoint)

/-- The slice of cascade `i` along the corner ray from `nearCorner` to `farCorner`. -/
noncomputable def cascadeSlice (n f minPoint maxPoint pssmFactor : ℝ) (shadowCascades : Nat)
    (i : Nat) (nearCorner farCorner : Vector3) : Vector3 × Vector3 :=
  adjustCorners nearCorner farCorner
    (previousCascadeSplit n f minPoint maxPoint pssmFactor shadowCascades i)
    (currentCascadeSplit n f minPoint maxPoint pssmFactor shadowCascades i)

end DemoApp

namespace DemoApp

/-! ### The writes of the shadow set-up into `ShadowData` -/

/-- The variables of the loop over `m_Lights` with both arrays of `ShadowData` it writes:
the counter `shadowIndex`, the indices at which `shadowData.CascadeDepths` (a `Vector4`
read as four floats) was written, and the indices at which
`shadowData.LightViewProjections` was written, each in the order of the writes. The
functions `cascade` to `shadowWrites` below record the index of every write the loops ask
for, inside the array or not; `shadowSetup` is the set-up with the bounds of the arrays. -/
structure ShadowWrites where
  shadowIndex : Nat
  CascadeDepths : List Nat
  LightViewProjections : List Nat
  deriving DecidableEq

/-- The last two statements of the cascade loop of a directional light:
`static_cast<float*>(&shadowData.CascadeDepths.x)[shadowIndex] = currentCascadeSplit;
shadowData.LightViewProjections[shadowIndex++] = lightViewProjection;`. -/
def ShadowWrites.cascade (s : ShadowWrites) : ShadowWrites :=
  { shadowIndex := s.shadowIndex + 1
    CascadeDepths := s.CascadeDepths ++ [s.shadowIndex]
    LightViewProjections := s.LightViewProjections ++ [s.shadowIndex] }

/-- The statement `shadowData.LightViewProjections[shadowIndex++] = ...` of a spot light and
of each face of a point light. -/
def ShadowWrites.slot (s : ShadowWrites) : ShadowWrites :=
  { s with shadowIndex := s.shadowIndex + 1
           LightViewProjections := s.LightViewProjections ++ [s.shadowIndex] }

/-- The loop `for (int i = 0; i < g_ShadowCascades; ++i)` of a directional light, from
`i = g_ShadowCascades - remaining` on. -/
def ShadowWrites.cascadeLoop : Nat → ShadowWrites → ShadowWrites
  | 0, s => s
  | remaining + 1, s => ShadowWrites.cascadeLoop remaining s.cascade

/-- The loop `for (int i = 0; i < 6; ++i)` of a point light, from `i = 6 - remaining` on. -/
def ShadowWrites.slotLoop : Nat → ShadowWrites → ShadowWrites
  | 0, s => s
  | remaining + 1, s => ShadowWrites.slotLoop remaining s.slot

/-- The body of the loop over `m_Lights` for one light. -/
def shadowWritesLight (shadowCascades : Nat) (light : Light) (s : ShadowWrites) :
    ShadowWrites :=
  if light.CastShadows = false then s
  else
    match light.type with
    | .Directional => ShadowWrites.cascadeLoop shadowCascades s
    | .Spot => s.slot
    | .Point => ShadowWrites.slotLoop 6 s
    | .MAX => s

/-- The loop `for (lightIndex = 0; lightIndex < m_Lights.size(); ++lightIndex)`. -/
def shadowWritesLoop (shadowCascades : Nat) : List Light → ShadowWrites → ShadowWrites
  | [], s => s
  | light :: rest, s => shadowWritesLoop shadowCascades rest (shadowWritesLight shadowCascades light s)

/-- The writes of the shadow set-up of `DemoApp::Update` on `m_Lights`, from
`shadowIndex = 0`. -/
def shadowWrites (shadowCascades : Nat) (lights : List Light) : ShadowWrites :=
  shadowWritesLoop shadowCascades lights
    { shadowIndex := 0, CascadeDepths := [], LightViewProjections := [] }

/-- No shadow-casting light stands before a shadow-casting directional light in the list. -/
def sunCastsFirst (lights : List Light) : Prop :=
  lights.Pairwise fun a b =>
    ¬ (a.CastShadows = true ∧ b.CastShadows = true ∧ b.type = LightType.Directional)

instance (lights : List Light) : Decidable (sunCastsFirst lights) := by
  unfold sunCastsFirst
  infer_instance

/-- The cascade loop body of a directional light with the bounds of the arrays it touches:
it reads `cascadeSplits[i]` (`MAX_CASCADES` entries), writes
`shadowData.CascadeDepths[shadowIndex]` (4 floats) and
`shadowData.LightViewProjections[shadowIndex++]` (`MAX_SHADOW_CASTERS` entries, a constant
declared outside these sources). An access outside an array is undefined (`none`). -/
def ShadowWrites.cascadeChecked (MAX_SHADOW_CASTERS i : Nat) (s : ShadowWrites) :
    Option ShadowWrites :=
  if i < MAX_CASCADES ∧ s.shadowIndex < 4 ∧ s.shadowIndex < MAX_SHADOW_CASTERS then
    some s.cascade
  else none

/-- The statement `shadowData.LightViewProjections[shadowIndex++] = ...` of a spot light and
of each face of a point light, with the bound of the array. -/
def ShadowWrites.slotChecked (MAX_SHADOW_CASTERS : Nat) (s : ShadowWrites) :
    Option ShadowWrites :=
  if s.shadowIndex < MAX_SHADOW_CASTERS then some s.slot else none

/-- The loop `for (int i = 0; i < g_ShadowCascades; ++i)` of a directional light with the
bounds of the arrays, from `i = g_ShadowCascades - remaining` on. -/
def cascadeLoopChecked (MAX_SHADOW_CASTERS shadowCascades : Nat) :
    Nat → ShadowWrites → Option ShadowWrites
  | 0, s => some s
  | remaining + 1, s =>
    match s.cascadeChecked MAX_SHADOW_CASTERS (shadowCascades - (remaining + 1)) with
    | none => none
    | some s1 => cascadeLoopChecked MAX_SHADOW_CASTERS shadowCascades remaining s1

/-- The loop `for (int i = 0; i < 6; ++i)` of a point light with the bound of the array,
from `i = 6 - remaining` on. -/
def slotLoopChecked (MAX_SHADOW_CASTERS : Nat) : Nat → ShadowWrites → Option ShadowWrites
  | 0, s => some s
  | remaining + 1, s =>
    match s.slotChecked MAX_SHADOW_CASTERS with
    | none => none
    | some s1 => slotLoopChecked MAX_SHADOW_CASTERS remaining s1

/-- The body of the loop over `m_Lights` for one light: skip a light that casts no shadows,
else record `light.ShadowIndex = shadowIndex` and fill the slots of its type. The result is
the light and the variables afterwards, and `none` when a write leaves an array. -/
def shadowSetupLight (MAX_SHADOW_CASTERS shadowCascades : Nat) (light : Light)
    (s : ShadowWrites) : Option (Light × ShadowWrites) :=
  if light.CastShadows = false then some (light, s)
  else
    let light1 : Light := { light with ShadowIndex := (s.shadowIndex : Int) }
    match light.type with
    | .Directional =>
      (cascadeLoopChecked MAX_SHADOW_CASTERS shadowCascades shadowCascades s).map
        fun s1 => (light1, s1)
    | .Spot => (s.slotChecked MAX_SHADOW_CASTERS).map fun s1 => (light1, s1)
    | .Point => (slotLoopChecked MAX_SHADOW_CASTERS 6 s).map fun s1 => (light1, s1)
    | .MAX => some (light1, s)

/-- The loop `for (lightIndex = 0; lightIndex < m_Lights.size(); ++lightIndex)` on the
lights not yet visited. -/
def shadowSetupLoop (MAX_SHADOW_CASTERS shadowCascades : Nat) :
    List Light → ShadowWrites → Option (List Light × ShadowWrites)
  | [], s => some ([], s)
  | light :: rest, s =>
    match shadowSetupLight MAX_SHADOW_CASTERS shadowCascades light s with
    | none => none
    | some r =>
      match shadowSetupLoop MAX_SHADOW_CASTERS shadowCascades rest r.2 with
      | none => none
      | some t => some (r.1 :: t.1, t.2)

/-- The shadow set-up of `DemoApp::Update` on `m_Lights`, from `shadowIndex = 0`: the loop
that fills `cascadeSplits[i]` for `i` below the cascade count, which leaves the array of
`MAX_CASCADES` entries when the cascade count is larger, and then the loop over the lights.
The result is `m_Lights` and the variables afterwards. The creation of the shadow maps that
follows the loop over the lights is not part of it. -/
def shadowSetup (MAX_SHADOW_CASTERS shadowCascades : Nat) (lights : List Light) :
    Option (List Light × ShadowWrites) :=
  if shadowCascades ≤ MAX_CASCADES then
    shadowSetupLoop MAX_SHADOW_CASTERS shadowCascades lights
      { shadowIndex := 0, CascadeDepths := [], LightViewProjections := [] }
  else none

end DemoApp

namespace MeshletRasterizer

/-! ### The `Destination` array of the "HZB Mips" pass -/

/-- The number of slots of `RWTextureView Destination[12]` in the parameter block of the
"HZB Mips" pass. -/
def DestinationSlots : Nat := 12

/-- The loop `for (uint8 mipIndex = 0; mipIndex < mips; ++mipIndex)
parameters.Destination[mipIndex] = resources.Get(pHZB)->GetUAV(mipIndex)` from
`mipIndex = mips - remaining` on. A slot holds the mip level whose view it was given; a
write at an index outside the array ends the run (`none`). The 8-bit counter does not wrap
before index 12 is reached. -/
def fillDestinationLoop (mips : Nat) : Nat → List (Option Nat) → Option (List (Option Nat))
  | 0, Destination => some Destination
  | remaining + 1, Destination =>
    let mipIndex := mips - (remaining + 1)
    if mipIndex < Destination.length then
      fillDestinationLoop mips remaining (Destination.set mipIndex (some mipIndex))
    else none

/-- The array `parameters.Destination` after the loop of the "HZB Mips" pass for an HZB
with `mips` mip levels (`pHZB->GetDesc().Mips`), from 12 unset slots. -/
def fillDestination (mips : Nat) : Option (List (Option Nat)) :=
  fillDestinationLoop mips mips (List.replicate DestinationSlots none)

end MeshletRasterizer

namespace DemoApp

/-! ### The scene buffers of `DemoApp::UploadSceneData` -/

/-- The members of `SubMeshInstance` (a node of a loaded mesh): the index of its sub-mesh in
the mesh and its transform. -/
structure SubMeshInstance where
  MeshIndex : Nat
  Transform : Matrix4

/-- The members of `SubMesh` that `UploadSceneData` reads: the material index, the stride
and offset of `IndicesLocation`, the `OffsetFromStart` of the vertex streams (64 bit), the
meshlet locations and the meshlet count. -/
structure SubMesh where
  MaterialId : Nat
  IndicesStride : Nat
  IndicesOffset : Nat
  PositionsOffset : Nat
  NormalsOffset : Nat
  ColorsOffset : Nat
  UVsOffset : Nat
  MeshletsLocation : Nat
  MeshletVerticesLocation : Nat
  MeshletTrianglesLocation : Nat
  MeshletBoundsLocation : Nat
  NumMeshlets : Nat

/-- The members of `Material` that `UploadSceneData` reads; a texture pointer is the SRV
index of the texture, or `none` for a null pointer. -/
structure Material where
  pDiffuseTexture : Option Int
  pNormalTexture : Option Int
  pRoughnessMetalnessTexture : Option Int
  pEmissiveTexture : Option Int
  BaseColorFactor : Vector4
  MetalnessFactor : ℝ
  RoughnessFactor : ℝ
  EmissiveFactor : Vector4
  AlphaCutoff : ℝ

/-- A loaded `Mesh`: its nodes (`GetMeshInstances()`), its sub-meshes (`GetMeshes()`), its
materials (`GetMaterials()`) and the SRV index of its geometry buffer
(`GetData()->GetSRVIndex()`). -/
structure Mesh where
  m_MeshInstances : List SubMeshInstance
  m_Meshes : List SubMesh
  m_Materials : List Material
  dataSRVIndex : Nat

/-- Modelled from the spec: `Mesh::GetMesh(index)` of Mesh.h, which is not among the
sources; the sub-mesh at `index`, with no result for an index outside the mesh. -/
def Mesh.GetMesh (pMesh : Mesh) (index : Nat) : Option SubMesh := pMesh.m_Meshes[index]?

/-- Modelled from the spec: `Mesh::GetMaterial(materialId)` of Mesh.h, which is not among
the sources; the material at `materialId`, with no result for an index outside the mesh. -/
def Mesh.GetMaterial (pMesh : Mesh) (materialId : Nat) : Option Material :=
  pMesh.m_Materials[materialId]?

/-- A `ShaderInterop::MeshInstance`. -/
structure MeshInstance where
  Mesh : Nat
  Material : Nat
  World : Nat
  deriving DecidableEq

/-- A `ShaderInterop::MeshData`. -/
structure MeshData where
  BufferIndex : Nat
  IndexByteSize : Nat
  IndicesOffset : Nat
  PositionsOffset : Nat
  NormalsOffset : Nat
  ColorsOffset : Nat
  UVsOffset : Nat
  MeshletOffset : Nat
  MeshletVertexOffset : Nat
  MeshletTriangleOffset : Nat
  MeshletBoundsOffset : Nat
  MeshletCount : Nat
  deriving DecidableEq

/-- A `ShaderInterop::MaterialData`. -/
structure MaterialData where
  Diffuse : Int
  Normal : Int
  RoughnessMetalness : Int
  Emissive : Int
  BaseColorFactor : Vector4
  MetalnessFactor : ℝ
  RoughnessFactor : ℝ
  EmissiveFactor : Vector4
  AlphaCutoff : ℝ

/-- The conversion `(uint32)value` of an unsigned value, and the value of a sum taken in
`uint32`. -/
def castUInt32 (value : Nat) : Nat := value % 2 ^ 32

/-- The body of the loop over `pMesh->GetMeshes()`: the `MeshData` of one sub-mesh. -/
def meshDataOf (pMesh : Mesh) (subMesh : SubMesh) : MeshData :=
  { BufferIndex := pMesh.dataSRVIndex
    IndexByteSize := subMesh.IndicesStride
    IndicesOffset := castUInt32 subMesh.IndicesOffset
    PositionsOffset := castUInt32 subMesh.PositionsOffset
    NormalsOffset := castUInt32 subMesh.NormalsOffset
    ColorsOffset := castUInt32 subMesh.ColorsOffset
    UVsOffset := castUInt32 subMesh.UVsOffset
    MeshletOffset := subMesh.MeshletsLocation
    MeshletVertexOffset := subMesh.MeshletVerticesLocation
    MeshletTriangleOffset := subMesh.MeshletTrianglesLocation
    MeshletBoundsOffset := subMesh.MeshletBoundsLocation
    MeshletCount := subMesh.NumMeshlets }

/-- The expression `pTexture ? pTexture->GetSRVIndex() : -1`. -/
def srvIndexOrMinusOne : Option Int → Int
  | some index => index
  | none => -1

/-- The body of the loop over `pMesh->GetMaterials()`: the `MaterialData` of one
material. -/
def materialDataOf (material : Material) : MaterialData :=
  { Diffuse := srvIndexOrMinusOne material.pDiffuseTexture
    Normal := srvIndexOrMinusOne material.pNormalTexture
    RoughnessMetalness := srvIndexOrMinusOne material.pRoughnessMetalnessTexture
    Emissive := srvIndexOrMinusOne material.pEmissiveTexture
    BaseColorFactor := material.BaseColorFactor
    MetalnessFactor := material.MetalnessFactor
    RoughnessFactor := material.RoughnessFactor
    EmissiveFactor := material.EmissiveFactor
    AlphaCutoff := material.AlphaCutoff }

/-- The local vectors `materials`, `meshes`, `meshInstances` and `transforms` of
`UploadSceneData`. The vector `sceneBatches` takes a copy of each mesh instance and does not
feed back into these four; it is left out. -/
structure SceneUpload where
  materials : List MaterialData
  meshes : List MeshData
  meshInstances : List MeshInstance
  transforms : List Matrix4

/-- The `meshInstance` that the loop over the nodes builds for `node` with the sub-mesh
`parentMesh`, from the sizes of `meshes`, `materials` and `transforms` at that moment:
`Mesh = (uint32)meshes.size() + node.MeshIndex`,
`Material = (uint32)materials.size() + parentMesh.MaterialId`,
`World = (uint32)transforms.size()`. -/
def meshInstanceOf (s : SceneUpload) (node : SubMeshInstance) (parentMesh : SubMesh) :
    MeshInstance :=
  { Mesh := castUInt32 (castUInt32 s.meshes.length + node.MeshIndex)
    Material := castUInt32 (castUInt32 s.materials.length + parentMesh.MaterialId)
    World := castUInt32 s.transforms.length }

/-- The loop `for (const SubMeshInstance& node : pMesh->GetMeshInstances())`, on the nodes
not yet visited. The accessors fail on an index outside the mesh. -/
def uploadInstances (pMesh : Mesh) : List SubMeshInstance → SceneUpload → Option SceneUpload
  | [], s => some s
  | node :: rest, s =>
    match pMesh.GetMesh node.MeshIndex with
    | none => none
    | some parentMesh =>
      match pMesh.GetMaterial parentMesh.MaterialId with
      | none => none
      | some _ =>
        let meshInstance := meshInstanceOf s node parentMesh
        uploadInstances pMesh rest
          { s with meshInstances := s.meshInstances ++ [meshInstance]
                   transforms := s.transforms ++ [node.Transform] }

/-- The body of the loop `for (const auto& pMesh : m_Meshes)`: the nodes, then the
sub-meshes, then the materials of one mesh. -/
def uploadMesh (pMesh : Mesh) (s : SceneUpload) : Option SceneUpload :=
  match uploadInstances pMesh pMesh.m_MeshInstances s with
  | none => none
  | some s1 =>
    some { s1 with meshes := s1.meshes ++ pMesh.m_Meshes.map (meshDataOf pMesh)
                   materials := s1.materials ++ pMesh.m_Materials.map materialDataOf }

/-- The loop `for (const auto& pMesh : m_Meshes)`, on the meshes not yet visited. -/
def uploadMeshes : List Mesh → SceneUpload → Option SceneUpload
  | [], s => some s
  | pMesh :: rest, s =>
    match uploadMesh pMesh s with
    | none => none
    | some s1 => uploadMeshes rest s1

/-- The four vectors that `DemoApp::UploadSceneData` uploads for the loaded meshes
`m_Meshes`. -/
def UploadSceneData (m_Meshes : List Mesh) : Option SceneUpload :=
  uploadMeshes m_Meshes { materials := [], meshes := [], meshInstances := [], transforms := [] }

/-- The nodes of a list of meshes, each with the mesh it belongs to, in the order in which
`UploadSceneData` visits them. -/
def nodesOf (m_Meshes : List Mesh) : List (Mesh × SubMeshInstance) :=
  m_Meshes.flatMap fun pMesh => pMesh.m_MeshInstances.map fun node => (pMesh, node)

/-- The mesh instance `inst` points, in the uploaded vectors `r`, at the data of the node
`p.2` of the mesh `p.1`: `meshes[inst.Mesh]` is the `MeshData` of the node's own sub-mesh,
`materials[inst.Material]` is the `MaterialData` of that sub-mesh's own material and
`transforms[inst.World]` is the node's own transform. -/
def PointsAtOwn (r : SceneUpload) (inst : MeshInstance) (p : Mesh × SubMeshInstance) : Prop :=
  ∃ subMesh material,
    p.1.GetMesh p.2.MeshIndex = some subMesh ∧
    p.1.GetMaterial subMesh.MaterialId = some material ∧
    r.meshes[inst.Mesh]? = some (meshDataOf p.1 subMesh) ∧
    r.materials[inst.Material]? = some (materialDataOf material) ∧
    r.transforms[inst.World]? = some p.2.Transform

/-- What the loop over the nodes of one mesh has fixed about a new mesh instance, before the
sub-meshes and materials of the mesh are appended. -/
def Pending (pMesh : Mesh) (meshBase materialBase : Nat) (transforms : List Matrix4)
    (inst : MeshInstance) (node : SubMeshInstance) : Prop :=
  ∃ subMesh material,
    pMesh.GetMesh node.MeshIndex = some subMesh ∧
    pMesh.GetMaterial subMesh.MaterialId = some material ∧
    inst.Mesh = meshBase + node.MeshIndex ∧
    inst.Material = materialBase + subMesh.MaterialId ∧
    transforms[inst.World]? = some node.Transform

/-- Each node's `MeshIndex` and each sub-mesh's `MaterialId` is valid within its own mesh. -/
def validIndices (pMesh : Mesh) : Prop :=
  (∀ node ∈ pMesh.m_MeshInstances, node.MeshIndex < pMesh.m_Meshes.length) ∧
  (∀ subMesh ∈ pMesh.m_Meshes, subMesh.MaterialId < pMesh.m_Materials.length)

end DemoApp

namespace Graphics

/-! ### `OnlineDescriptorAllocator`: bit fields and root descriptor tables -/

/-- Modelled from the spec: the class `BitField` of BitField.h, which is not among the
sources; a fixed number of bits, bit `i` being entry `i` of the list. -/
structure BitField where
  bits : List Bool
  deriving DecidableEq

/-- The call `ClearAll()`. -/
def BitField.ClearAll (b : BitField) : BitField := ⟨b.bits.map fun _ => false⟩

/-- The call `SetBit(i)`. -/
def BitField.SetBit (b : BitField) (i : Nat) : BitField := ⟨b.bits.set i true⟩

/-- The call `GetBit(i)`. -/
def BitField.GetBit (b : BitField) (i : Nat) : Bool := b.bits.getD i false

/-- The call `AnyBitSet()`. -/
def BitField.AnyBitSet (b : BitField) : Bool := b.bits.any id

/-- The positions that `GetSetBitsIterator()` visits: the set bits in rising order. -/
def BitField.setBits (b : BitField) : List Nat :=
  (List.range b.bits.length).filter fun i => b.GetBit i

/-- The call `MostSignificantBit(&index)`: whether a bit is set, and the value of `index`
after the call, which is the position of the highest set bit, or the value it had before
when no bit is set. -/
def BitField.MostSignificantBit (b : BitField) (index : Nat) : Bool × Nat :=
  match b.setBits.getLast? with
  | some i => (true, i)
  | none => (false, index)

/-- A `RootDescriptorEntry`: the bit map of the assigned handles, the part of
`m_HandleCache` that starts at `TableStart` (CPU descriptor handles, as numbers), and the
table size. -/
structure RootDescriptorEntry where
  AssignedHandlesBitMap : BitField
  TableStart : List Nat
  TableSize : Nat
  deriving DecidableEq

/-- A `DescriptorHandle` inside a shader-visible heap: the heap whose start `m_StartHandle`
holds, and the index of the descriptor in it; its address is the start of the heap plus
`index * m_DescriptorSize`. -/
structure DescriptorHandle where
  heap : Option Nat
  index : Nat
  deriving DecidableEq

/-- An `OnlineDescriptorAllocator` together with the static members it shares: heaps are
named by the position at which `m_DescriptorHeaps` holds them, `m_DescriptorHeaps` is the
number of heaps created so far, and `m_FreeDescriptors` is the queue of the allocator's
`m_Type` (front first), each entry a fence value and a heap. -/
structure OnlineDescriptorAllocator where
  m_pCurrentHeap : Option Nat
  m_StartHandle : Option Nat
  m_CurrentOffset : Nat
  m_UsedDescriptorHeaps : List Nat
  m_RootDescriptorMask : BitField
  m_StaleRootParameters : BitField
  m_RootDescriptorTable : List RootDescriptorEntry
  m_DescriptorHeaps : Nat
  m_FreeDescriptors : List (Nat × Nat)
  deriving DecidableEq

/-- The entry `m_RootDescriptorTable[rootIndex]`. -/
def OnlineDescriptorAllocator.entry (a : OnlineDescriptorAllocator) (rootIndex : Nat) :
    RootDescriptorEntry :=
  a.m_RootDescriptorTable.getD rootIndex ⟨⟨[]⟩, [], 0⟩

/-- A newly constructed allocator for a root signature with the descriptor table mask
`mask` and the table entries `table`, before any heap exists. -/
def OnlineDescriptorAllocator.initial (mask : BitField) (table : List RootDescriptorEntry) :
    OnlineDescriptorAllocator :=
  { m_pCurrentHeap := none, m_StartHandle := none, m_CurrentOffset := 0,
    m_UsedDescriptorHeaps := [], m_RootDescriptorMask := mask,
    m_StaleRootParameters := mask.ClearAll, m_RootDescriptorTable := table,
    m_DescriptorHeaps := 0, m_FreeDescriptors := [] }

/-- The function `HasSpace(count)` for the heap size `DESCRIPTORS_PER_HEAP`. -/
def OnlineDescriptorAllocator.HasSpace (DESCRIPTORS_PER_HEAP : Nat)
    (a : OnlineDescriptorAllocator) (count : Nat) : Bool :=
  a.m_pCurrentHeap.isSome && decide (a.m_CurrentOffset + count ≤ DESCRIPTORS_PER_HEAP)

/-- The function `RequestNewHeap`: the heap it returns and the allocator afterwards.
`IsFenceComplete` is the answer of `m_pGraphics->IsFenceComplete` at the time of the
call. -/
def OnlineDescriptorAllocator.RequestNewHeap (IsFenceComplete : Nat → Bool)
    (a : OnlineDescriptorAllocator) : Nat × OnlineDescriptorAllocator :=
  match a.m_FreeDescriptors with
  | (fence, pHeap) :: rest =>
    if IsFenceComplete fence then (pHeap, { a with m_FreeDescriptors := rest })
    else (a.m_DescriptorHeaps, { a with m_DescriptorHeaps := a.m_DescriptorHeaps + 1 })
  | [] => (a.m_DescriptorHeaps, { a with m_DescriptorHeaps := a.m_DescriptorHeaps + 1 })

/-- The function `GetHeap`. -/
def OnlineDescriptorAllocator.GetHeap (IsFenceComplete : Nat → Bool)
    (a : OnlineDescriptorAllocator) : Nat × OnlineDescriptorAllocator :=
  match a.m_pCurrentHeap with
  | some pHeap => (pHeap, a)
  | none =>
    let r := a.RequestNewHeap IsFenceComplete
    (r.1, { r.2 with m_pCurrentHeap := some r.1, m_StartHandle := some r.1 })

/-- The function `Allocate(descriptorCount)`: the handle
`m_StartHandle + m_CurrentOffset * m_DescriptorSize` and the allocator afterwards. -/
def OnlineDescriptorAllocator.Allocate (a : OnlineDescriptorAllocator)
    (descriptorCount : Nat) : DescriptorHandle × OnlineDescriptorAllocator :=
  (⟨a.m_StartHandle, a.m_CurrentOffset⟩,
   { a with m_CurrentOffset := a.m_CurrentOffset + descriptorCount })

/-- The function `AllocateTransientDescriptor(count)`; a failed `assert` ends the run
(`none`). -/
def OnlineDescriptorAllocator.AllocateTransientDescriptor (DESCRIPTORS_PER_HEAP : Nat)
    (IsFenceComplete : Nat → Bool) (a : OnlineDescriptorAllocator) (count : Nat) :
    Option (DescriptorHandle × OnlineDescriptorAllocator) :=
  let a1 := (a.GetHeap IsFenceComplete).2
  if a1.HasSpace DESCRIPTORS_PER_HEAP count then some (a1.Allocate count) else none

/-- The loop of `SetDescriptors` from `i = numHandles - (remaining handles)` on:
`entry.TableStart[i + offset] = pHandles[i]; entry.AssignedHandlesBitMap.SetBit(i + offset)`.
The second argument is `i + offset`. -/
def setDescriptorsLoop : List Nat → Nat → RootDescriptorEntry → RootDescriptorEntry
  | [], _, entry => entry
  | handle :: rest, position, entry =>
    setDescriptorsLoop rest (position + 1)
      { entry with TableStart := entry.TableStart.set position handle
                   AssignedHandlesBitMap := entry.AssignedHandlesBitMap.SetBit position }

/-- The function `SetDescriptors(rootIndex, offset, numHandles, pHandles)` with the handles
as a list of length `numHandles`; a failed `assert` ends the run. -/
def OnlineDescriptorAllocator.SetDescriptors (a : OnlineDescriptorAllocator)
    (rootIndex offset : Nat) (pHandles : List Nat) : Option OnlineDescriptorAllocator :=
  if a.m_RootDescriptorMask.GetBit rootIndex = false then none
  else if ¬ (pHandles.length + offset ≤ (a.entry rootIndex).TableSize) then none
  else
    some { a with
      m_RootDescriptorTable :=
        a.m_RootDescriptorTable.set rootIndex (setDescriptorsLoop pHandles offset (a.entry rootIndex))
      m_StaleRootParameters := a.m_StaleRootParameters.SetBit rootIndex }

/-- The function `ReleaseHeap`; a failed `assert` ends the run. -/
def OnlineDescriptorAllocator.ReleaseHeap (a : OnlineDescriptorAllocator) :
    Option OnlineDescriptorAllocator :=
  if a.m_CurrentOffset = 0 then
    if a.m_pCurrentHeap = none then some a else none
  else
    match a.m_pCurrentHeap with
    | none => none
    | some pHeap =>
      some { a with m_UsedDescriptorHeaps := a.m_UsedDescriptorHeaps ++ [pHeap]
                    m_pCurrentHeap := none
                    m_CurrentOffset := 0 }

/-- The function `ReleaseUsedHeaps(fenceValue)`. -/
def OnlineDescriptorAllocator.ReleaseUsedHeaps (a : OnlineDescriptorAllocator)
    (fenceValue : Nat) : Option OnlineDescriptorAllocator :=
  match a.ReleaseHeap with
  | none => none
  | some a1 =>
    some { a1 with
      m_FreeDescriptors :=
        a1.m_FreeDescriptors ++ a1.m_UsedDescriptorHeaps.map fun pHeap => (fenceValue, pHeap)
      m_UsedDescriptorHeaps := [] }

/-- The loop of `UnbindAll` over the set bits of `m_RootDescriptorMask`. -/
def unbindAllLoop (a : OnlineDescriptorAllocator) : List Nat → BitField → BitField
  | [], stale => stale
  | rootIndex :: rest, stale =>
    unbindAllLoop a rest
      (if (a.entry rootIndex).AssignedHandlesBitMap.AnyBitSet then stale.SetBit rootIndex
       else stale)

/-- The function `UnbindAll`. -/
def OnlineDescriptorAllocator.UnbindAll (a : OnlineDescriptorAllocator) :
    OnlineDescriptorAllocator :=
  { a with m_StaleRootParameters :=
      unbindAllLoop a a.m_RootDescriptorMask.setBits a.m_StaleRootParameters.ClearAll }

/-- The range size of a root parameter in `UploadAndBindStagedDescriptors`, and the amount
`GetRequiredSpace` adds for it: `uint32 rangeSize = 0;
entry.AssignedHandlesBitMap.MostSignificantBit(&rangeSize); rangeSize += 1`. -/
def OnlineDescriptorAllocator.rangeSize (a : OnlineDescriptorAllocator) (rootIndex : Nat) :
    Nat :=
  ((a.entry rootIndex).AssignedHandlesBitMap.MostSignificantBit 0).2 + 1

/-- The loop of `GetRequiredSpace` over the stale root parameters. -/
def requiredSpaceLoop (a : OnlineDescriptorAllocator) : List Nat → Nat → Nat
  | [], requiredSpace => requiredSpace
  | rootIndex :: rest, requiredSpace =>
    requiredSpaceLoop a rest (requiredSpace + a.rangeSize rootIndex)

/-- The function `GetRequiredSpace`. -/
def OnlineDescriptorAllocator.GetRequiredSpace (a : OnlineDescriptorAllocator) : Nat :=
  requiredSpaceLoop a a.m_StaleRootParameters.setBits 0 + 10

/-- One call `CopyDescriptors(destinationRangeCount, destinationRanges,
destinationRangeSizes, sourceRangeCount, sourceRanges, sourceRangeSizes, m_Type)`: the
destination ranges with their sizes, and the source handles, each a range of size 1. -/
structure CopyDescriptors where
  destinationRanges : List (DescriptorHandle × Nat)
  sourceRanges : List Nat
  deriving DecidableEq

/-- The locals of the first loop of `UploadAndBindStagedDescriptors`: the filled parts of
the source and destination arrays, the `CopyDescriptors` calls made so far, the filled part
of `newDescriptorTables` and `gpuHandle`. -/
structure UploadLocals where
  sourceRanges : List Nat
  destinationRanges : List (DescriptorHandle × Nat)
  copies : List CopyDescriptors
  newDescriptorTables : List DescriptorHandle
  gpuHandle : DescriptorHandle
  deriving DecidableEq

/-- The first loop of `UploadAndBindStagedDescriptors` over the stale root parameters not
yet visited. The arrays hold `MAX_DESCRIPTORS_PER_COPY` entries; a write of
`sourceRanges[sourceRangeCount]` past the end ends the run (`none`). The destination arrays
never hold more entries than the source arrays, since every range has at least one
source. -/
def uploadLoop (MAX_DESCRIPTORS_PER_COPY : Nat) (a : OnlineDescriptorAllocator) :
    List Nat → UploadLocals → Option UploadLocals
  | [], l => some l
  | rootIndex :: rest, l =>
    let l1 : UploadLocals :=
      if l.sourceRanges.length ≥ MAX_DESCRIPTORS_PER_COPY then
        { l with copies := l.copies ++ [⟨l.destinationRanges, l.sourceRanges⟩]
                 sourceRanges := []
                 destinationRanges := [] }
      else l
    let rangeSize := a.rangeSize rootIndex
    if l1.sourceRanges.length + rangeSize ≤ MAX_DESCRIPTORS_PER_COPY then
      uploadLoop MAX_DESCRIPTORS_PER_COPY a rest
        { l1 with
          sourceRanges := l1.sourceRanges ++
            (List.range rangeSize).map fun i => (a.entry rootIndex).TableStart.getD i 0
          destinationRanges := l1.destinationRanges ++ [(l1.gpuHandle, rangeSize)]
          newDescriptorTables := l1.newDescriptorTables ++ [l1.gpuHandle]
          gpuHandle := ⟨l1.gpuHandle.heap, l1.gpuHandle.index + rangeSize⟩ }
    else none

/-- What one call of `UploadAndBindStagedDescriptors` does: the allocator afterwards, the
block `Allocate(requiredSpace)` returned with `requiredSpace` (if the call got that far),
the `CopyDescriptors` calls in order, and the root descriptor tables set on the command
list, each a root index with its handle. -/
structure Upload where
  allocator : OnlineDescriptorAllocator
  block : Option (DescriptorHandle × Nat)
  copies : List CopyDescriptors
  rootDescriptorTables : List (Nat × DescriptorHandle)
  deriving DecidableEq

/-- The part of `UploadAndBindStagedDescriptors` that makes room:
`requiredSpace = GetRequiredSpace(); if (HasSpace(requiredSpace) == false) { ReleaseHeap();
UnbindAll(); requiredSpace = GetRequiredSpace(); }`. The result is the allocator and
`requiredSpace` afterwards; a failed `assert` of `ReleaseHeap` ends the run. -/
def OnlineDescriptorAllocator.makeSpace (DESCRIPTORS_PER_HEAP : Nat)
    (a : OnlineDescriptorAllocator) : Option (OnlineDescriptorAllocator × Nat) :=
  let requiredSpace := a.GetRequiredSpace
  if a.HasSpace DESCRIPTORS_PER_HEAP requiredSpace = false then
    match a.ReleaseHeap with
    | none => none
    | some a1 => some (a1.UnbindAll, a1.UnbindAll.GetRequiredSpace)
  else some (a, requiredSpace)

/-- The part of `UploadAndBindStagedDescriptors` after `Allocate(requiredSpace)` returned
`gpuHandle`: the first loop, the last `CopyDescriptors`, the second loop that sets the root
descriptor tables, and `m_StaleRootParameters.ClearAll()`. -/
def OnlineDescriptorAllocator.copyAndBind (MAX_DESCRIPTORS_PER_COPY : Nat)
    (a : OnlineDescriptorAllocator) (gpuHandle : DescriptorHandle) (requiredSpace : Nat) :
    Option Upload :=
  match uploadLoop MAX_DESCRIPTORS_PER_COPY a a.m_StaleRootParameters.setBits
      { sourceRanges := [], destinationRanges := [], copies := [],
        newDescriptorTables := [], gpuHandle := gpuHandle } with
  | none => none
  | some l =>
    some { allocator := { a with m_StaleRootParameters := a.m_StaleRootParameters.ClearAll }
           block := some (gpuHandle, requiredSpace)
           copies := l.copies ++ [⟨l.destinationRanges, l.sourceRanges⟩]
           rootDescriptorTables := a.m_StaleRootParameters.setBits.zip l.newDescriptorTables }

/-- The function `UploadAndBindStagedDescriptors` for a `descriptorTableType` of Graphics or
Compute. -/
def OnlineDescriptorAllocator.UploadAndBindStagedDescriptors
    (DESCRIPTORS_PER_HEAP MAX_DESCRIPTORS_PER_COPY : Nat) (IsFenceComplete : Nat → Bool)
    (a : OnlineDescriptorAllocator) : Option Upload :=
  if a.m_StaleRootParameters.AnyBitSet = false then
    some { allocator := a, block := none, copies := [], rootDescriptorTables := [] }
  else
    match a.makeSpace DESCRIPTORS_PER_HEAP with
    | none => none
    | some (a1, requiredSpace) =>
      let allocated := (a1.GetHeap IsFenceComplete).2.Allocate requiredSpace
      allocated.2.copyAndBind MAX_DESCRIPTORS_PER_COPY allocated.1 requiredSpace

/-- A call of one of the four functions of the allocator that a command context makes. -/
inductive Call where
  | AllocateTransientDescriptor (count : Nat)
  | SetDescriptors (rootIndex offset : Nat) (pHandles : List Nat)
  | UploadAndBindStagedDescriptors
  | ReleaseUsedHeaps (fenceValue : Nat)

/-- The allocator after one call made while `IsFenceComplete` answers as given. -/
def OnlineDescriptorAllocator.call (DESCRIPTORS_PER_HEAP MAX_DESCRIPTORS_PER_COPY : Nat)
    (a : OnlineDescriptorAllocator) : (Nat → Bool) × Call → Option OnlineDescriptorAllocator
  | (IsFenceComplete, .AllocateTransientDescriptor count) =>
    (a.AllocateTransientDescriptor DESCRIPTORS_PER_HEAP IsFenceComplete count).map Prod.snd
  | (_, .SetDescriptors rootIndex offset pHandles) => a.SetDescriptors rootIndex offset pHandles
  | (IsFenceComplete, .UploadAndBindStagedDescriptors) =>
    (a.UploadAndBindStagedDescriptors DESCRIPTORS_PER_HEAP MAX_DESCRIPTORS_PER_COPY
      IsFenceComplete).map fun u => u.allocator
  | (_, .ReleaseUsedHeaps fenceValue) => a.ReleaseUsedHeaps fenceValue

/-- The allocator after a sequence of calls, none if an `assert` fails on the way. -/
def OnlineDescriptorAllocator.run (DESCRIPTORS_PER_HEAP MAX_DESCRIPTORS_PER_COPY : Nat) :
    List ((Nat → Bool) × Call) → OnlineDescriptorAllocator → Option OnlineDescriptorAllocator
  | [], a => some a
  | c :: rest, a =>
    match a.call DESCRIPTORS_PER_HEAP MAX_DESCRIPTORS_PER_COPY c with
    | none => none
    | some a1 => OnlineDescriptorAllocator.run DESCRIPTORS_PER_HEAP MAX_DESCRIPTORS_PER_COPY rest a1


/-! ### `OnlineDescriptorAllocator`: the heaps an allocator holds, and what a call uploads -/

/-- The heaps the allocator holds: the current heap, the used heaps and the heaps in the
free queue. -/
def OnlineDescriptorAllocator.heldHeaps (a : OnlineDescriptorAllocator) : List Nat :=
  a.m_pCurrentHeap.toList ++ (a.m_UsedDescriptorHeaps ++ a.m_FreeDescriptors.map Prod.snd)

/-- No heap is held twice, and every held heap was created. -/
def OnlineDescriptorAllocator.heapsDistinct (a : OnlineDescriptorAllocator) : Prop :=
  a.heldHeaps.Nodup ∧ ∀ pHeap ∈ a.heldHeaps, pHeap < a.m_DescriptorHeaps

/-- The allocator has a current heap exactly when it has handed out descriptors from it. -/
def OnlineDescriptorAllocator.heapInUse (a : OnlineDescriptorAllocator) : Prop :=
  a.m_CurrentOffset = 0 ↔ a.m_pCurrentHeap = none

instance (a : OnlineDescriptorAllocator) : Decidable a.heapInUse := by
  unfold OnlineDescriptorAllocator.heapInUse
  infer_instance

/-- Every `AllocateTransientDescriptor` call of the sequence asks for at least one
descriptor. -/
def countsPositive (calls : List ((Nat → Bool) × Call)) : Prop :=
  ∀ c ∈ calls, ∀ count, c.2 = Call.AllocateTransientDescriptor count → 1 ≤ count

/-- The root parameters whose tables a call of `UploadAndBindStagedDescriptors` uploads: the
stale ones if the current heap has space for them, else the ones `UnbindAll` marks. -/
def OnlineDescriptorAllocator.uploadSet (DESCRIPTORS_PER_HEAP : Nat)
    (a : OnlineDescriptorAllocator) : List Nat :=
  if a.HasSpace DESCRIPTORS_PER_HEAP a.GetRequiredSpace then a.m_StaleRootParameters.setBits
  else a.UnbindAll.m_StaleRootParameters.setBits

/-- Whether the source array of `UploadAndBindStagedDescriptors` holds the ranges of the
root parameters `roots` when it already has `count` entries: the count is reset by a flush
when it has reached `MAX_DESCRIPTORS_PER_COPY`, and the range of the next root parameter
has to fit behind it. -/
def copyFits (MAX_DESCRIPTORS_PER_COPY : Nat) (a : OnlineDescriptorAllocator) :
    List Nat → Nat → Bool
  | [], _ => true
  | rootIndex :: rest, count =>
    let kept := if count ≥ MAX_DESCRIPTORS_PER_COPY then 0 else count
    decide (kept + a.rangeSize rootIndex ≤ MAX_DESCRIPTORS_PER_COPY) &&
      copyFits MAX_DESCRIPTORS_PER_COPY a rest (kept + a.rangeSize rootIndex)

/-- The ranges of the given sizes laid one behind the other in `heap` from `start` on. -/
def rangesFrom (heap : Option Nat) : Nat → List Nat → List (DescriptorHandle × Nat)
  | _, [] => []
  | start, size :: rest => (⟨heap, start⟩, size) :: rangesFrom heap (start + size) rest

/-- The destination ranges of all `CopyDescriptors` calls of an upload, in order. -/
def Upload.destinationRanges (u : Upload) : List (DescriptorHandle × Nat) :=
  u.copies.flatMap fun c => c.destinationRanges

/-- The number of descriptors an upload writes to the heap. -/
def Upload.descriptorsWritten (u : Upload) : Nat :=
  (u.destinationRanges.map Prod.snd).sum

/-- Two ranges of descriptors of one heap share no descriptor. -/
def rangesDisjoint (r s : DescriptorHandle × Nat) : Prop :=
  r.1.index + r.2 ≤ s.1.index ∨ s.1.index + s.2 ≤ r.1.index


/-- An example of a staged state, for a root signature with two descriptor tables of one
descriptor each and heaps of 16 descriptors: both tables were uploaded to heap 0, which
moved the offset to 12, and then the descriptor of root parameter 0 was set again. -/
def stagedExample : OnlineDescriptorAllocator :=
  { m_pCurrentHeap := some 0, m_StartHandle := some 0, m_CurrentOffset := 12,
    m_UsedDescriptorHeaps := [], m_RootDescriptorMask := ⟨[true, true]⟩,
    m_StaleRootParameters := ⟨[true, false]⟩,
    m_RootDescriptorTable := [⟨⟨[true]⟩, [300], 1⟩, ⟨⟨[true]⟩, [200], 1⟩],
    m_DescriptorHeaps := 1, m_FreeDescriptors := [] }

end Graphics

namespace CommandLine

/-! ### Machine integers inside the range of `int` -/

theorem toInt32_of_lt {i : Nat} (h : i < 2 ^ 31) : toInt32 i = (i : Int) := by
  unfold toInt32
  split <;> omega

theorem intSucc_of_lt {i : Nat} (h : i + 1 < 2 ^ 31) :
    intSucc i = some (((i + 1 : Nat)) : Int) := by
  have h1 : toInt32 i = (i : Int) := toInt32_of_lt (by omega)
  have h2 : ¬ ((i : Int) = 2 ^ 31 - 1) := by omega
  rw [intSucc, h1, if_neg h2]
  simp

theorem toSizeT_natCast {n : Nat} (h : n < 2 ^ 31) : toSizeT (n : Int) = n := by
  unfold toSizeT
  omega

theorem sizeSub_natCast {a b : Nat} (hb : b ≤ a) (ha : a < 2 ^ 31) :
    sizeSub a (b : Int) = a - b := by
  unfold sizeSub
  omega

/-! ### Substrings -/

theorem substr_middle (pre w post : Str) :
    substr (pre ++ (w ++ post)) pre.length w.length = some w := by
  simp [substr]

theorem substrFrom_suffix (pre w : Str) : substrFrom (pre ++ w) pre.length = some w := by
  simp [substrFrom]

/-! ### The store -/

theorem Store.find_set (m : Store) (k v key : Str) :
    (m.set k v).find key = if k = key then some v else m.find key := by
  induction m with
  | nil => simp [Store.set, Store.find]
  | cons p m ih =>
    obtain ⟨k', v'⟩ := p
    by_cases h : k' = k
    · subst h
      by_cases h2 : k' = key <;> simp [Store.set, Store.find, h2]
    · by_cases h2 : k' = key
      · subst h2
        have h3 : ¬ (k = k') := fun e => h e.symm
        simp [Store.set, Store.find, h, h3]
      · simp [Store.set, Store.find, h, h2, ih]

/-! ### The loop of `Parse` on runs of characters -/

theorem parseLoop_append (s a b : Str) (i : Nat) (st : ParseState) :
    parseLoop s (a ++ b) i st = (parseLoop s a i st).bind (parseLoop s b (i + a.length)) := by
  induction a generalizing i st with
  | nil => simp [parseLoop]
  | cons c a ih =>
    simp only [List.cons_append, parseLoop, List.length_cons]
    cases h : parseStep s i c st with
    | none => simp
    | some st1 =>
      have e : i + 1 + a.length = i + (a.length + 1) := by omega
      simp [ih, e]

theorem parseStep_plain (s : Str) (i : Nat) (c : Char) (st : ParseState)
    (h : c ≠ ' ' ∧ c ≠ '-' ∧ c ≠ '=' ∧ c ≠ '"') : parseStep s i c st = some st := by
  simp [parseStep, h]

theorem parseStep_inQuotes (s : Str) (i : Nat) (c : Char) (st : ParseState)
    (hq : st.quoted = true) (h : c ≠ '"') : parseStep s i c st = some st := by
  simp [parseStep, h, hq]

theorem parseLoop_plain (s w : Str) (i : Nat) (st : ParseState)
    (h : ∀ c ∈ w, c ≠ ' ' ∧ c ≠ '-' ∧ c ≠ '=' ∧ c ≠ '"') : parseLoop s w i st = some st := by
  induction w generalizing i with
  | nil => rfl
  | cons c w ih =>
    have hc := h c (List.mem_cons_self c w)
    have hw : ∀ d ∈ w, d ≠ ' ' ∧ d ≠ '-' ∧ d ≠ '=' ∧ d ≠ '"' :=
      fun d hd => h d (List.mem_cons_of_mem c hd)
    simp [parseLoop, parseStep_plain s i c st hc, ih (i + 1) hw]

theorem parseLoop_inQuotes (s w : Str) (i : Nat) (st : ParseState) (hq : st.quoted = true)
    (h : ∀ c ∈ w, c ≠ '"') : parseLoop s w i st = some st := by
  induction w generalizing i with
  | nil => rfl
  | cons c w ih =>
    have hc := h c (List.mem_cons_self c w)
    have hw : ∀ d ∈ w, d ≠ '"' := fun d hd => h d (List.mem_cons_of_mem c hd)
    simp [parseLoop, parseStep_inQuotes s i c st hq hc, ih (i + 1) hw]

theorem parseStep_dash (s : Str) (i : Nat) (st : ParseState) (hq : st.quoted = false)
    (hi : i + 1 < 2 ^ 31) :
    parseStep s i '-' st = some { st with commandStart := ((i + 1 : Nat) : Int) } := by
  simp [parseStep, hq, intSucc_of_lt hi]

theorem parseStep_quote (s : Str) (i : Nat) (st : ParseState) :
    parseStep s i '"' st = some { st with quoted := !st.quoted } := by
  simp [parseStep]

theorem parseStep_equals (s : Str) (i : Nat) (st : ParseState) (hq : st.quoted = false)
    (hi : i + 1 < 2 ^ 31) (ident : Str)
    (hsub : substr s (toSizeT st.commandStart) (sizeSub i st.commandStart) = some ident) :
    parseStep s i '=' st =
      some { st with identifier := ident, commandStart := ((i + 1 : Nat) : Int),
                     hasValue := true } := by
  simp [parseStep, hq, intSucc_of_lt hi, hsub]

theorem parseStep_space_value (s : Str) (i : Nat) (st : ParseState) (hq : st.quoted = false)
    (hv : st.hasValue = true) (raw value : Str)
    (hsub : substr s (toSizeT st.commandStart) (sizeSub i st.commandStart) = some raw)
    (hstrip : stripQuotes raw = some value) :
    parseStep s i ' ' st =
      some { st with params := st.params.set st.identifier value, hasValue := false,
                     commandStart := -1 } := by
  simp [parseStep, hq, hv, hsub, hstrip]

theorem parseStep_space_flag (s : Str) (i : Nat) (st : ParseState) (hq : st.quoted = false)
    (hv : st.hasValue = false) (key : Str)
    (hsub : substr s (toSizeT st.commandStart) (sizeSub i st.commandStart) = some key) :
    parseStep s i ' ' st =
      some { st with params := st.params.set key ['1'], commandStart := -1 } := by
  simp [parseStep, hq, hv, hsub]

theorem stripQuotes_plain (value : Str) (h : plainWord value) :
    stripQuotes value = some value := by
  obtain ⟨hne, hc⟩ := h
  cases value with
  | nil => exact absurd rfl hne
  | cons a w =>
    have ha := (hc a (List.mem_cons_self a w)).2.2.2
    cases hl : (a :: w).getLast? with
    | none => simp at hl
    | some b => simp [stripQuotes, hl, ha]

theorem stripQuotes_quoted (text : Str) (h : text.length + 2 < 2 ^ 31) :
    stripQuotes ('"' :: (text ++ ['"'])) = some text := by
  have hl : ('"' :: (text ++ ['"'])).getLast? = some '"' := by
    have e0 : '"' :: (text ++ ['"']) = ('"' :: text) ++ ['"'] := rfl
    rw [e0, List.getLast?_append]
    simp
  have e : sizeSub ('"' :: (text ++ ['"'])).length 2 = text.length := by
    have e2 : ('"' :: (text ++ ['"'])).length = text.length + 2 := by simp
    rw [e2]
    exact (sizeSub_natCast (a := text.length + 2) (b := 2) (by omega) h).trans (by omega)
  simp only [stripQuotes, List.head?_cons, hl, e]
  simp [substr]

/-! ### The loop of `Parse` on one token -/

theorem Token.render_split (t : Token) (pre post : Str) :
    ∃ pfx : Str, pre ++ (t.render ++ post) = pfx ++ (t.raw ++ post) ∧
      pfx.length = t.start pre.length ∧
      t.start pre.length + t.raw.length = pre.length + t.render.length := by
  cases t with
  | flag name =>
    exact ⟨pre ++ ['-'], by simp [Token.render, Token.raw], by simp [Token.start],
      by simp [Token.start, Token.render, Token.raw]; omega⟩
  | valued name value =>
    exact ⟨pre ++ '-' :: name ++ ['='], by simp [Token.render, Token.raw],
      by simp [Token.start]; omega, by simp [Token.start, Token.render, Token.raw]; omega⟩
  | quotedValue name text =>
    exact ⟨pre ++ '-' :: name ++ ['='], by simp [Token.render, Token.raw],
      by simp [Token.start]; omega, by simp [Token.start, Token.render, Token.raw]; omega⟩

theorem substr_name (pre name rest : Str)
    (h : (pre ++ '-' :: (name ++ rest)).length < 2 ^ 31) :
    substr (pre ++ '-' :: (name ++ rest)) (toSizeT ((pre.length + 1 : Nat) : Int))
      (sizeSub (pre.length + 1 + name.length) ((pre.length + 1 : Nat) : Int)) = some name := by
  have hl : (pre ++ '-' :: (name ++ rest)).length
      = pre.length + 1 + name.length + rest.length := by
    simp; omega
  rw [toSizeT_natCast (by omega), sizeSub_natCast (by omega) (by omega)]
  have e : pre ++ '-' :: (name ++ rest) = (pre ++ ['-']) ++ (name ++ rest) := by simp
  have e2 : pre.length + 1 = (pre ++ ['-']).length := by simp
  have e3 : pre.length + 1 + name.length - (pre.length + 1) = name.length := by omega
  rw [e3, e, e2]
  exact substr_middle _ _ _

theorem parseLoop_cons (s rest : Str) (c : Char) (i : Nat) (st : ParseState) :
    parseLoop s (c :: rest) i st = (parseStep s i c st).bind (parseLoop s rest (i + 1)) := rfl

theorem parseLoop_nil (s : Str) (i : Nat) (st : ParseState) : parseLoop s [] i st = some st := rfl

theorem parseLoop_token (s pre post : Str) (t : Token) (st : ParseState)
    (hs : s = pre ++ (t.render ++ post)) (hlen : s.length < 2 ^ 31) (ht : t.wellFormed)
    (hq : st.quoted = false) (hv : st.hasValue = false) :
    parseLoop s t.render pre.length st = some (afterToken t pre.length st) := by
  obtain ⟨q, cs, v, ident, m⟩ := st
  simp only at hq hv
  subst hq hv
  cases t with
  | flag name =>
    have hl : s.length = pre.length + (1 + name.length) + post.length := by
      rw [hs]; simp [Token.render]; omega
    rw [Token.render, parseLoop_cons, parseStep_dash s pre.length _ rfl (by omega)]
    simp only [Option.some_bind]
    rw [parseLoop_plain s name _ _ ht.2]
    rfl
  | valued name value =>
    obtain ⟨hn, hval⟩ := ht
    have hl : s.length = pre.length + (1 + name.length + 1 + value.length) + post.length := by
      rw [hs]; simp [Token.render]; omega
    have hs2 : s = pre ++ '-' :: (name ++ ('=' :: value ++ post)) := by
      rw [hs]; simp [Token.render]
    have hsub := substr_name pre name ('=' :: value ++ post) (by rw [← hs2]; exact hlen)
    rw [← hs2] at hsub
    rw [Token.render, parseLoop_cons, parseStep_dash s pre.length _ rfl (by omega)]
    simp only [Option.some_bind]
    rw [parseLoop_append, parseLoop_plain s name _ _ hn.2]
    simp only [Option.some_bind]
    rw [parseLoop_cons, parseStep_equals s _ _ rfl (by omega) name hsub]
    simp only [Option.some_bind]
    rw [parseLoop_plain s value _ _ hval.2]
    simp [afterToken, Token.start]
    omega
  | quotedValue name text =>
    obtain ⟨hn, htext⟩ := ht
    have hl : s.length
        = pre.length + (1 + name.length + 1 + 1 + text.length + 1) + post.length := by
      rw [hs]; simp [Token.render]; omega
    have hs2 : s = pre ++ '-' :: (name ++ ('=' :: '"' :: (text ++ ['"']) ++ post)) := by
      rw [hs]; simp [Token.render]
    have hsub := substr_name pre name ('=' :: '"' :: (text ++ ['"']) ++ post)
      (by rw [← hs2]; exact hlen)
    rw [← hs2] at hsub
    rw [Token.render, parseLoop_cons, parseStep_dash s pre.length _ rfl (by omega)]
    simp only [Option.some_bind]
    rw [parseLoop_append, parseLoop_plain s name _ _ hn.2]
    simp only [Option.some_bind]
    rw [parseLoop_cons, parseStep_equals s _ _ rfl (by omega) name hsub]
    simp only [Option.some_bind]
    rw [parseLoop_cons, parseStep_quote]
    simp only [Option.some_bind]
    rw [parseLoop_append, parseLoop_inQuotes s text _ _ rfl htext]
    simp only [Option.some_bind]
    rw [parseLoop_cons, parseStep_quote]
    simp [afterToken, Token.start, parseLoop_nil]
    omega

theorem substr_raw (s pre post : Str) (t : Token) (hs : s = pre ++ (t.render ++ post))
    (hlen : s.length < 2 ^ 31) :
    substr s (toSizeT ((t.start pre.length : Nat) : Int))
      (sizeSub (pre.length + t.render.length) ((t.start pre.length : Nat) : Int))
      = some t.raw := by
  obtain ⟨pfx, e, h1, h2⟩ := t.render_split pre post
  have hl : s.length = pfx.length + (t.raw.length + post.length) := by
    rw [hs, e]; simp
  rw [toSizeT_natCast (by omega), sizeSub_natCast (by omega) (by omega)]
  have e3 : pre.length + t.render.length - t.start pre.length = t.raw.length := by omega
  rw [e3, hs, e, ← h1]
  exact substr_middle _ _ _

theorem substrFrom_raw (s pre : Str) (t : Token) (hs : s = pre ++ t.render)
    (hlen : s.length < 2 ^ 31) :
    substrFrom s (toSizeT ((t.start pre.length : Nat) : Int)) = some t.raw := by
  obtain ⟨pfx, e, h1, h2⟩ := t.render_split pre []
  simp only [List.append_nil] at e
  have hl : s.length = pfx.length + t.raw.length := by
    rw [hs, e]; simp
  rw [toSizeT_natCast (by omega), hs, e, ← h1]
  exact substrFrom_suffix _ _

theorem stripQuotes_raw (name text : Str)
    (hlen : (Token.quotedValue name text).raw.length < 2 ^ 31) :
    stripQuotes (Token.quotedValue name text).raw = some text := by
  have h : text.length + 2 < 2 ^ 31 := by
    simp [Token.raw] at hlen
    omega
  exact stripQuotes_quoted text h

theorem raw_length_le (t : Token) : t.raw.length ≤ t.render.length := by
  cases t <;> simp [Token.raw, Token.render] <;> omega

theorem parseStep_closeToken (s pre post : Str) (t : Token) (st : ParseState)
    (hs : s = pre ++ (t.render ++ ' ' :: post)) (hlen : s.length < 2 ^ 31) (ht : t.wellFormed)
    (hq : st.quoted = false) (hv : st.hasValue = false) :
    parseStep s (pre.length + t.render.length) ' ' (afterToken t pre.length st)
      = some (afterStore t pre.length st) := by
  have hsub := substr_raw s pre (' ' :: post) t hs hlen
  have hl : s.length = pre.length + (t.render.length + (1 + post.length)) := by
    rw [hs]; simp; omega
  have hraw := raw_length_le t
  obtain ⟨q, cs, v, ident, m⟩ := st
  simp only at hq hv
  subst hq hv
  cases t with
  | flag name =>
    rw [parseStep_space_flag s _ _ rfl rfl name hsub]
    rfl
  | valued name value =>
    rw [parseStep_space_value s _ _ rfl rfl value value hsub (stripQuotes_plain value ht.2)]
    rfl
  | quotedValue name text =>
    have h := stripQuotes_raw name text (by omega)
    rw [parseStep_space_value s _ _ rfl rfl _ text hsub h]
    rfl

theorem parseFinish_closeToken (s pre : Str) (t : Token) (st : ParseState)
    (hs : s = pre ++ t.render) (hlen : s.length < 2 ^ 31) (ht : t.wellFormed)
    (hq : st.quoted = false) (hv : st.hasValue = false) :
    parseFinish s (afterToken t pre.length st) = some (afterStore t pre.length st) := by
  have hsub := substrFrom_raw s pre t hs hlen
  have hl : s.length = pre.length + t.render.length := by
    rw [hs]; simp
  have hraw := raw_length_le t
  obtain ⟨q, cs, v, ident, m⟩ := st
  simp only at hq hv
  subst hq hv
  cases t with
  | flag name =>
    have hpos : ((((Token.flag name).start pre.length : Nat) : Int)) > -1 := by omega
    simp only [Token.raw] at hsub
    simp [parseFinish, hpos, hsub, afterStore, afterToken, Token.name, Token.value]
  | valued name value =>
    have hpos : ((((Token.valued name value).start pre.length : Nat) : Int)) > -1 := by omega
    have h := stripQuotes_plain value ht.2
    simp only [Token.raw] at hsub
    simp [parseFinish, hpos, hsub, h, afterStore, afterToken, Token.name, Token.value]
  | quotedValue name text =>
    have hpos : ((((Token.quotedValue name text).start pre.length : Nat) : Int)) > -1 := by
      omega
    have h := stripQuotes_raw name text (by omega)
    simp only [Token.raw] at hsub h
    simp [parseFinish, hpos, hsub, h, afterStore, afterToken, Token.name, Token.value]

/-! ### The loop of `Parse` on a command line made of tokens -/

theorem parse_tokens_from (s : Str) (hlen : s.length < 2 ^ 31) (ts : List Token) :
    ∀ (pre : Str) (st : ParseState), ts ≠ [] → (∀ t ∈ ts, t.wellFormed) →
      s = pre ++ commandLineOf ts → st.quoted = false → st.hasValue = false →
      ∃ st1, (parseLoop s (commandLineOf ts) pre.length st).bind (parseFinish s) = some st1 ∧
        st1.params = storeTokens st.params ts := by
  induction ts with
  | nil => intro pre st h; exact absurd rfl h
  | cons t ts ih =>
    intro pre st _ hwf hs hq hv
    have ht := hwf t (List.mem_cons_self t ts)
    cases ts with
    | nil =>
      simp only [commandLineOf] at hs ⊢
      have hs2 : s = pre ++ (t.render ++ []) := by simpa using hs
      rw [parseLoop_token s pre [] t st hs2 hlen ht hq hv]
      simp only [Option.some_bind]
      rw [parseFinish_closeToken s pre t st hs hlen ht hq hv]
      exact ⟨_, rfl, rfl⟩
    | cons t2 ts =>
      simp only [commandLineOf] at hs ⊢
      have hs2 : s = pre ++ (t.render ++ ' ' :: commandLineOf (t2 :: ts)) := hs
      rw [parseLoop_append, parseLoop_token s pre _ t st hs2 hlen ht hq hv]
      simp only [Option.some_bind]
      rw [parseLoop_cons, parseStep_closeToken s pre _ t st hs2 hlen ht hq hv]
      simp only [Option.some_bind]
      have hs3 : s = (pre ++ (t.render ++ [' '])) ++ commandLineOf (t2 :: ts) := by
        rw [hs2]; simp
      have hlen3 : (pre ++ (t.render ++ [' '])).length = pre.length + t.render.length + 1 := by
        simp; omega
      obtain ⟨st1, h1, h2⟩ := ih (pre ++ (t.render ++ [' '])) (afterStore t pre.length st)
        (List.cons_ne_nil t2 ts) (fun u hu => hwf u (List.mem_cons_of_mem t hu)) hs3
        (by cases t <;> simp [afterStore, afterToken, hq])
        (by cases t <;> simp [afterStore, afterToken])
      rw [hlen3] at h1
      refine ⟨st1, h1, ?_⟩
      rw [h2]
      cases t <;> rfl

theorem find_storeTokens (ts : List Token) (m : Store) (key : Str) :
    (storeTokens m ts).find key = ((lastValue ts key).or (m.find key)) := by
  induction ts generalizing m with
  | nil => simp [storeTokens, lastValue]
  | cons t ts ih =>
    have e : storeTokens m (t :: ts) = storeTokens (m.set t.name t.value) ts := rfl
    rw [e, ih, Store.find_set]
    simp only [lastValue, List.reverse_cons, List.find?_append]
    cases h : List.find? (fun t => decide (t.name = key)) ts.reverse with
    | some u => simp
    | none =>
      by_cases hk : t.name = key <;> simp [hk]

theorem parse_tokens (prev : Store) (ts : List Token) (hne : ts ≠ [])
    (hwf : ∀ t ∈ ts, t.wellFormed) (hlen : (commandLineOf ts).length < 2 ^ 31) :
    ∃ store, Parse prev (commandLineOf ts) = some (true, store) ∧
      ∀ key, store.find key = lastValue ts key := by
  obtain ⟨st1, h1, h2⟩ := parse_tokens_from (commandLineOf ts) hlen ts [] (ParseState.init prev)
    hne hwf
    rfl rfl rfl
  refine ⟨st1.params, ?_, ?_⟩
  · simp only [List.length_nil] at h1
    simp [Parse, h1]
  · intro key
    rw [h2, find_storeTokens]
    simp [ParseState.init, Store.clear, Store.find]

theorem lastValue_append_singleton (pre post : List Token) (t : Token)
    (h : ∀ u ∈ post, u.name ≠ t.name) :
    lastValue (pre ++ t :: post) t.name = some t.value := by
  have e : List.find? (fun u => decide (u.name = t.name)) post.reverse = none := by
    rw [List.find?_eq_none]
    intro u hu
    simpa using h u (List.mem_reverse.mp hu)
  simp [lastValue, List.find?_append, e]

theorem find_isSome_iff (m : Store) (key : Str) :
    (m.find key).isSome = true ↔ key ∈ m.map Prod.fst := by
  induction m with
  | nil => simp [Store.find]
  | cons p m ih =>
    obtain ⟨k, v⟩ := p
    by_cases h : k = key
    · simp [Store.find, h]
    · have h2 : ¬ (key = k) := fun e => h e.symm
      simp [Store.find, h, h2, ih]

theorem stoi_digits (v : Str) (hne : v ≠ []) (hd : v.all isDecimalDigit = true)
    (hmax : digitsValue v ≤ 2 ^ 31 - 1) : stoi v = some (digitsValue v : Int) := by
  cases v with
  | nil => exact absurd rfl hne
  | cons c w =>
    have hall : ∀ x ∈ c :: w, isDecimalDigit x = true := by simpa using hd
    have hc : isDecimalDigit c = true := hall c (List.mem_cons_self c w)
    have hrange : 48 ≤ c.toNat ∧ c.toNat ≤ 57 := by simpa [isDecimalDigit] using hc
    have hsp : isspace c = false := by
      simp [isspace]
      omega
    have hm : c ≠ '-' := by
      intro e
      rw [e] at hrange
      simp at hrange
    have hp : c ≠ '+' := by
      intro e
      rw [e] at hrange
      simp at hrange
    have hdrop : List.dropWhile isspace (c :: w) = c :: w := by
      simp [List.dropWhile, hsp]
    have htake : List.takeWhile isDecimalDigit (c :: w) = c :: w := by
      rw [List.takeWhile_eq_self_iff]
      exact hall
    have hsig : (match c :: w with
        | '-' :: r => (true, r)
        | '+' :: r => (false, r)
        | r => (false, r)) = ((false, c :: w) : Bool × Str) := by
      split
      · rename_i r heq
        exact absurd (List.cons.inj heq).1 hm
      · rename_i r heq
        exact absurd (List.cons.inj heq).1 hp
      · rfl
    have hlo : -(2 ^ 31 : Int) ≤ (digitsValue (c :: w) : Int) := by omega
    have hhi : (digitsValue (c :: w) : Int) ≤ 2 ^ 31 - 1 := by omega
    simp only [stoi, hdrop, hsig, htake]
    have hn : ¬ (c :: w = []) := hne
    have hb : -(2 ^ 31 : Int) ≤ (digitsValue (c :: w) : Int) ∧
        (digitsValue (c :: w) : Int) ≤ 2 ^ 31 - 1 := ⟨hlo, hhi⟩
    simp only [if_neg hn, Bool.false_eq_true, if_false, if_pos hb]

theorem allDigits_of_all (v : Str) (hd : v.all isDecimalDigit = true) :
    allDigits v = some true := by
  induction v with
  | nil => rfl
  | cons c w ih =>
    have hall : ∀ x ∈ c :: w, isDecimalDigit x = true := by simpa using hd
    have hc : isDecimalDigit c = true := hall c (List.mem_cons_self c w)
    have hrange : 48 ≤ c.toNat ∧ c.toNat ≤ 57 := by simpa [isDecimalDigit] using hc
    have hlt : c.toNat < 128 := by omega
    have hw : w.all isDecimalDigit = true := by
      rw [List.all_eq_true]
      exact fun x hx => hall x (List.mem_cons_of_mem c hx)
    simp only [allDigits, isdigit, if_pos hlt, hc]
    exact ih hw

theorem allDigits_first_other (pre post : Str) (c : Char)
    (hpre : pre.all isDecimalDigit = true) (hc : isDecimalDigit c = false)
    (hlt : c.toNat < 128) : allDigits (pre ++ c :: post) = some false := by
  induction pre with
  | nil => simp only [List.nil_append, allDigits, isdigit, if_pos hlt, hc]
  | cons d w ih =>
    have hall : ∀ x ∈ d :: w, isDecimalDigit x = true := by simpa using hpre
    have hd : isDecimalDigit d = true := hall d (List.mem_cons_self d w)
    have hrange : 48 ≤ d.toNat ∧ d.toNat ≤ 57 := by simpa [isDecimalDigit] using hd
    have hdlt : d.toNat < 128 := by omega
    have hw : w.all isDecimalDigit = true := by
      rw [List.all_eq_true]
      exact fun x hx => hall x (List.mem_cons_of_mem d hx)
    simp only [List.cons_append, allDigits, isdigit, if_pos hdlt, hd]
    exact ih hw

/-! ### The properties of the command line store -/

/-- C1, as stated: the command line made of no token is the empty line; on it `Parse`
returns `true` with the store holding the empty name with the value "1", a key that no
token gives. -/
theorem Parse_plain_tokens_counterexample :
    commandLineOf [] = [] ∧
    Parse [] (commandLineOf []) = some (true, [([], ['1'])]) ∧
    Store.find [([], ['1'])] [] = some ['1'] ∧
    lastValue [] [] = none ∧
    ¬ ∃ store, Parse [] (commandLineOf []) = some (true, store) ∧
      ∀ key, store.find key = lastValue [] key := by
  refine ⟨rfl, rfl, rfl, rfl, ?_⟩
  rintro ⟨store, h, hkeys⟩
  have e : Parse [] (commandLineOf []) = some (true, [([], ['1'])]) := rfl
  rw [e] at h
  cases h
  have := hkeys []
  simp [Store.find, lastValue] at this

/-- C1, amended: for every command line made of at least one token `-name` or `-name=value`
separated by single spaces (names and values non-empty and free of space, `-`, `=` and
`"`; the line shorter than 2^31 characters, the range of the `int` index), `Parse`
returns `true` and the store maps exactly the names of the tokens, each to the value of the
last token of that name (`"1"` for `-name`), whatever the store held before. -/
theorem Parse_plain_tokens (prev : Store) (ts : List Token) (hne : ts ≠ [])
    (hwf : ∀ t ∈ ts, t.wellFormed ∧ t.unquoted)
    (hlen : (commandLineOf ts).length < 2 ^ 31) :
    ∃ store, Parse prev (commandLineOf ts) = some (true, store) ∧
      ∀ key, store.find key = lastValue ts key :=
  parse_tokens prev ts hne (fun t ht => (hwf t ht).1) hlen

/-- C1, at the line `-warp -tonemapper=2 -warp=0` with a store holding `old`. -/
theorem Parse_plain_tokens_witness :
    ∃ store,
      Parse [("old".toList, "x".toList)]
        (commandLineOf [.flag "warp".toList, .valued "tonemapper".toList "2".toList,
          .valued "warp".toList "0".toList]) = some (true, store) ∧
      ∀ key, store.find key =
        lastValue [.flag "warp".toList, .valued "tonemapper".toList "2".toList,
          .valued "warp".toList "0".toList] key :=
  Parse_plain_tokens [("old".toList, "x".toList)]
    [.flag "warp".toList, .valued "tonemapper".toList "2".toList,
      .valued "warp".toList "0".toList]
    (by simp)
    (by
      intro t ht
      simp only [List.mem_cons, List.mem_singleton, List.not_mem_nil, or_false] at ht
      rcases ht with rfl | rfl | rfl <;>
        simp [Token.wellFormed, Token.unquoted, plainWord])
    (by decide)

theorem Parse_prev (prev : Store) (cmd : Str) : Parse prev cmd = Parse [] cmd := rfl

/-- On the empty command line `commandStart` is still 0 after the loop, and the block after
it stores the empty name with the value "1". -/
theorem Parse_empty (prev : Store) : Parse prev [] = some (true, [([], ['1'])]) := rfl

/-- C2, as stated: on the line whose last token is wrapped as a whole in double quotes,
`Parse` does not store `screenshotDir`. -/
theorem Parse_scenario_counterexample :
    ¬ ∃ store,
      Parse []
        "-d3ddebug -warp -tonemapper=2 -samples=16 \"-screenshotDir=C:\\out put\\\"".toList
        = some (true, store) ∧
      store.find "screenshotDir".toList = some "C:\\out put\\".toList := by
  rintro ⟨store, h, hf⟩
  have e : Parse []
      "-d3ddebug -warp -tonemapper=2 -samples=16 \"-screenshotDir=C:\\out put\\\"".toList
      = some (true, [("d3ddebug".toList, "1".toList), ("warp".toList, "1".toList),
          ("tonemapper".toList, "2".toList), ("samples".toList, "16".toList)]) := by decide
  rw [e] at h
  cases h
  revert hf
  decide

/-- C2, amended: the line `-d3ddebug -warp -tonemapper=2 -samples=16
"-screenshotDir=C:\out put\"` yields exactly the four parameters d3ddebug -> "1",
warp -> "1", tonemapper -> "2", samples -> "16"; with the quotes around the value only,
`-screenshotDir="C:\out put\"`, it yields exactly these four and
screenshotDir -> `C:\out put\`. -/
theorem Parse_scenario (prev : Store) :
    (∃ store,
      Parse prev
        "-d3ddebug -warp -tonemapper=2 -samples=16 \"-screenshotDir=C:\\out put\\\"".toList
        = some (true, store) ∧
      ∀ key, store.find key =
        Store.find [("d3ddebug".toList, "1".toList), ("warp".toList, "1".toList),
          ("tonemapper".toList, "2".toList), ("samples".toList, "16".toList)] key) ∧
    (∃ store,
      Parse prev
        "-d3ddebug -warp -tonemapper=2 -samples=16 -screenshotDir=\"C:\\out put\\\"".toList
        = some (true, store) ∧
      ∀ key, store.find key =
        Store.find [("d3ddebug".toList, "1".toList), ("warp".toList, "1".toList),
          ("tonemapper".toList, "2".toList), ("samples".toList, "16".toList),
          ("screenshotDir".toList, "C:\\out put\\".toList)] key) := by
  refine ⟨⟨[("d3ddebug".toList, "1".toList), ("warp".toList, "1".toList),
      ("tonemapper".toList, "2".toList), ("samples".toList, "16".toList)],
      (Parse_prev prev _).trans (by decide), fun key => rfl⟩,
    ⟨[("d3ddebug".toList, "1".toList), ("warp".toList, "1".toList),
      ("tonemapper".toList, "2".toList), ("samples".toList, "16".toList),
      ("screenshotDir".toList, "C:\\out put\\".toList)],
      (Parse_prev prev _).trans (by decide), fun key => rfl⟩⟩

/-- C3: a token `-name="text"` (text free of `"`) standing anywhere among well-formed
tokens separated by single spaces, with no later token of the same name, makes `Parse`
store under `name` the text between the quotes, spaces included and quotes removed. -/
theorem Parse_quoted_value (prev : Store) (pre post : List Token) (name text : Str)
    (hname : plainWord name) (htext : ∀ c ∈ text, c ≠ '"')
    (hpre : ∀ t ∈ pre, t.wellFormed) (hpost : ∀ t ∈ post, t.wellFormed ∧ t.name ≠ name)
    (hlen : (commandLineOf (pre ++ Token.quotedValue name text :: post)).length < 2 ^ 31) :
    ∃ store,
      Parse prev (commandLineOf (pre ++ Token.quotedValue name text :: post))
        = some (true, store) ∧
      store.find name = some text := by
  have hwf : ∀ t ∈ pre ++ Token.quotedValue name text :: post, t.wellFormed := by
    intro t ht
    rcases List.mem_append.mp ht with h | h
    · exact hpre t h
    · rcases List.mem_cons.mp h with h | h
      · rw [h]
        exact ⟨hname, htext⟩
      · exact (hpost t h).1
  obtain ⟨store, h1, h2⟩ := parse_tokens prev _ (by simp) hwf hlen
  refine ⟨store, h1, ?_⟩
  rw [h2]
  exact lastValue_append_singleton pre post (Token.quotedValue name text)
    (fun u hu => (hpost u hu).2)

/-- C3, at the line `-warp -dir="a b c" -samples=16`. -/
theorem Parse_quoted_value_witness :
    ∃ store,
      Parse [] (commandLineOf ([Token.flag "warp".toList] ++
        Token.quotedValue "dir".toList "a b c".toList ::
          [Token.valued "samples".toList "16".toList])) = some (true, store) ∧
      store.find "dir".toList = some "a b c".toList :=
  Parse_quoted_value [] [Token.flag "warp".toList] [Token.valued "samples".toList "16".toList]
    "dir".toList "a b c".toList
    (by simp [plainWord])
    (by simp)
    (by simp [Token.wellFormed, plainWord])
    (by simp [Token.wellFormed, Token.name, plainWord])
    (by decide)

/-- C4, as stated: the value `2147483648` consists of decimal digits only, and `GetInt`
does not return the number it denotes (`std::stoi` throws `std::out_of_range`). -/
theorem GetInt_digits_counterexample :
    Store.find [("samples".toList, "2147483648".toList)] "samples".toList
        = some "2147483648".toList ∧
      List.all "2147483648".toList isDecimalDigit = true ∧
      ¬ ∃ r, GetInt [("samples".toList, "2147483648".toList)] "samples".toList 0 = some r ∧
        r.ret = true ∧ r.value = (digitsValue "2147483648".toList : Int) := by
  refine ⟨by decide, by decide, ?_⟩
  rintro ⟨r, h, -⟩
  have e : GetInt [("samples".toList, "2147483648".toList)] "samples".toList 0 = none := by
    decide
  rw [e] at h
  cases h

/-- C4, amended: for every parameter present in the store whose value is a non-empty
string of decimal digits denoting a number of at most 2147483647, `GetInt` returns `true`
and sets the output to that number. -/
theorem GetInt_digits (params : Store) (name v : Str) (defaultValue : Int)
    (hfind : params.find name = some v) (hne : v ≠ []) (hd : v.all isDecimalDigit = true)
    (hmax : digitsValue v ≤ 2 ^ 31 - 1) :
    GetInt params name defaultValue
      = some { ret := true, value := (digitsValue v : Int), params := params } := by
  simp [GetInt, hfind, allDigits_of_all v hd, stoi_digits v hne hd hmax]

/-- C4, at `samples` in the store of `-tonemapper=2 -samples=16 -d3ddebug`. -/
theorem GetInt_digits_witness :
    GetInt [("tonemapper".toList, "2".toList), ("samples".toList, "16".toList),
        ("d3ddebug".toList, "1".toList)] "samples".toList 0
      = some { ret := true, value := 16,
               params := [("tonemapper".toList, "2".toList), ("samples".toList, "16".toList),
                 ("d3ddebug".toList, "1".toList)] } :=
  GetInt_digits [("tonemapper".toList, "2".toList), ("samples".toList, "16".toList),
      ("d3ddebug".toList, "1".toList)] "samples".toList "16".toList 0
    (by decide) (by decide) (by decide) (by decide)

/-- C6: `GetBool(name)` is true exactly when `name` is a key of the store; after parsing
`-d3ddebug -warp` it is true for `d3ddebug` and false for `dred`, and after parsing
`-flag=0` it is true for `flag`. -/
theorem GetBool_iff_key :
    (∀ (params : Store) (name : Str),
      GetBool params name = true ↔ name ∈ params.map Prod.fst) ∧
    (∀ prev : Store, ∃ store,
      Parse prev "-d3ddebug -warp".toList = some (true, store) ∧
      GetBool store "d3ddebug".toList = true ∧ GetBool store "dred".toList = false) ∧
    (∀ prev : Store, ∃ store,
      Parse prev "-flag=0".toList = some (true, store) ∧
      GetBool store "flag".toList = true) := by
  refine ⟨fun params name => find_isSome_iff params name, fun prev => ?_, fun prev => ?_⟩
  · exact ⟨[("d3ddebug".toList, "1".toList), ("warp".toList, "1".toList)],
      (Parse_prev prev _).trans (by decide), by decide, by decide⟩
  · exact ⟨[("flag".toList, "0".toList)], (Parse_prev prev _).trans (by decide), by decide⟩

end CommandLine

namespace DemoApp

/-! ### Cascade split depths -/

theorem cascadeSplit_lt (n f minPoint maxPoint pssmFactor : ℝ) (k i j : Nat)
    (hn : 0 < min n f) (hnf : min n f < max n f) (h0 : 0 ≤ minPoint)
    (hmm : minPoint < maxPoint) (hl0 : 0 ≤ pssmFactor) (hl1 : pssmFactor ≤ 1)
    (hk : 0 < k) (hij : i < j) :
    cascadeSplit n f minPoint maxPoint pssmFactor k i
      < cascadeSplit n f minPoint maxPoint pssmFactor k j := by
  have hR : 0 < max n f - min n f := sub_pos.mpr hnf
  have hminZ : 0 < min n f + minPoint * (max n f - min n f) :=
    add_pos_of_pos_of_nonneg hn (mul_nonneg h0 hR.le)
  have hgap : min n f + minPoint * (max n f - min n f)
      < min n f + maxPoint * (max n f - min n f) := by
    have := mul_lt_mul_of_pos_right hmm hR
    linarith
  have hratio : 1 < (min n f + maxPoint * (max n f - min n f))
      / (min n f + minPoint * (max n f - min n f)) := (one_lt_div hminZ).mpr hgap
  have hkR : (0 : ℝ) < (k : ℝ) := by exact_mod_cast hk
  have hcast : (((i + 1 : Nat)) : ℝ) < (((j + 1 : Nat)) : ℝ) := by
    exact_mod_cast Nat.succ_lt_succ hij
  have hp : (((i + 1 : Nat)) : ℝ) / (k : ℝ) < (((j + 1 : Nat)) : ℝ) / (k : ℝ) :=
    div_lt_div_of_pos_right hcast hkR
  have hpow := Real.rpow_lt_rpow_of_exponent_lt hratio hp
  have hlog := mul_lt_mul_of_pos_left hpow hminZ
  have huni := mul_lt_mul_of_pos_left hp (sub_pos.mpr hgap)
  simp only [cascadeSplit]
  rcases hl0.eq_or_lt with h | h
  · rw [← h]
    linarith
  · have a1 := mul_pos h (sub_pos.mpr hlog)
    have a2 := mul_nonneg (sub_nonneg.mpr hl1) (sub_nonneg.mpr huni.le)
    linarith

/-- C7: for camera planes with 0 < near < far (in either order), a depth range
0 <= min < max <= 1, a PSSM factor in [0,1] and a cascade count k in 1..4, the split
depths, read as real numbers, are strictly increasing over the k cascades. -/
theorem cascadeSplits_strictly_increasing (n f minPoint maxPoint pssmFactor : ℝ) (k : Nat)
    (hn : 0 < min n f) (hnf : min n f < max n f) (h0 : 0 ≤ minPoint)
    (hmm : minPoint < maxPoint) (_h1 : maxPoint ≤ 1) (hl0 : 0 ≤ pssmFactor)
    (hl1 : pssmFactor ≤ 1) (hk1 : 1 ≤ k) (hk4 : k ≤ 4) :
    ∃ splits, cascadeSplits n f minPoint maxPoint pssmFactor k = some splits ∧
      ∀ i j : Fin 4, i < j → j.val < k → splits i < splits j := by
  have hk : k ≤ MAX_CASCADES := hk4
  refine ⟨_, if_pos hk, ?_⟩
  intro i j hij hjk
  have hlt : i.val < j.val := hij
  have hik : i.val < k := lt_trans hlt hjk
  simp only [if_pos hik, if_pos hjk]
  exact cascadeSplit_lt n f minPoint maxPoint pssmFactor k i.val j.val hn hnf h0 hmm hl0 hl1
    (by omega) hlt

/-- C7, at the camera of the application (planes 80 and 0.1), the full depth range,
PSSM factor 1/2 and four cascades. -/
theorem cascadeSplits_strictly_increasing_witness :
    ∃ splits, cascadeSplits 80 (1 / 10) 0 1 (1 / 2) 4 = some splits ∧
      ∀ i j : Fin 4, i < j → j.val < 4 → splits i < splits j :=
  cascadeSplits_strictly_increasing 80 (1 / 10) 0 1 (1 / 2) 4
    (by norm_num) (by norm_num) (by norm_num) (by norm_num) (by norm_num) (by norm_num)
    (by norm_num) (by norm_num) (by norm_num)

/-- C8: with the depth range [0,1], camera planes with 0 < near < far (in either order),
any PSSM factor and a cascade count k in 1..4, the last split plus the near plane is the
far plane, as real numbers. -/
theorem cascadeSplits_last_reaches_far (n f pssmFactor : ℝ) (k : Nat)
    (hn : 0 < min n f) (hk1 : 1 ≤ k) (hk4 : k ≤ 4) :
    ∃ splits, cascadeSplits n f 0 1 pssmFactor k = some splits ∧
      splits ⟨k - 1, by omega⟩ + min n f = max n f := by
  have hk : k ≤ MAX_CASCADES := hk4
  refine ⟨_, if_pos hk, ?_⟩
  have hlast : k - 1 < k := by omega
  have hidx : k - 1 + 1 = k := by omega
  have hkR : (k : ℝ) ≠ 0 := by
    have : (0 : ℝ) < (k : ℝ) := by exact_mod_cast hk1
    exact ne_of_gt this
  have hne : min n f ≠ 0 := ne_of_gt hn
  simp only [if_pos hlast, cascadeSplit, hidx, div_self hkR, Real.rpow_one, zero_mul,
    add_zero, one_mul]
  field_simp

/-- C8, at the camera of the application (planes 80 and 0.1) with four cascades. -/
theorem cascadeSplits_last_reaches_far_witness :
    ∃ splits, cascadeSplits 80 (1 / 10) 0 1 (1 / 2) 4 = some splits ∧
      splits ⟨4 - 1, by omega⟩ + min (80 : ℝ) (1 / 10) = max (80 : ℝ) (1 / 10) :=
  cascadeSplits_last_reaches_far 80 (1 / 10) (1 / 2) 4 (by norm_num) (by norm_num)
    (by norm_num)

/-! ### Texel snapping of the stabilized cascades -/

theorem roundNearestEven_int (x : ℝ) : ∃ z : ℤ, roundNearestEven x = (z : ℝ) := by
  unfold roundNearestEven
  split_ifs
  · exact ⟨⌊x⌋, rfl⟩
  · exact ⟨⌊x⌋ + 1, by push_cast; rfl⟩
  · exact ⟨⌊x⌋, rfl⟩
  · exact ⟨⌊x⌋ + 1, by push_cast; rfl⟩

theorem abs_roundNearestEven_sub_le (x : ℝ) : |roundNearestEven x - x| ≤ 1 / 2 := by
  have h1 := Int.floor_le x
  have h2 := Int.lt_floor_add_one x
  unfold roundNearestEven
  rw [abs_le]
  split_ifs <;> constructor <;> linarith

theorem Transform_origin (m : Matrix4) :
    Vector4.Transform ⟨0, 0, 0, 1⟩ m = ⟨m 3 0, m 3 1, m 3 2, m 3 3⟩ := by
  simp [Vector4.Transform]

theorem mul_CreateTranslation_row (m : Matrix4) (v : Vector4) (r : Fin 4) :
    (m * CreateTranslation v) r 0 = m r 0 + m r 3 * v.x ∧
    (m * CreateTranslation v) r 1 = m r 1 + m r 3 * v.y ∧
    (m * CreateTranslation v) r 2 = m r 2 + m r 3 * v.z ∧
    (m * CreateTranslation v) r 3 = m r 3 := by
  simp [Matrix.mul_apply, Fin.sum_univ_four, CreateTranslation]

end DemoApp

namespace DemoApp

end DemoApp

namespace ClusteredForward

/-! ### Cluster counts and buffer sizes -/

theorem ceil_div_64 (n : Nat) : ⌈((n : ℚ) / 64)⌉ = (((n + 63) / 64 : Nat) : Int) := by
  have h1 : 64 * ((n + 63) / 64) ≤ n + 63 := Nat.mul_div_le _ _
  have h2 : n + 63 < 64 * ((n + 63) / 64) + 64 := by
    have := Nat.lt_mul_div_succ (n + 63) (show 0 < 64 by norm_num)
    omega
  generalize (n + 63) / 64 = q at h1 h2 ⊢
  have h1q : (64 : ℚ) * (q : ℚ) ≤ (n : ℚ) + 63 := by exact_mod_cast h1
  have h3 : n ≤ 64 * q := by omega
  have h2q : (n : ℚ) ≤ 64 * (q : ℚ) := by exact_mod_cast h3
  rw [Int.ceil_eq_iff, Int.cast_natCast]
  constructor
  · rw [lt_div_iff₀ (by norm_num)]
    linarith
  · rw [div_le_iff₀ (by norm_num)]
    linarith

theorem clusterCount_of_le (w : Nat) (hw : w ≤ 2 ^ 24) :
    toUInt32 (RoundUp (floatOfInt (w : Int) / (gLightClusterTexelSize : ℚ)))
      = (w + 63) / 64 := by
  have hf : floatOfNat w = w := by
    unfold floatOfNat
    split
    · rfl
    · have e : w = 2 ^ 24 := by omega
      subst e
      have hl : Nat.log 2 (2 ^ 24) = 24 := Nat.log_pow (by norm_num) 24
      simp only [hl]
      norm_num
  have hnn : ¬ ((w : Int) < 0) := by omega
  have e1 : floatOfInt (w : Int) = (w : ℚ) := by
    simp [floatOfInt, hnn, hf]
  rw [e1, RoundUp]
  have e2 : ((gLightClusterTexelSize : Nat) : ℚ) = 64 := by norm_num [gLightClusterTexelSize]
  rw [e2, ceil_div_64, toUInt32]
  have hb : (w + 63) / 64 < 2 ^ 32 := by omega
  omega

end ClusteredForward

namespace ClusteredForward

theorem OnResize_of_le (W H : Nat) (hW : W ≤ 2 ^ 24) (hH : H ≤ 2 ^ 24) :
    OnResize (W : Int) (H : Int)
      = { ClusterCountX := (W + 63) / 64
          ClusterCountY := (H + 63) / 64
          AABBs :=
            { elementCount := mulUInt32 (mulUInt32 ((W + 63) / 64) ((H + 63) / 64)) 32,
              elementSize := 32 }
          LightIndexGrid :=
            { elementCount :=
                mulUInt32 32 (mulUInt32 (mulUInt32 ((W + 63) / 64) ((H + 63) / 64)) 32),
              elementSize := 4 }
          LightGrid :=
            { elementCount :=
                mulUInt32 2 (mulUInt32 (mulUInt32 ((W + 63) / 64) ((H + 63) / 64)) 32),
              elementSize := 4 } } := by
  simp only [OnResize, clusterCount_of_le W hW, clusterCount_of_le H hH, gLightClustersNumZ,
    gMaxLightsPerCluster]

/-- C12, as stated: for the viewport 131072 x 131072 the cluster counts are 2048 x 2048 and
the light index list gets 0 elements, not 32 * 2048 * 2048 * 32 = 2^32 (the count is a
32 bit unsigned product). -/
theorem OnResize_clusters_counterexample :
    ⌈((131072 : Nat) : ℚ) / 64⌉ = 2048 ∧
    (OnResize 131072 131072).ClusterCountX = 2048 ∧
    (OnResize 131072 131072).ClusterCountY = 2048 ∧
    (OnResize 131072 131072).LightIndexGrid.elementCount = 0 ∧
    (OnResize 131072 131072).LightIndexGrid.elementCount ≠ 32 * (2048 * 2048 * 32) := by
  have h := OnResize_of_le 131072 131072 (by norm_num) (by norm_num)
  have e : OnResize 131072 131072 = OnResize ((131072 : Nat) : Int) ((131072 : Nat) : Int) := rfl
  rw [e, h]
  refine ⟨?_, ?_, ?_, ?_, ?_⟩
  · rw [ceil_div_64]
    norm_num
  · norm_num
  · norm_num
  · norm_num [mulUInt32]
  · norm_num [mulUInt32]

/-- C12, amended: for every viewport W x H with W, H at most 2^24 (the integers a float
holds exactly) and 32 * Cx * Cy * 32 below 2^32, where Cx = ceil(W / 64) and
Cy = ceil(H / 64), `OnResize` sets the cluster counts to Cx and Cy and creates the AABB
buffer with Cx * Cy * 32 elements of 32 bytes (two Vector4), the light index list with
32 * Cx * Cy * 32 elements of 4 bytes and the light grid with 2 * Cx * Cy * 32 elements of
4 bytes. -/
theorem OnResize_clusters (W H : Nat) (hW : W ≤ 2 ^ 24) (hH : H ≤ 2 ^ 24) :
    ∃ Cx Cy : Nat, (Cx : Int) = ⌈(W : ℚ) / 64⌉ ∧ (Cy : Int) = ⌈(H : ℚ) / 64⌉ ∧
      (32 * (Cx * Cy * 32) < 2 ^ 32 →
        OnResize (W : Int) (H : Int)
          = { ClusterCountX := Cx
              ClusterCountY := Cy
              AABBs := { elementCount := Cx * Cy * 32, elementSize := 32 }
              LightIndexGrid := { elementCount := 32 * (Cx * Cy * 32), elementSize := 4 }
              LightGrid := { elementCount := 2 * (Cx * Cy * 32), elementSize := 4 } }) := by
  refine ⟨(W + 63) / 64, (H + 63) / 64, (ceil_div_64 W).symm, (ceil_div_64 H).symm, ?_⟩
  intro hfit
  rw [OnResize_of_le W H hW hH]
  generalize (W + 63) / 64 = cx at hfit ⊢
  generalize (H + 63) / 64 = cy at hfit ⊢
  have h1 : cx * cy * 32 < 2 ^ 32 := by omega
  have h0 : cx * cy < 2 ^ 32 := by
    have : cx * cy ≤ cx * cy * 32 := Nat.le_mul_of_pos_right _ (by norm_num)
    omega
  have e0 : mulUInt32 cx cy = cx * cy := Nat.mod_eq_of_lt h0
  have e1 : mulUInt32 (cx * cy) 32 = cx * cy * 32 := Nat.mod_eq_of_lt h1
  have e2 : mulUInt32 32 (cx * cy * 32) = 32 * (cx * cy * 32) := Nat.mod_eq_of_lt hfit
  have e3 : mulUInt32 2 (cx * cy * 32) = 2 * (cx * cy * 32) := Nat.mod_eq_of_lt (by omega)
  rw [e0, e1, e2, e3]

/-- C12, at the viewport 1920 x 1080: 30 x 17 clusters and a light index list of 522240
elements. -/
theorem OnResize_clusters_witness :
    OnResize 1920 1080
      = { ClusterCountX := 30
          ClusterCountY := 17
          AABBs := { elementCount := 16320, elementSize := 32 }
          LightIndexGrid := { elementCount := 522240, elementSize := 4 }
          LightGrid := { elementCount := 32640, elementSize := 4 } } := by
  obtain ⟨Cx, Cy, hx, hy, h⟩ := OnResize_clusters 1920 1080 (by norm_num) (by norm_num)
  rw [ceil_div_64] at hx hy
  have ex : Cx = 30 := by
    have : (Cx : Int) = 30 := by rw [hx]; norm_num
    exact_mod_cast this
  have ey : Cy = 17 := by
    have : (Cy : Int) = 17 := by rw [hy]; norm_num
    exact_mod_cast this
  subst ex ey
  exact h (by norm_num)

end ClusteredForward

namespace MeshletRasterizer

/-! ### The depth pyramid -/

theorem NextPowerOfTwo_least (v : Nat) :
    (∃ k, NextPowerOfTwo v = 2 ^ k) ∧ v ≤ NextPowerOfTwo v ∧
      ∀ j, v ≤ 2 ^ j → NextPowerOfTwo v ≤ 2 ^ j := by
  refine ⟨⟨_, rfl⟩, Nat.le_pow_clog (by norm_num) v, ?_⟩
  intro j hj
  exact Nat.pow_le_pow_right (by norm_num) ((Nat.le_pow_iff_clog_le (by norm_num)).mp hj)

theorem hzbDimension_pow (v : Nat) : ∃ k, max (NextPowerOfTwo v >>> 1) 1 = 2 ^ k := by
  unfold NextPowerOfTwo
  cases h : Nat.clog 2 v with
  | zero => exact ⟨0, by simp⟩
  | succ n =>
    refine ⟨n, ?_⟩
    rw [Nat.shiftRight_eq_div_pow, pow_succ]
    simp
    exact Nat.one_le_two_pow

/-- C13, as stated: for the view size (1,1) the base width is 1, not
NextPowerOfTwo(1) / 2 = 0. -/
theorem InitHZB_base_counterexample :
    (InitHZB (1, 1)).Width = 1 ∧ NextPowerOfTwo 1 / 2 = 0 ∧
      (InitHZB (1, 1)).Width ≠ NextPowerOfTwo 1 / 2 := by
  have e : NextPowerOfTwo 1 = 1 := by simp [NextPowerOfTwo]
  simp [InitHZB, e]

/-- C13, amended: for every view size (W,H), `InitHZB` creates the depth pyramid with base
width max(NextPowerOfTwo(W) / 2, 1) and base height max(NextPowerOfTwo(H) / 2, 1) (integer
halving; NextPowerOfTwo is the least power of two >= its argument) and with mip count
floor(log2(max(base width, base height))). -/
theorem InitHZB_base (W H : Nat) :
    (InitHZB (W, H)).Width = max (NextPowerOfTwo W / 2) 1 ∧
    (InitHZB (W, H)).Height = max (NextPowerOfTwo H / 2) 1 ∧
    2 ^ (InitHZB (W, H)).Mips ≤ max (InitHZB (W, H)).Width (InitHZB (W, H)).Height ∧
    max (InitHZB (W, H)).Width (InitHZB (W, H)).Height < 2 ^ ((InitHZB (W, H)).Mips + 1) ∧
    (∀ v, (∃ k, NextPowerOfTwo v = 2 ^ k) ∧ v ≤ NextPowerOfTwo v ∧
      ∀ j, v ≤ 2 ^ j → NextPowerOfTwo v ≤ 2 ^ j) := by
  have hne : max (max (NextPowerOfTwo W >>> 1) 1) (max (NextPowerOfTwo H >>> 1) 1) ≠ 0 := by
    have : 1 ≤ max (NextPowerOfTwo W >>> 1) 1 := le_max_right _ _
    have h2 : max (NextPowerOfTwo W >>> 1) 1
        ≤ max (max (NextPowerOfTwo W >>> 1) 1) (max (NextPowerOfTwo H >>> 1) 1) :=
      le_max_left _ _
    omega
  refine ⟨?_, ?_, ?_, ?_, NextPowerOfTwo_least⟩
  · simp [InitHZB, Nat.shiftRight_eq_div_pow]
  · simp [InitHZB, Nat.shiftRight_eq_div_pow]
  · exact Nat.pow_log_le_self 2 hne
  · exact Nat.lt_pow_succ_log_self (by norm_num) _

end MeshletRasterizer

namespace MeshletRasterizer

theorem InitHZB_64 : InitHZB (64, 64) = { Width := 32, Height := 32, Mips := 5 } := by
  have e : NextPowerOfTwo 64 = 64 := by
    have h : Nat.clog 2 (2 ^ 6) = 6 := Nat.clog_pow 2 6 (by norm_num)
    norm_num at h
    simp [NextPowerOfTwo, h]
  have l : Nat.log 2 32 = 5 := by
    have h : Nat.log 2 (2 ^ 5) = 5 := Nat.log_pow (by norm_num) 5
    norm_num at h
    exact h
  simp [InitHZB, e, l]

/-- C14, as stated: for a 64x64 depth target the pyramid has 5 mips, not 6. -/
theorem InitHZB_64_counterexample :
    (InitHZB (64, 64)).Mips = 5 ∧ (InitHZB (64, 64)).Mips ≠ 6 := by
  rw [InitHZB_64]
  exact ⟨rfl, by decide⟩

/-- C14, amended: for a 64x64 depth target, the pyramid created by `InitHZB` has a 32x32
base level and 5 mips, of extents 32, 16, 8, 4 and 2; its last mip, mip 4, is 2x2. -/
theorem InitHZB_64_pyramid :
    InitHZB (64, 64) = { Width := 32, Height := 32, Mips := 5 } ∧
    (List.range (InitHZB (64, 64)).Mips).map (mipExtent (InitHZB (64, 64)).Width)
      = [32, 16, 8, 4, 2] ∧
    (List.range (InitHZB (64, 64)).Mips).map (mipExtent (InitHZB (64, 64)).Height)
      = [32, 16, 8, 4, 2] := by
  rw [InitHZB_64]
  exact ⟨rfl, by decide, by decide⟩

/-- C15, at the view sizes (1,1) and (2,2): the descriptor of `InitHZB` has 0 mips and
`BuildHZB` passes `mips - 1` = 4294967295 to `SpdSetup`. -/
theorem InitHZB_small_view_mips :
    (InitHZB (1, 1)).Mips = 0 ∧ BuildHZB_spdMips (InitHZB (1, 1)) = 4294967295 ∧
    (InitHZB (2, 2)).Mips = 0 ∧ BuildHZB_spdMips (InitHZB (2, 2)) = 4294967295 := by
  have e1 : NextPowerOfTwo 1 = 1 := by simp [NextPowerOfTwo]
  have e2 : NextPowerOfTwo 2 = 2 := by
    have h : Nat.clog 2 (2 ^ 1) = 1 := Nat.clog_pow 2 1 (by norm_num)
    norm_num at h
    simp [NextPowerOfTwo, h]
  have h1 : InitHZB (1, 1) = { Width := 1, Height := 1, Mips := 0 } := by
    simp [InitHZB, e1]
  have h2 : InitHZB (2, 2) = { Width := 1, Height := 1, Mips := 0 } := by
    simp [InitHZB, e2]
  rw [h1, h2]
  exact ⟨rfl, by decide, rfl, by decide⟩

end MeshletRasterizer

namespace RenderGraph

/-! ### Indirect arguments -/

theorem indirectArgsDeclared_sound (passes : List RGPass) :
    ∀ earlier : List RGPass, indirectArgsDeclared earlier passes = true →
      ∀ (pre post : List RGPass) (p : RGPass), passes = pre ++ p :: post →
        ∀ b ∈ p.executeIndirect, b ∈ p.reads ∧ ∃ q ∈ earlier ++ pre, b ∈ q.writes := by
  induction passes with
  | nil =>
    intro earlier _ pre post p h
    exact absurd h (by simp)
  | cons a rest ih =>
    intro earlier h pre post p hsplit b hb
    simp only [indirectArgsDeclared, Bool.and_eq_true, List.all_eq_true, List.any_eq_true,
      decide_eq_true_eq] at h
    cases pre with
    | nil =>
      simp only [List.nil_append, List.cons.injEq] at hsplit
      obtain ⟨rfl, -⟩ := hsplit
      obtain ⟨h1, q, hq, hw⟩ := h.1 b hb
      exact ⟨h1, q, by simpa using hq, hw⟩
    | cons c pre =>
      simp only [List.cons_append, List.cons.injEq] at hsplit
      obtain ⟨hc, hrest⟩ := hsplit
      subst hc
      obtain ⟨h1, q, hq, hw⟩ := ih _ h.2 pre post p hrest b hb
      exact ⟨h1, q, by simpa using hq, hw⟩

end RenderGraph

namespace MeshletRasterizer

open RenderGraph

/-! ### The passes of `MeshletRasterizer::Render` -/

theorem renderGraphOf_indirectArgsDeclared (cfg : RenderConfig) :
    indirectArgsDeclared [] (renderGraphOf cfg).1.passes = true := by
  obtain ⟨mode, occlusion, debug, workGraph, supports, freeze⟩ := cfg
  cases mode <;> cases occlusion <;> cases debug <;> cases workGraph <;> cases supports <;>
    cases freeze <;> decide!

end MeshletRasterizer

namespace MeshletRasterizer

open RenderGraph

theorem split_at (l : List RGPass) (i : Nat) (h : i < l.length) :
    l = l.take i ++ l.get ⟨i, h⟩ :: l.drop (i + 1) := by
  rw [List.get_eq_getElem, ← List.drop_eq_getElem_cons h, List.take_append_drop]

/-- C16: in the list of passes that `Render` registers, for every raster mode and every
setting of occlusion culling, debug, work graphs (requested and supported) and cull
freezing, in both phases, every buffer a pass hands to `ExecuteIndirect` is in the read set
of that pass and in the write set of a pass registered before it. -/
theorem Render_indirect_arguments (cfg : RenderConfig) (pre post : List RGPass) (p : RGPass)
    (h : (renderGraphOf cfg).1.passes = pre ++ p :: post) :
    ∀ b ∈ p.executeIndirect, b ∈ p.reads ∧ ∃ q ∈ pre, b ∈ q.writes := by
  have hs := indirectArgsDeclared_sound (renderGraphOf cfg).1.passes []
    (renderGraphOf_indirectArgsDeclared cfg) pre post p h
  simpa using hs

/-- C16, at the pass "Cull Meshlets" of phase 1 (visibility buffer, occlusion culling on,
no work graph), which hands "GPURender.MeshletCullArgs" to `ExecuteIndirect`. -/
theorem Render_indirect_arguments_witness :
    ((renderGraphOf ⟨.VisibilityBuffer, true, false, false, false, false⟩).1.passes.get
        ⟨3, by decide!⟩).name = "Cull Meshlets" ∧
    ((renderGraphOf ⟨.VisibilityBuffer, true, false, false, false, false⟩).1.passes.get
        ⟨3, by decide!⟩).executeIndirect = [{ id := 12 }] ∧
    ∀ b ∈ ((renderGraphOf ⟨.VisibilityBuffer, true, false, false, false, false⟩).1.passes.get
        ⟨3, by decide!⟩).executeIndirect,
      b ∈ ((renderGraphOf ⟨.VisibilityBuffer, true, false, false, false, false⟩).1.passes.get
        ⟨3, by decide!⟩).reads ∧
      ∃ q ∈ (renderGraphOf ⟨.VisibilityBuffer, true, false, false, false, false⟩).1.passes.take 3,
        b ∈ q.writes :=
  ⟨by decide!, by decide!,
    Render_indirect_arguments ⟨.VisibilityBuffer, true, false, false, false, false⟩
      ((renderGraphOf ⟨.VisibilityBuffer, true, false, false, false, false⟩).1.passes.take 3)
      ((renderGraphOf ⟨.VisibilityBuffer, true, false, false, false, false⟩).1.passes.drop 4)
      ((renderGraphOf ⟨.VisibilityBuffer, true, false, false, false, false⟩).1.passes.get
        ⟨3, by decide!⟩)
      (split_at _ 3 (by decide!))⟩

theorem Render_targets_match_flags (cfg : RenderConfig) :
    ∀ p ∈ (renderGraphOf cfg).1.passes, p.targetsMatchFlag := by
  obtain ⟨mode, occlusion, debug, workGraph, supports, freeze⟩ := cfg
  cases mode <;> cases occlusion <;> cases debug <;> cases workGraph <;> cases supports <;>
    cases freeze <;> decide!

end MeshletRasterizer

namespace TiledForward

open RenderGraph

/-! ### Pass flags and declared targets -/

/-- C17, at the pass "Visualize Light Density" of `TiledForward::VisualizeLightDensity`:
it is registered with the flag Raster and declares neither a render target nor a
depth-stencil target, while the three other passes of `TiledForward` ("Tiled Light
Culling", "Base Pass", "Cache Scene Color") respect the rule. -/
theorem VisualizeLightDensity_raster_without_target :
    tiledForwardGraph.passes.map RGPass.name
      = ["Tiled Light Culling", "Base Pass", "Cache Scene Color", "Visualize Light Density"] ∧
    (∃ p ∈ tiledForwardGraph.passes, p.name = "Visualize Light Density" ∧
      RGPassFlag.Raster ∈ p.flags ∧ p.renderTargets = [] ∧ p.depthStencil = none ∧
      ¬ p.targetsMatchFlag) ∧
    (∀ p ∈ tiledForwardGraph.passes, p.name ≠ "Visualize Light Density" →
      p.targetsMatchFlag) := by
  decide!

end TiledForward

namespace MeshletRasterizer

open RenderGraph

/-- C18: with occlusion culling disabled, `Render` registers the counter-clear pass
"Clear UAVs" followed by passes of the scope "Phase 1" only: no pass of the scope
"Phase 2", no resource "HZB" created, nothing exported, no pass "HZB Create" or
"HZB Mips", no HZB in the result, and every pass that fills the HZB parameters captured a
null source HZB, binds no HZB and so gets the HZB dimensions (0,0). With occlusion culling
enabled, the passes after "Clear UAVs" are passes of the scope "Phase 1" followed by passes
of the scope "Phase 2", both present. -/
theorem Render_occlusion_culling_phases (mode : RasterMode)
    (debug workGraph supports freeze : Bool) :
    ((∃ clear rest,
        (renderGraphOf ⟨mode, false, debug, workGraph, supports, freeze⟩).1.passes
          = clear :: rest ∧
        clear.name = "Clear UAVs" ∧ clear.scope = ["Cull and Rasterize"] ∧ rest ≠ [] ∧
        ∀ p ∈ rest, "Phase 1" ∈ p.scope) ∧
      (∀ p ∈ (renderGraphOf ⟨mode, false, debug, workGraph, supports, freeze⟩).1.passes,
        "Phase 2" ∉ p.scope ∧ p.name ≠ "HZB Create" ∧ p.name ≠ "HZB Mips" ∧
        (p.usesHZB = true → p.pSourceHZB = none ∧ p.hzb = none ∧
          ∀ s : ViewSizes,
            HZBDimensions (renderGraphOf ⟨mode, false, debug, workGraph, supports, freeze⟩).1
              p.pSourceHZB s = (0, 0))) ∧
      (∃ p ∈ (renderGraphOf ⟨mode, false, debug, workGraph, supports, freeze⟩).1.passes,
        p.usesHZB = true) ∧
      (∀ d ∈ (renderGraphOf ⟨mode, false, debug, workGraph, supports, freeze⟩).1.resources,
        d.name ≠ "HZB") ∧
      (renderGraphOf ⟨mode, false, debug, workGraph, supports, freeze⟩).1.exports = [] ∧
      (renderGraphOf ⟨mode, false, debug, workGraph, supports, freeze⟩).2.2.pHZB = none) ∧
    (∃ clear phase1 phase2,
        (renderGraphOf ⟨mode, true, debug, workGraph, supports, freeze⟩).1.passes
          = clear :: (phase1 ++ phase2) ∧
        clear.name = "Clear UAVs" ∧ phase1 ≠ [] ∧ phase2 ≠ [] ∧
        (∀ p ∈ phase1, "Phase 1" ∈ p.scope ∧ "Phase 2" ∉ p.scope) ∧
        (∀ p ∈ phase2, "Phase 2" ∈ p.scope ∧ "Phase 1" ∉ p.scope)) := by
  have hoff : ∀ (g : RGGraph) (p : RGPass), p.pSourceHZB = none →
      ∀ s : ViewSizes, HZBDimensions g p.pSourceHZB s = (0, 0) := by
    intro g p h s
    rw [h]
    rfl
  have hcons : ∀ (l : List RGPass) (d : RGPass), 0 < l.length → l = l.headD d :: l.tail := by
    intro l d h
    cases l with
    | nil => exact absurd h (by simp)
    | cons a t => rfl
  refine ⟨⟨?_, ?_, ?_, ?_, ?_, ?_⟩, ?_⟩
  · have k : 0 < (renderGraphOf ⟨mode, false, debug, workGraph, supports, freeze⟩).1.passes.length ∧
        ((renderGraphOf ⟨mode, false, debug, workGraph, supports, freeze⟩).1.passes.headD
          { name := "", flags := [] }).name = "Clear UAVs" ∧
        ((renderGraphOf ⟨mode, false, debug, workGraph, supports, freeze⟩).1.passes.headD
          { name := "", flags := [] }).scope = ["Cull and Rasterize"] ∧
        0 < (renderGraphOf ⟨mode, false, debug, workGraph, supports, freeze⟩).1.passes.tail.length ∧
        ∀ p ∈ (renderGraphOf ⟨mode, false, debug, workGraph, supports, freeze⟩).1.passes.tail,
          "Phase 1" ∈ p.scope := by
      cases mode <;> cases debug <;> cases workGraph <;> cases supports <;> cases freeze <;>
        decide!
    exact ⟨_, _, hcons _ _ k.1, k.2.1, k.2.2.1, List.ne_nil_of_length_pos k.2.2.2.1,
      k.2.2.2.2⟩
  · have h : ∀ p ∈ (renderGraphOf ⟨mode, false, debug, workGraph, supports, freeze⟩).1.passes,
        "Phase 2" ∉ p.scope ∧ p.name ≠ "HZB Create" ∧ p.name ≠ "HZB Mips" ∧
        (p.usesHZB = true → p.pSourceHZB = none ∧ p.hzb = none) := by
      cases mode <;> cases debug <;> cases workGraph <;> cases supports <;> cases freeze <;>
        decide!
    intro p hp
    obtain ⟨h1, h2, h3, h4⟩ := h p hp
    exact ⟨h1, h2, h3, fun hu => ⟨(h4 hu).1, (h4 hu).2, hoff _ p (h4 hu).1⟩⟩
  · cases mode <;> cases debug <;> cases workGraph <;> cases supports <;> cases freeze <;>
      decide!
  · cases mode <;> cases debug <;> cases workGraph <;> cases supports <;> cases freeze <;>
      decide!
  · cases mode <;> cases debug <;> cases workGraph <;> cases supports <;> cases freeze <;>
      decide!
  · cases mode <;> cases debug <;> cases workGraph <;> cases supports <;> cases freeze <;>
      decide!
  · have k : 0 < (renderGraphOf ⟨mode, true, debug, workGraph, supports, freeze⟩).1.passes.length ∧
        ((renderGraphOf ⟨mode, true, debug, workGraph, supports, freeze⟩).1.passes.headD
          { name := "", flags := [] }).name = "Clear UAVs" ∧
        0 < ((renderGraphOf ⟨mode, true, debug, workGraph, supports, freeze⟩).1.passes.tail.takeWhile
          (fun p => decide ("Phase 1" ∈ p.scope))).length ∧
        0 < ((renderGraphOf ⟨mode, true, debug, workGraph, supports, freeze⟩).1.passes.tail.dropWhile
          (fun p => decide ("Phase 1" ∈ p.scope))).length ∧
        (∀ p ∈ (renderGraphOf ⟨mode, true, debug, workGraph, supports, freeze⟩).1.passes.tail.takeWhile
          (fun p => decide ("Phase 1" ∈ p.scope)), "Phase 1" ∈ p.scope ∧ "Phase 2" ∉ p.scope) ∧
        (∀ p ∈ (renderGraphOf ⟨mode, true, debug, workGraph, supports, freeze⟩).1.passes.tail.dropWhile
          (fun p => decide ("Phase 1" ∈ p.scope)), "Phase 2" ∈ p.scope ∧ "Phase 1" ∉ p.scope) := by
      cases mode <;> cases debug <;> cases workGraph <;> cases supports <;> cases freeze <;>
        decide!
    refine ⟨_, _, _, ?_, k.2.1, List.ne_nil_of_length_pos k.2.2.1,
      List.ne_nil_of_length_pos k.2.2.2.1, k.2.2.2.2.1, k.2.2.2.2.2⟩
    rw [List.takeWhile_append_dropWhile]
    exact hcons _ _ k.1

end MeshletRasterizer

namespace MeshletRasterizer

/-! ### The backing buffer of the work graph pass across executions -/

theorem psoPhaseIndex_injective (a b : RasterPhase) (h : psoPhaseIndex a = psoPhaseIndex b) :
    a = b := by
  cases a <;> cases b <;> first | rfl | exact absurd h (by decide)

theorem workGraphRun_append (m : WorkGraphBuffers) (pre post : List (RasterPhase × Nat)) :
    workGraphRun m (pre ++ post) = workGraphRun (workGraphRun m pre) post := by
  induction pre generalizing m with
  | nil => rfl
  | cons e pre ih => simp [workGraphRun, ih]

theorem workGraphRun_remembered (m : WorkGraphBuffers) (executions : List (RasterPhase × Nat))
    (rasterPhase : RasterPhase) :
    workGraphRun m executions (psoPhaseIndex rasterPhase)
      = (lastResolved executions rasterPhase).or (m (psoPhaseIndex rasterPhase)) := by
  induction executions using List.reverseRecOn with
  | nil => simp [workGraphRun, lastResolved]
  | append_singleton pre e ih =>
    rw [workGraphRun_append]
    simp only [workGraphRun, workGraphExecute, lastResolved, List.reverse_append,
      List.reverse_cons, List.reverse_nil, List.nil_append, List.singleton_append,
      List.find?_cons]
    by_cases h : e.1 = rasterPhase
    · subst h
      simp
    · have hne : psoPhaseIndex rasterPhase ≠ psoPhaseIndex e.1 :=
        fun heq => h (psoPhaseIndex_injective _ _ heq).symm
      simp only [h, decide_False, Function.update_noteq hne]
      exact ih

/-- C19: an execution of the work graph pass sets the INITIALIZE flag exactly when the
resolved buffer differs from the buffer remembered for its phase index, and afterwards
remembers the resolved buffer, leaving the other phase index alone; hence after any
sequence of executions the flag is INITIALIZE exactly when the resolved buffer differs
from the one resolved by the last execution of the same phase, or when there was none. -/
theorem workGraph_initialize_on_change :
    (∀ (m : WorkGraphBuffers) (rasterPhase : RasterPhase) (resolved : Nat),
      ((workGraphExecute m rasterPhase resolved).1
          = D3D12_SET_WORK_GRAPH_FLAGS.D3D12_SET_WORK_GRAPH_FLAG_INITIALIZE ↔
        some resolved ≠ m (psoPhaseIndex rasterPhase)) ∧
      ((workGraphExecute m rasterPhase resolved).1
          = D3D12_SET_WORK_GRAPH_FLAGS.D3D12_SET_WORK_GRAPH_FLAG_NONE ↔
        some resolved = m (psoPhaseIndex rasterPhase)) ∧
      (workGraphExecute m rasterPhase resolved).2 (psoPhaseIndex rasterPhase)
        = some resolved ∧
      ∀ other : RasterPhase, other ≠ rasterPhase →
        (workGraphExecute m rasterPhase resolved).2 (psoPhaseIndex other)
          = m (psoPhaseIndex other)) ∧
    (∀ (executions : List (RasterPhase × Nat)) (rasterPhase : RasterPhase) (resolved : Nat),
      (workGraphExecute (workGraphRun WorkGraphBuffers.initial executions) rasterPhase
          resolved).1
          = D3D12_SET_WORK_GRAPH_FLAGS.D3D12_SET_WORK_GRAPH_FLAG_INITIALIZE ↔
        lastResolved executions rasterPhase ≠ some resolved) := by
  refine ⟨?_, ?_⟩
  · intro m rasterPhase resolved
    refine ⟨?_, ?_, ?_, ?_⟩
    · by_cases h : some resolved = m (psoPhaseIndex rasterPhase) <;> simp [workGraphExecute, h]
    · by_cases h : some resolved = m (psoPhaseIndex rasterPhase) <;> simp [workGraphExecute, h]
    · simp [workGraphExecute]
    · intro other hne
      have hidx : psoPhaseIndex other ≠ psoPhaseIndex rasterPhase :=
        fun heq => hne (psoPhaseIndex_injective _ _ heq)
      simp [workGraphExecute, Function.update_noteq hidx]
  · intro executions rasterPhase resolved
    have hrem := workGraphRun_remembered WorkGraphBuffers.initial executions rasterPhase
    have hinit : WorkGraphBuffers.initial (psoPhaseIndex rasterPhase) = none := rfl
    rw [hinit, Option.or_none] at hrem
    by_cases h : some resolved
        = workGraphRun WorkGraphBuffers.initial executions (psoPhaseIndex rasterPhase)
    · have h2 : lastResolved executions rasterPhase = some resolved := by rw [← hrem, ← h]
      simp [workGraphExecute, h.symm, h2]
    · have h2 : lastResolved executions rasterPhase ≠ some resolved := by
        rw [← hrem]
        exact fun e => h e.symm
      simp [workGraphExecute, h, h2]

end MeshletRasterizer

namespace DemoApp

/-! ### The file name of a screenshot -/

theorem formatGo_screenshot (dir : List Char) (y mo d h mi s ms : Int) :
    formatGo none "%sScreenshot_%d_%02d_%02d__%02d_%02d_%02d_%d.png".toList
        [.str dir, .int y, .int mo, .int d, .int h, .int mi, .int s, .int ms]
      = some (dir ++ "Screenshot_".toList ++ formatInt false 0 y ++ ['_'] ++
          formatInt true 2 mo ++ ['_'] ++ formatInt true 2 d ++ ['_', '_'] ++
          formatInt true 2 h ++ ['_'] ++ formatInt true 2 mi ++ ['_'] ++
          formatInt true 2 s ++ ['_'] ++ formatInt false 0 ms ++ ".png".toList) := by
  simp [formatGo, formatStr, Char.isDigit]

end DemoApp

namespace DemoApp

theorem formatInt_plain (n : Nat) : formatInt false 0 (n : Int) = decimal n := by
  have h : ¬ ((n : Int) < 0) := by omega
  simp [formatInt, h]

theorem formatInt_two (n : Nat) (h : n < 100) : formatInt true 2 (n : Int) = twoDigits n := by
  have hneg : ¬ ((n : Int) < 0) := by omega
  have hz : Nat.digitChar 0 = '0' := rfl
  rcases Nat.lt_or_ge n 10 with h10 | h10
  · rcases Nat.eq_zero_or_pos n with h0 | h0
    · subst h0
      simp [formatInt, decimal, twoDigits, hz]
    · have hd : Nat.digits 10 n = [n] := Nat.digits_of_lt 10 n (by omega) h10
      have hn : n ≠ 0 := by omega
      have e1 : n / 10 = 0 := by omega
      have e2 : n % 10 = n := by omega
      simp [formatInt, decimal, twoDigits, hneg, hd, hn, e1, e2, List.replicate, hz]
  · have hn : n ≠ 0 := by omega
    have hq : 0 < n / 10 := by omega
    have hq10 : n / 10 < 10 := by omega
    have hd : Nat.digits 10 n = [n % 10, n / 10] := by
      rw [Nat.digits_def' (by norm_num) (by omega), Nat.digits_of_lt 10 (n / 10) (by omega) hq10]
    simp [formatInt, decimal, twoDigits, hneg, hd, hn]

theorem decimal_length (n : Nat) : (decimal n).length = Nat.log 10 n + 1 := by
  rcases Nat.eq_zero_or_pos n with h0 | h0
  · subst h0
    simp [decimal]
  · have hn : n ≠ 0 := by omega
    simp [decimal, hn, Nat.digits_len 10 n (by norm_num) hn]

theorem decimal_length_eq (n k : Nat) (hlo : 10 ^ k ≤ n) (hhi : n < 10 ^ (k + 1)) :
    (decimal n).length = k + 1 := by
  have hn : n ≠ 0 := by
    have : 0 < 10 ^ k := Nat.pos_pow_of_pos k (by norm_num)
    omega
  have hl : Nat.log 10 n = k := (Nat.log_eq_iff (Or.inr ⟨by norm_num, hn⟩)).mpr ⟨hlo, hhi⟩
  rw [decimal_length, hl]

end DemoApp

namespace DemoApp

theorem decimal_length_le (n k : Nat) (h : n < 10 ^ (k + 1)) : (decimal n).length ≤ k + 1 := by
  rw [decimal_length]
  rcases Nat.eq_zero_or_pos n with h0 | h0
  · subst h0
    simp
  · have := Nat.log_lt_of_lt_pow (by omega) h
    omega

theorem screenshotFilePath_eq (screenshotDir : List Char) (time : SYSTEMTIME)
    (hvalid : time.valid) (hfit : screenshotDir.length ≤ 87) :
    screenshotFilePath screenshotDir time
      = some (screenshotDir ++ "Screenshot_".toList ++ decimal time.wYear ++ ['_'] ++
          twoDigits time.wMonth ++ ['_'] ++ twoDigits time.wDay ++ ['_', '_'] ++
          twoDigits time.wHour ++ ['_'] ++ twoDigits time.wMinute ++ ['_'] ++
          twoDigits time.wSecond ++ ['_'] ++ decimal time.wMilliseconds ++ ".png".toList) := by
  obtain ⟨hy1, hy2, hmo1, hmo2, -, hd1, hd2, hh, hmi, hs, hms⟩ := hvalid
  have hylen : (decimal time.wYear).length ≤ 5 := decimal_length_le _ 4 (by omega)
  have hmslen : (decimal time.wMilliseconds).length ≤ 3 := decimal_length_le _ 2 (by omega)
  have hgo := formatGo_screenshot screenshotDir time.wYear time.wMonth time.wDay time.wHour
    time.wMinute time.wSecond time.wMilliseconds
  rw [formatInt_plain, formatInt_plain, formatInt_two _ (by omega), formatInt_two _ (by omega),
    formatInt_two _ (by omega), formatInt_two _ (by omega), formatInt_two _ (by omega)]
    at hgo
  unfold screenshotFilePath FormatString
  simp only [Int.ofNat_eq_coe, hgo]
  have hlen : (screenshotDir ++ "Screenshot_".toList ++ decimal time.wYear ++ ['_'] ++
        twoDigits time.wMonth ++ ['_'] ++ twoDigits time.wDay ++ ['_', '_'] ++
        twoDigits time.wHour ++ ['_'] ++ twoDigits time.wMinute ++ ['_'] ++
        twoDigits time.wSecond ++ ['_'] ++ decimal time.wMilliseconds ++ ".png".toList).length
      + 1 ≤ 128 := by
    simp [twoDigits]
    omega
  rw [if_pos hlen]

theorem decimal_2024 : decimal 2024 = ['2', '0', '2', '4'] := by
  have h : Nat.digits 10 2024 = [4, 2, 0, 2] := by norm_num
  simp [decimal, h]
  decide

theorem decimal_6 : decimal 6 = ['6'] := by
  have h : Nat.digits 10 6 = [6] := by norm_num
  simp [decimal, h]
  decide

/-- C20, as stated: at 2024-01-02 03:04:05.006 the name ends in `_05_6.png`; the
millisecond field is not padded to three digits. -/
theorem screenshotFilePath_counterexample :
    screenshotFilePath "Saved/Screenshots/".toList
        { wYear := 2024, wMonth := 1, wDayOfWeek := 2, wDay := 2, wHour := 3, wMinute := 4,
          wSecond := 5, wMilliseconds := 6 }
      = some "Saved/Screenshots/Screenshot_2024_01_02__03_04_05_6.png".toList ∧
    screenshotFilePath "Saved/Screenshots/".toList
        { wYear := 2024, wMonth := 1, wDayOfWeek := 2, wDay := 2, wHour := 3, wMinute := 4,
          wSecond := 5, wMilliseconds := 6 }
      ≠ some "Saved/Screenshots/Screenshot_2024_01_02__03_04_05_006.png".toList := by
  have h := screenshotFilePath_eq "Saved/Screenshots/".toList
    { wYear := 2024, wMonth := 1, wDayOfWeek := 2, wDay := 2, wHour := 3, wMinute := 4,
      wSecond := 5, wMilliseconds := 6 } (by simp [SYSTEMTIME.valid]) (by decide)
  simp only [decimal_2024, decimal_6] at h
  rw [h]
  exact ⟨by decide, by decide⟩

/-- C20, amended: for every system time in the ranges of `GetSystemTime` and every
screenshot directory of at most 87 characters (so that the path fits the buffer of 128),
the file name is the directory followed by `Screenshot_Y_MM_DD__HH_MM_SS_m.png`: month,
day, hour, minute and second with two digits, zero-padded, and the year and the
milliseconds in plain decimal without padding: four digits for a year up to 9999, and one,
two or three digits for the milliseconds. -/
theorem screenshotFilePath_format (screenshotDir : List Char) (time : SYSTEMTIME)
    (hvalid : time.valid) (hfit : screenshotDir.length ≤ 87) :
    screenshotFilePath screenshotDir time
      = some (screenshotDir ++ "Screenshot_".toList ++ decimal time.wYear ++ ['_'] ++
          twoDigits time.wMonth ++ ['_'] ++ twoDigits time.wDay ++ ['_', '_'] ++
          twoDigits time.wHour ++ ['_'] ++ twoDigits time.wMinute ++ ['_'] ++
          twoDigits time.wSecond ++ ['_'] ++ decimal time.wMilliseconds ++ ".png".toList) ∧
    (time.wYear ≤ 9999 → (decimal time.wYear).length = 4) ∧
    (decimal time.wMilliseconds).length
      = (if time.wMilliseconds < 10 then 1 else if time.wMilliseconds < 100 then 2 else 3) := by
  have hpath := screenshotFilePath_eq screenshotDir time hvalid hfit
  obtain ⟨hy1, hy2, hmo1, hmo2, -, hd1, hd2, hh, hmi, hs, hms⟩ := hvalid
  refine ⟨hpath, ?_, ?_⟩
  · intro h9999
    exact decimal_length_eq _ 3 (by omega) (by omega)
  · split
    · rcases Nat.eq_zero_or_pos time.wMilliseconds with h0 | h0
      · rw [h0]
        simp [decimal]
      · exact decimal_length_eq _ 0 (by omega) (by omega)
    · split
      · exact decimal_length_eq _ 1 (by omega) (by omega)
      · exact decimal_length_eq _ 2 (by omega) (by omega)

/-- C20, at 2024-11-01 18:38:07.250 in the directory `Saved/Screenshots/`. -/
theorem screenshotFilePath_format_witness :
    screenshotFilePath "Saved/Screenshots/".toList
        { wYear := 2024, wMonth := 11, wDayOfWeek := 5, wDay := 1, wHour := 18,
          wMinute := 38, wSecond := 7, wMilliseconds := 250 }
      = some ("Saved/Screenshots/".toList ++ "Screenshot_".toList ++ decimal 2024 ++ ['_'] ++
          twoDigits 11 ++ ['_'] ++ twoDigits 1 ++ ['_', '_'] ++
          twoDigits 18 ++ ['_'] ++ twoDigits 38 ++ ['_'] ++
          twoDigits 7 ++ ['_'] ++ decimal 250 ++ ".png".toList) ∧
    ((2024 : Nat) ≤ 9999 → (decimal 2024).length = 4) ∧
    (decimal 250).length = (if (250 : Nat) < 10 then 1 else if (250 : Nat) < 100 then 2 else 3) :=
  screenshotFilePath_format "Saved/Screenshots/".toList
    { wYear := 2024, wMonth := 11, wDayOfWeek := 5, wDay := 1, wHour := 18,
      wMinute := 38, wSecond := 7, wMilliseconds := 250 }
    (by simp [SYSTEMTIME.valid]) (by decide)

end DemoApp

namespace DemoApp

/-! ### The screenshot queue -/

theorem drainScreenshots_eq (done : Nat → Bool) (frame : Nat) (queue : List ScreenshotRequest) :
    ∀ tasks, drainScreenshots done frame queue tasks
      = (queue.dropWhile (fun r => done r.Fence),
         tasks ++ (queue.takeWhile fun r => done r.Fence).map fun r => (frame, r)) := by
  induction queue with
  | nil => intro tasks; simp [drainScreenshots]
  | cons r rest ih =>
    intro tasks
    by_cases h : done r.Fence = true
    · simp [drainScreenshots, h, ih]
    · simp [drainScreenshots, h]

theorem updateScreenshots_eq (st : ScreenshotState) (f : ScreenshotFrame) :
    updateScreenshots st f
      = { m_Frame := st.m_Frame + 1,
          m_ScreenshotBuffers :=
            ((if f.g_Screenshot then st.m_ScreenshotBuffers ++ [f.request]
              else st.m_ScreenshotBuffers).dropWhile fun r => f.IsFenceComplete r.Fence),
          tasks := st.tasks ++
            ((if f.g_Screenshot then st.m_ScreenshotBuffers ++ [f.request]
              else st.m_ScreenshotBuffers).takeWhile fun r => f.IsFenceComplete r.Fence).map
              fun r => (st.m_Frame, r) } := by
  simp [updateScreenshots, drainScreenshots_eq]

theorem updateScreenshots_order (st : ScreenshotState) (f : ScreenshotFrame) :
    (updateScreenshots st f).tasks.map Prod.snd ++ (updateScreenshots st f).m_ScreenshotBuffers
      = st.tasks.map Prod.snd ++ st.m_ScreenshotBuffers ++
          (if f.g_Screenshot then [f.request] else []) := by
  rw [updateScreenshots_eq]
  simp only [List.map_append, List.map_map, List.append_assoc]
  have hid : (Prod.snd ∘ fun r : ScreenshotRequest => (st.m_Frame, r)) = id := rfl
  rw [hid, List.map_id, List.takeWhile_append_dropWhile]
  cases f.g_Screenshot <;> simp

theorem foldl_updateScreenshots_order (frames : List ScreenshotFrame) :
    ∀ st : ScreenshotState,
      (frames.foldl updateScreenshots st).tasks.map Prod.snd ++
          (frames.foldl updateScreenshots st).m_ScreenshotBuffers
        = st.tasks.map Prod.snd ++ st.m_ScreenshotBuffers ++ requested frames := by
  induction frames with
  | nil => intro st; simp [requested]
  | cons f rest ih =>
    intro st
    rw [List.foldl_cons, ih, updateScreenshots_order]
    cases h : f.g_Screenshot <;> simp [requested, h]

theorem foldl_updateScreenshots_fence (frames : List ScreenshotFrame) :
    ∀ st : ScreenshotState, ∀ t r, (t, r) ∈ (frames.foldl updateScreenshots st).tasks →
      (t, r) ∈ st.tasks ∨
        ∃ f, st.m_Frame ≤ t ∧ frames[t - st.m_Frame]? = some f ∧
          f.IsFenceComplete r.Fence = true := by
  induction frames with
  | nil => intro st t r h; exact Or.inl h
  | cons f rest ih =>
    intro st t r h
    rw [List.foldl_cons] at h
    rcases ih _ t r h with h1 | ⟨g, hle, hg, hdone⟩
    · rw [updateScreenshots_eq] at h1
      simp only [List.mem_append, List.mem_map] at h1
      rcases h1 with h1 | ⟨q, hq, he⟩
      · exact Or.inl h1
      · right
        have hq2 := List.mem_takeWhile_imp hq
        simp only [Prod.mk.injEq] at he
        obtain ⟨h1, h2⟩ := he
        subst h1; subst h2
        exact ⟨f, le_refl _, by simp, hq2⟩
    · right
      have hf : (updateScreenshots st f).m_Frame = st.m_Frame + 1 := rfl
      rw [hf] at hle hg
      refine ⟨g, by omega, ?_, hdone⟩
      have e : t - st.m_Frame = (t - (st.m_Frame + 1)) + 1 := by omega
      rw [e, List.getElem?_cons_succ]
      exact hg

/-- C21: one `Update` hands exactly the longest prefix of the queue (after the new request,
if any, was emplaced at its back) whose fences are complete to the encoding task, in queue
order, and leaves the rest queued, so it stops at the first request whose fence is not
complete; over any sequence of `Update` calls the requests encoded so far followed by the
requests still queued are the requests emplaced so far, in order and once each, and every
request was encoded in a frame in which `IsFenceComplete` held for its fence. -/
theorem screenshots_encoded_after_fence :
    (∀ (st : ScreenshotState) (f : ScreenshotFrame),
      (updateScreenshots st f).tasks
          = st.tasks ++
              ((if f.g_Screenshot then st.m_ScreenshotBuffers ++ [f.request]
                else st.m_ScreenshotBuffers).takeWhile fun r => f.IsFenceComplete r.Fence).map
                (fun r => (st.m_Frame, r))
        ∧ (updateScreenshots st f).m_ScreenshotBuffers
          = ((if f.g_Screenshot then st.m_ScreenshotBuffers ++ [f.request]
              else st.m_ScreenshotBuffers).dropWhile fun r => f.IsFenceComplete r.Fence)
        ∧ (∀ r, (updateScreenshots st f).m_ScreenshotBuffers.head? = some r →
            f.IsFenceComplete r.Fence = false))
    ∧ ∀ frames : List ScreenshotFrame,
        (runScreenshots frames).tasks.map Prod.snd ++ (runScreenshots frames).m_ScreenshotBuffers
            = requested frames
          ∧ ∀ t r, (t, r) ∈ (runScreenshots frames).tasks →
              ∃ f, frames[t]? = some f ∧ f.IsFenceComplete r.Fence = true := by
  refine ⟨fun st f => ?_, fun frames => ⟨?_, ?_⟩⟩
  · rw [updateScreenshots_eq]
    refine ⟨rfl, rfl, ?_⟩
    intro r hr
    generalize (if f.g_Screenshot then st.m_ScreenshotBuffers ++ [f.request]
      else st.m_ScreenshotBuffers) = q at hr
    simp only at hr
    induction q with
    | nil => simp at hr
    | cons a rest ih =>
      by_cases h : f.IsFenceComplete a.Fence = true
      · rw [List.dropWhile_cons, if_pos h] at hr
        exact ih hr
      · rw [List.dropWhile_cons, if_neg h] at hr
        simp at hr
        subst hr
        simpa using h
  · have := foldl_updateScreenshots_order frames ScreenshotState.initial
    simpa [runScreenshots, ScreenshotState.initial] using this
  · intro t r h
    rcases foldl_updateScreenshots_fence frames ScreenshotState.initial t r h with h1 | ⟨f, _, hf, hd⟩
    · simp [ScreenshotState.initial] at h1
    · exact ⟨f, by simpa [ScreenshotState.initial] using hf, hd⟩

end DemoApp

namespace ClusteredForward

/-! ### The light-scattering volumes -/

/-- C22: in every frame f the injection pass reads light-scattering volume f mod 2 and
writes volume (f+1) mod 2, both are one of the two volumes and they differ, and the volume
read in frame f+1 is the volume written in frame f; this also holds where the frame counter
wraps at a power of two. -/
theorem injectVolumeLighting_ping_pong (f : Nat) :
    (injectVolumeLighting f).srvVolume = f % 2 ∧
    (injectVolumeLighting f).uavVolume = (f + 1) % 2 ∧
    (injectVolumeLighting f).srvVolume < 2 ∧ (injectVolumeLighting f).uavVolume < 2 ∧
    (injectVolumeLighting f).srvVolume ≠ (injectVolumeLighting f).uavVolume ∧
    (injectVolumeLighting (f + 1)).srvVolume = (injectVolumeLighting f).uavVolume ∧
    ∀ w, (injectVolumeLighting ((f + 1) % 2 ^ (w + 1))).srvVolume
      = (injectVolumeLighting f).uavVolume := by
  refine ⟨rfl, rfl, ?_, ?_, ?_, rfl, ?_⟩ <;>
    simp only [injectVolumeLighting, sourceVolumeIndex, destinationVolumeIndex]
  · omega
  · omega
  · omega
  intro w
  exact Nat.mod_mod_of_dvd _ (Dvd.intro_left (2 ^ w) (by rw [pow_succ]))

end ClusteredForward

namespace DemoApp

/-! ### The frustum slice of a shadow cascade -/

theorem Vector3.Length_scale (k : ℝ) (v : Vector3) :
    (Vector3.scale k v).Length = |k| * v.Length := by
  unfold Vector3.Length Vector3.scale
  have e : k * v.x * (k * v.x) + k * v.y * (k * v.y) + k * v.z * (k * v.z)
      = k ^ 2 * (v.x * v.x + v.y * v.y + v.z * v.z) := by ring
  rw [e, Real.sqrt_mul (sq_nonneg k), Real.sqrt_sq_eq_abs]

theorem Vector3.Length_Normalize (v : Vector3) (h : v.Length ≠ 0) :
    v.Normalize.Length = 1 := by
  have hpos : 0 < v.Length := lt_of_le_of_ne (Real.sqrt_nonneg _) (Ne.symm h)
  unfold Vector3.Normalize
  rw [if_neg h, Vector3.Length_scale, abs_of_pos (by positivity)]
  field_simp

theorem Vector3.add_sub_cancel (a b : Vector3) : (a.add b).sub a = b := by
  cases a; cases b
  simp [Vector3.add, Vector3.sub]

/-- Along a corner ray the new near corner lies at distance |previousCascadeSplit| and the
new far corner at distance |currentCascadeSplit| from the near-plane corner. -/
theorem adjustCorners_distance (nearCorner farCorner : Vector3) (prev cur : ℝ)
    (h : (farCorner.sub nearCorner).Length ≠ 0) :
    (((adjustCorners nearCorner farCorner prev cur).1).sub nearCorner).Length = |prev| ∧
    (((adjustCorners nearCorner farCorner prev cur).2).sub nearCorner).Length = |cur| := by
  simp only [adjustCorners, Vector3.add_sub_cancel, Vector3.Length_scale,
    Vector3.Length_Normalize _ h, mul_one, and_self]

/-- A cascade after the first starts where the cascade before it ends. -/
theorem previousCascadeSplit_succ (n f minPoint maxPoint pssmFactor : ℝ) (k i : Nat) :
    previousCascadeSplit n f minPoint maxPoint pssmFactor k (i + 1)
      = currentCascadeSplit n f minPoint maxPoint pssmFactor k i := by
  simp [previousCascadeSplit, currentCascadeSplit]

/-- C23, evaluated: with the depth range (min, max) = (1/2, 1), near plane 1, far plane 101
and one cascade, the slice of cascade 0 along the corner ray from (0,0,1) to (0,0,101)
starts at (0,0,3/2), at distance 1/2 = min from the near-plane corner, and not at distance
min * (far - near) = 50. -/
theorem cascadeSlice_zero_start :
    previousCascadeSplit 1 101 (1 / 2) 1 1 1 0 = 1 / 2 ∧
    (cascadeSlice 1 101 (1 / 2) 1 1 1 0 ⟨0, 0, 1⟩ ⟨0, 0, 101⟩).1 = ⟨0, 0, 3 / 2⟩ ∧
    (((cascadeSlice 1 101 (1 / 2) 1 1 1 0 ⟨0, 0, 1⟩ ⟨0, 0, 101⟩).1).sub ⟨0, 0, 1⟩).Length
      = 1 / 2 ∧
    (1 / 2 : ℝ) * (101 - 1) = 50 := by
  have hL : (Vector3.sub ⟨0, 0, 101⟩ ⟨0, 0, 1⟩).Length = 100 := by
    unfold Vector3.Length Vector3.sub
    norm_num
    rw [show (10000 : ℝ) = 100 ^ 2 by norm_num, Real.sqrt_sq (by norm_num)]
  have hne : (Vector3.sub ⟨0, 0, 101⟩ ⟨0, 0, 1⟩).Length ≠ 0 := by rw [hL]; norm_num
  have hp : previousCascadeSplit 1 101 (1 / 2) 1 1 1 0 = 1 / 2 := by
    simp [previousCascadeSplit]
  refine ⟨hp, ?_, ?_, by norm_num⟩
  · simp only [cascadeSlice, adjustCorners, hp, Vector3.Normalize, if_neg hne, hL]
    simp only [Vector3.sub, Vector3.scale, Vector3.add]
    norm_num
  · have := (adjustCorners_distance ⟨0, 0, 1⟩ ⟨0, 0, 101⟩
      (previousCascadeSplit 1 101 (1 / 2) 1 1 1 0)
      (currentCascadeSplit 1 101 (1 / 2) 1 1 1 0) hne).1
    rw [cascadeSlice, this, hp]
    norm_num

end DemoApp

namespace CommandLine

/-! ### Command lines on which `Parse` does not return -/

/-- C24, evaluated: on `-a  -b` (two consecutive spaces) `Parse` takes a substring at position
-1 and throws; on `-a=` and on `-a= -b` it reads the first character of an empty value; so
it does not return on these. On a leading space and on a token without `-` it returns
true. -/
theorem Parse_throws_on_double_space (prev : Store) :
    Parse prev "-a  -b".toList = none ∧
    Parse prev "-a=".toList = none ∧
    Parse prev "-a= -b".toList = none ∧
    Parse prev " -a".toList = some (true, [([], ['1']), (['a'], ['1'])]) ∧
    Parse prev "abc".toList = some (true, [("abc".toList, ['1'])]) :=
  ⟨(Parse_prev prev _).trans (by decide), (Parse_prev prev _).trans (by decide),
   (Parse_prev prev _).trans (by decide), (Parse_prev prev _).trans (by decide),
   (Parse_prev prev _).trans (by decide)⟩

end CommandLine

namespace DemoApp

/-! ### The writes of the shadow set-up into `ShadowData` -/

theorem ShadowWrites.cascadeLoop_eq (k : Nat) :
    ∀ s : ShadowWrites, ShadowWrites.cascadeLoop k s
      = { shadowIndex := s.shadowIndex + k
          CascadeDepths := s.CascadeDepths ++ List.range' s.shadowIndex k
          LightViewProjections := s.LightViewProjections ++ List.range' s.shadowIndex k } := by
  induction k with
  | zero => intro s; simp [ShadowWrites.cascadeLoop]
  | succ k ih =>
    intro s
    rw [ShadowWrites.cascadeLoop, ih]
    simp [ShadowWrites.cascade, List.range'_succ, Nat.add_comm 1 k, Nat.add_assoc]

theorem ShadowWrites.slotLoop_CascadeDepths (k : Nat) :
    ∀ s : ShadowWrites, (ShadowWrites.slotLoop k s).CascadeDepths = s.CascadeDepths := by
  induction k with
  | zero => intro s; rfl
  | succ k ih => intro s; rw [ShadowWrites.slotLoop, ih]; rfl

/-- A light that is not a shadow-casting directional light writes no cascade depth. -/
theorem shadowWritesLight_other (k : Nat) (l : Light) (s : ShadowWrites)
    (h : ¬ (l.CastShadows = true ∧ l.type = LightType.Directional)) :
    (shadowWritesLight k l s).CascadeDepths = s.CascadeDepths := by
  unfold shadowWritesLight
  by_cases hc : l.CastShadows = false
  · rw [if_pos hc]
  · rw [if_neg hc]
    have hc1 : l.CastShadows = true := by simpa using hc
    cases ht : l.type with
    | Directional => exact absurd ⟨hc1, ht⟩ h
    | Spot => rfl
    | Point => exact ShadowWrites.slotLoop_CascadeDepths 6 s
    | MAX => rfl

theorem shadowWritesLoop_other (k : Nat) (lights : List Light) :
    ∀ s : ShadowWrites,
      (∀ l ∈ lights, ¬ (l.CastShadows = true ∧ l.type = LightType.Directional)) →
      (shadowWritesLoop k lights s).CascadeDepths = s.CascadeDepths := by
  induction lights with
  | nil => intro s _; rfl
  | cons l rest ih =>
    intro s h
    rw [shadowWritesLoop, ih _ (fun x hx => h x (List.mem_cons_of_mem _ hx)),
      shadowWritesLight_other k l s (h l (List.mem_cons_self _ _))]

theorem shadowWritesLoop_sunCastsFirst (k : Nat) (lights : List Light) :
    ∀ s : ShadowWrites, sunCastsFirst lights → s.shadowIndex = 0 → s.CascadeDepths = [] →
      ∀ i ∈ (shadowWritesLoop k lights s).CascadeDepths, i < k := by
  induction lights with
  | nil =>
    intro s _ _ hd i hi
    rw [shadowWritesLoop, hd] at hi
    simp at hi
  | cons l rest ih =>
    intro s hsun h0 hd i hi
    unfold sunCastsFirst at hsun
    rw [List.pairwise_cons] at hsun
    by_cases hc : l.CastShadows = true
    · have hrest : ∀ x ∈ rest, ¬ (x.CastShadows = true ∧ x.type = LightType.Directional) :=
        fun x hx hxd => hsun.1 x hx ⟨hc, hxd.1, hxd.2⟩
      rw [shadowWritesLoop, shadowWritesLoop_other k rest _ hrest] at hi
      by_cases ht : l.type = LightType.Directional
      · have e : shadowWritesLight k l s = ShadowWrites.cascadeLoop k s := by
          simp [shadowWritesLight, hc, ht]
        rw [e, ShadowWrites.cascadeLoop_eq, hd, h0] at hi
        simp only [List.nil_append, List.mem_range'_1] at hi
        omega
      · rw [shadowWritesLight_other k l s (fun h => ht h.2), hd] at hi
        simp at hi
    · have e : shadowWritesLight k l s = s := by
        simp [shadowWritesLight, hc]
      rw [shadowWritesLoop, e] at hi
      exact ih s hsun.2 h0 hd i hi

theorem ShadowWrites.slotLoop_eq (n : Nat) :
    ∀ s : ShadowWrites, ShadowWrites.slotLoop n s
      = { shadowIndex := s.shadowIndex + n
          CascadeDepths := s.CascadeDepths
          LightViewProjections := s.LightViewProjections ++ List.range' s.shadowIndex n } := by
  induction n with
  | zero => intro s; simp [ShadowWrites.slotLoop]
  | succ n ih =>
    intro s
    rw [ShadowWrites.slotLoop, ih]
    simp [ShadowWrites.slot, List.range'_succ, Nat.add_comm 1 n, Nat.add_assoc]

theorem cascadeLoopChecked_eq (N k : Nat) (hk : k ≤ 4) (remaining : Nat) :
    ∀ s : ShadowWrites, remaining ≤ k → s.shadowIndex + remaining ≤ 4 →
      s.shadowIndex + remaining ≤ N →
      cascadeLoopChecked N k remaining s = some (ShadowWrites.cascadeLoop remaining s) := by
  induction remaining with
  | zero => intro s _ _ _; rfl
  | succ r ih =>
    intro s hr h4 hN
    have hc : s.cascadeChecked N (k - (r + 1)) = some s.cascade := by
      unfold ShadowWrites.cascadeChecked
      rw [if_pos ⟨by unfold MAX_CASCADES; omega, by omega, by omega⟩]
    simp only [cascadeLoopChecked, hc, ShadowWrites.cascadeLoop]
    exact ih s.cascade (by omega) (by simp only [ShadowWrites.cascade]; omega)
      (by simp only [ShadowWrites.cascade]; omega)

theorem slotLoopChecked_eq (N : Nat) (remaining : Nat) :
    ∀ s : ShadowWrites, s.shadowIndex + remaining ≤ N →
      slotLoopChecked N remaining s = some (ShadowWrites.slotLoop remaining s) := by
  induction remaining with
  | zero => intro s _; rfl
  | succ r ih =>
    intro s hN
    have hc : s.slotChecked N = some s.slot := by
      unfold ShadowWrites.slotChecked
      rw [if_pos (by omega)]
    simp only [slotLoopChecked, hc, ShadowWrites.slotLoop]
    exact ih s.slot (by simp only [ShadowWrites.slot]; omega)

/-- One light of the set-up, when its writes stay inside the arrays. -/
theorem shadowSetupLight_spec (N k : Nat) (hk : k ≤ 4) (light : Light) (s : ShadowWrites)
    (hN : s.shadowIndex + slotCount k light ≤ N)
    (hdir : light.CastShadows = true → light.type = LightType.Directional →
      s.shadowIndex = 0) :
    ∃ s1, shadowSetupLight N k light s
        = some (if light.CastShadows then { light with ShadowIndex := (s.shadowIndex : Int) }
                else light, s1) ∧
      s1 = shadowWritesLight k light s ∧
      s1.shadowIndex = s.shadowIndex + slotCount k light ∧
      s1.LightViewProjections
        = s.LightViewProjections ++ List.range' s.shadowIndex (slotCount k light) := by
  obtain ⟨ty, cast, idx⟩ := light
  cases cast with
  | false =>
    exact ⟨s, by simp [shadowSetupLight], by simp [shadowWritesLight], by simp [slotCount],
      by simp [slotCount]⟩
  | true =>
    cases ty with
    | Directional =>
      have h0 : s.shadowIndex = 0 := hdir rfl rfl
      simp only [slotCount, if_true] at hN
      refine ⟨ShadowWrites.cascadeLoop k s, ?_, by simp [shadowWritesLight], ?_, ?_⟩
      · simp [shadowSetupLight, cascadeLoopChecked_eq N k hk k s (le_refl _) (by omega) hN]
      · simp [ShadowWrites.cascadeLoop_eq, slotCount]
      · simp [ShadowWrites.cascadeLoop_eq, slotCount]
    | Spot =>
      simp only [slotCount, if_true] at hN
      refine ⟨s.slot, ?_, by simp [shadowWritesLight], ?_, ?_⟩
      · have hc : s.slotChecked N = some s.slot := by
          unfold ShadowWrites.slotChecked
          rw [if_pos (by omega)]
        simp [shadowSetupLight, hc]
      · simp [ShadowWrites.slot, slotCount]
      · simp [ShadowWrites.slot, slotCount, List.range'_succ]
    | Point =>
      simp only [slotCount, if_true] at hN
      refine ⟨ShadowWrites.slotLoop 6 s, ?_, by simp [shadowWritesLight], ?_, ?_⟩
      · simp [shadowSetupLight, slotLoopChecked_eq N 6 s hN]
      · simp [ShadowWrites.slotLoop_eq, slotCount]
      · simp [ShadowWrites.slotLoop_eq, slotCount]
    | MAX =>
      exact ⟨s, by simp [shadowSetupLight], by simp [shadowWritesLight], by simp [slotCount],
        by simp [slotCount]⟩

theorem slotTotal_cons (k : Nat) (l : Light) (rest : List Light) :
    slotTotal k (l :: rest) = slotCount k l + slotTotal k rest := by
  simp [slotTotal]

theorem slotCount_of_not_cast (k : Nat) (l : Light) (h : l.CastShadows = false) :
    slotCount k l = 0 := by
  simp [slotCount, h]

/-- The loop over the lights, when either no slot is used yet and no shadow-casting light
stands before a shadow-casting directional light, or no shadow-casting directional light is
left, and the slots fit `LightViewProjections`. -/
theorem shadowSetupLoop_spec (N k : Nat) (hk : k ≤ 4) (lights : List Light) :
    ∀ s : ShadowWrites,
      ((s.shadowIndex = 0 ∧ sunCastsFirst lights) ∨
        ∀ l ∈ lights, ¬ (l.CastShadows = true ∧ l.type = LightType.Directional)) →
      s.shadowIndex + slotTotal k lights ≤ N →
      ∃ updated s2, shadowSetupLoop N k lights s = some (updated, s2) ∧
        s2 = shadowWritesLoop k lights s ∧
        s2.shadowIndex = s.shadowIndex + slotTotal k lights ∧
        s2.LightViewProjections
          = s.LightViewProjections ++ List.range' s.shadowIndex (slotTotal k lights) ∧
        updated.length = lights.length ∧
        ∀ (i : Nat) (light : Light), lights[i]? = some light →
          updated[i]? = some
            (if light.CastShadows then
              { light with
                ShadowIndex := ((s.shadowIndex + slotTotal k (lights.take i) : Nat) : Int) }
             else light) := by
  induction lights with
  | nil =>
    intro s _ _
    exact ⟨[], s, rfl, rfl, by simp [slotTotal], by simp [slotTotal], rfl, by simp⟩
  | cons l rest ih =>
    intro s hinv hN
    rw [slotTotal_cons] at hN
    have hdir : l.CastShadows = true → l.type = LightType.Directional → s.shadowIndex = 0 := by
      intro hc ht
      rcases hinv with ⟨h0, _⟩ | hno
      · exact h0
      · exact absurd ⟨hc, ht⟩ (hno l (List.mem_cons_self _ _))
    obtain ⟨s1, hlight, htrace, hidx, hlvp⟩ :=
      shadowSetupLight_spec N k hk l s (by omega) hdir
    have hinv1 : (s1.shadowIndex = 0 ∧ sunCastsFirst rest) ∨
        ∀ x ∈ rest, ¬ (x.CastShadows = true ∧ x.type = LightType.Directional) := by
      rcases hinv with ⟨h0, hsun⟩ | hno
      · unfold sunCastsFirst at hsun
        rw [List.pairwise_cons] at hsun
        by_cases hc : l.CastShadows = true
        · exact Or.inr fun x hx hxd => hsun.1 x hx ⟨hc, hxd.1, hxd.2⟩
        · have hc2 : l.CastShadows = false := by simpa using hc
          refine Or.inl ⟨?_, hsun.2⟩
          rw [hidx, h0, slotCount_of_not_cast k l hc2]
      · exact Or.inr fun x hx => hno x (List.mem_cons_of_mem _ hx)
    obtain ⟨updated, s2, hrest, htrace2, hidx2, hlvp2, hlen, hlights⟩ :=
      ih s1 hinv1 (by rw [hidx]; omega)
    refine ⟨(if l.CastShadows then { l with ShadowIndex := (s.shadowIndex : Int) } else l)
      :: updated, s2, ?_, ?_, ?_, ?_, ?_, ?_⟩
    · simp only [shadowSetupLoop, hlight, hrest]
    · rw [htrace2, htrace]
      rfl
    · rw [hidx2, hidx, slotTotal_cons, Nat.add_assoc]
    · rw [hlvp2, hlvp, hidx, slotTotal_cons, List.append_assoc]
      have e : List.range' s.shadowIndex (slotCount k l + slotTotal k rest)
          = List.range' s.shadowIndex (slotCount k l)
            ++ List.range' (s.shadowIndex + slotCount k l) (slotTotal k rest) := by
        rw [List.range'_append_1, Nat.add_comm]
      rw [e]
    · simp [hlen]
    · intro i light hi
      cases i with
      | zero =>
        simp only [List.getElem?_cons_zero, Option.some.injEq] at hi
        subst hi
        simp [slotTotal]
      | succ i =>
        simp only [List.getElem?_cons_succ] at hi
        simp only [List.getElem?_cons_succ]
        rw [hlights i light hi, hidx]
        simp [slotTotal, Nat.add_assoc]

theorem cascadeLoopChecked_none (N k : Nat) (remaining : Nat) :
    ∀ s : ShadowWrites, 0 < remaining → 4 < s.shadowIndex + remaining →
      cascadeLoopChecked N k remaining s = none := by
  induction remaining with
  | zero => intro s h _; omega
  | succ r ih =>
    intro s _ h4
    by_cases hc : k - (r + 1) < MAX_CASCADES ∧ s.shadowIndex < 4 ∧ s.shadowIndex < N
    · have e : s.cascadeChecked N (k - (r + 1)) = some s.cascade := by
        unfold ShadowWrites.cascadeChecked
        rw [if_pos hc]
      simp only [cascadeLoopChecked, e]
      exact ih s.cascade (by omega) (by simp only [ShadowWrites.cascade]; omega)
    · have e : s.cascadeChecked N (k - (r + 1)) = none := by
        unfold ShadowWrites.cascadeChecked
        rw [if_neg hc]
      simp only [cascadeLoopChecked, e]

/-- For the lights (spot, directional), both casting shadows, and four cascades the set-up
has no defined result, whatever the size of `LightViewProjections`. -/
theorem shadowSetup_out_of_bounds (N : Nat) :
    shadowSetup N 4 [⟨LightType.Spot, true, 0⟩, ⟨LightType.Directional, true, 0⟩] = none := by
  by_cases h0 : 0 < N
  · have hspot : ShadowWrites.slotChecked N
        { shadowIndex := 0, CascadeDepths := [], LightViewProjections := [] }
        = some { shadowIndex := 1, CascadeDepths := [], LightViewProjections := [0] } := by
      simp [ShadowWrites.slotChecked, ShadowWrites.slot, h0]
    have hdirectional := cascadeLoopChecked_none N 4 4
      { shadowIndex := 1, CascadeDepths := [], LightViewProjections := [0] } (by decide)
      (by decide)
    simp [shadowSetup, MAX_CASCADES, shadowSetupLoop, shadowSetupLight, hspot, hdirectional]
  · have hspot : ShadowWrites.slotChecked N
        { shadowIndex := 0, CascadeDepths := [], LightViewProjections := [] } = none := by
      simp [ShadowWrites.slotChecked, h0]
    simp [shadowSetup, MAX_CASCADES, shadowSetupLoop, shadowSetupLight, hspot]

end DemoApp

namespace MeshletRasterizer

/-! ### The `Destination` array of the "HZB Mips" pass -/

theorem fillDestinationLoop_some (mips : Nat) (remaining : Nat) :
    ∀ Destination : List (Option Nat), remaining ≤ mips → mips ≤ Destination.length →
      ∃ filled, fillDestinationLoop mips remaining Destination = some filled ∧
        filled.length = Destination.length ∧
        (∀ i, i < mips - remaining → filled[i]? = Destination[i]?) ∧
        (∀ i, mips - remaining ≤ i → i < mips → filled[i]? = some (some i)) := by
  induction remaining with
  | zero =>
    intro Destination _ _
    exact ⟨Destination, rfl, rfl, fun _ _ => rfl, fun i h1 h2 => by omega⟩
  | succ r ih =>
    intro Destination hr hlen
    have hlt : mips - (r + 1) < Destination.length := by omega
    obtain ⟨filled, hf, hl, hlow, hhigh⟩ :=
      ih (Destination.set (mips - (r + 1)) (some (mips - (r + 1)))) (by omega)
        (by simpa using hlen)
    refine ⟨filled, ?_, by simpa using hl, ?_, ?_⟩
    · simp only [fillDestinationLoop, if_pos hlt]
      exact hf
    · intro i hi
      rw [hlow i (by omega), List.getElem?_set_ne (by omega)]
    · intro i h1 h2
      by_cases e : i = mips - (r + 1)
      · rw [hlow i (by omega), e, List.getElem?_set_eq_of_lt _ hlt]
      · exact hhigh i (by omega) h2

theorem fillDestinationLoop_none (mips : Nat) (remaining : Nat) :
    ∀ Destination : List (Option Nat), remaining ≤ mips → 0 < remaining →
      Destination.length < mips →
      fillDestinationLoop mips remaining Destination = none := by
  induction remaining with
  | zero => intro _ _ h; omega
  | succ r ih =>
    intro Destination hr _ hlen
    by_cases hlt : mips - (r + 1) < Destination.length
    · simp only [fillDestinationLoop, if_pos hlt]
      apply ih _ (by omega) _ (by simpa using hlen)
      omega
    · simp only [fillDestinationLoop, if_neg hlt]

theorem fillDestination_isSome_iff (mips : Nat) :
    (fillDestination mips).isSome = true ↔ mips ≤ 12 := by
  constructor
  · intro h
    by_contra hgt
    have hn := fillDestinationLoop_none mips mips (List.replicate DestinationSlots none)
      (le_refl _) (by omega) (by simp [DestinationSlots]; omega)
    rw [fillDestination, hn] at h
    simp at h
  · intro h
    obtain ⟨filled, hf, _⟩ := fillDestinationLoop_some mips mips
      (List.replicate DestinationSlots none) (le_refl _) (by simpa [DestinationSlots] using h)
    rw [fillDestination, hf]
    rfl

theorem hzbDimension_eq (v : Nat) : max (NextPowerOfTwo v >>> 1) 1 = 2 ^ (Nat.clog 2 v - 1) := by
  unfold NextPowerOfTwo
  cases h : Nat.clog 2 v with
  | zero => simp
  | succ n =>
    rw [Nat.shiftRight_eq_div_pow, pow_succ]
    simp
    exact Nat.one_le_two_pow

theorem InitHZB_Mips (W H : Nat) :
    (InitHZB (W, H)).Mips = max (Nat.clog 2 W - 1) (Nat.clog 2 H - 1) := by
  simp only [InitHZB, hzbDimension_eq]
  rcases le_total (Nat.clog 2 W - 1) (Nat.clog 2 H - 1) with h | h
  · rw [max_eq_right h, max_eq_right (Nat.pow_le_pow_right (by norm_num) h),
      Nat.log_pow (by norm_num)]
  · rw [max_eq_left h, max_eq_left (Nat.pow_le_pow_right (by norm_num) h),
      Nat.log_pow (by norm_num)]

theorem InitHZB_Mips_le_iff (W H : Nat) :
    (InitHZB (W, H)).Mips ≤ 12 ↔ max W H ≤ 8192 := by
  rw [InitHZB_Mips]
  have hW : W ≤ 2 ^ 13 ↔ Nat.clog 2 W ≤ 13 := Nat.le_pow_iff_clog_le (by norm_num)
  have hH : H ≤ 2 ^ 13 ↔ Nat.clog 2 H ≤ 13 := Nat.le_pow_iff_clog_le (by norm_num)
  have e : (2 : Nat) ^ 13 = 8192 := by norm_num
  rw [e] at hW hH
  rw [max_le_iff, max_le_iff, hW, hH]
  omega

/-- C26: the loop of the "HZB Mips" pass that fills the 12-slot `Destination` array writes
slot mipIndex, with the view of mip level mipIndex, for every mipIndex below the HZB mip
count, and stays inside the array exactly when the mip count is at most 12; for the HZB that
`InitHZB` creates from a view of size (W,H) this is the case if and only if
max(W,H) <= 8192. -/
theorem BuildHZB_destination_in_bounds (W H : Nat) :
    ((fillDestination (InitHZB (W, H)).Mips).isSome = true ↔ max W H ≤ 8192) ∧
    (∀ mips, (fillDestination mips).isSome = true ↔ mips ≤ 12) ∧
    (∀ mips Destination, fillDestination mips = some Destination →
      Destination.length = 12 ∧
      (∀ mipIndex, mipIndex < mips → Destination[mipIndex]? = some (some mipIndex))) := by
  refine ⟨?_, fillDestination_isSome_iff, ?_⟩
  · rw [fillDestination_isSome_iff, InitHZB_Mips_le_iff]
  · intro mips Destination h
    have hle : mips ≤ 12 := (fillDestination_isSome_iff mips).mp (by rw [h]; rfl)
    obtain ⟨filled, hf, hl, _, hhigh⟩ := fillDestinationLoop_some mips mips
      (List.replicate DestinationSlots none) (le_refl _) (by simpa [DestinationSlots] using hle)
    rw [fillDestination, hf] at h
    cases h
    exact ⟨by simpa [DestinationSlots] using hl, fun i hi => hhigh i (by omega) hi⟩

end MeshletRasterizer

namespace DemoApp

/-! ### The scene buffers of `UploadSceneData` -/

theorem getElem?_append_of_some {α : Type} (l l2 : List α) (i : Nat) (x : α)
    (h : l[i]? = some x) : (l ++ l2)[i]? = some x := by
  have hi : i < l.length := (List.getElem?_eq_some.mp h).1
  rw [List.getElem?_append_left hi, h]

theorem PointsAtOwn_mono (r r2 : SceneUpload) (inst : MeshInstance)
    (p : Mesh × SubMeshInstance) (a : List MeshData) (b : List MaterialData)
    (c : List Matrix4) (hm : r2.meshes = r.meshes ++ a) (hb : r2.materials = r.materials ++ b)
    (hc : r2.transforms = r.transforms ++ c) (h : PointsAtOwn r inst p) :
    PointsAtOwn r2 inst p := by
  obtain ⟨subMesh, material, h1, h2, h3, h4, h5⟩ := h
  refine ⟨subMesh, material, h1, h2, ?_, ?_, ?_⟩
  · rw [hm]; exact getElem?_append_of_some _ _ _ _ h3
  · rw [hb]; exact getElem?_append_of_some _ _ _ _ h4
  · rw [hc]; exact getElem?_append_of_some _ _ _ _ h5

theorem uploadInstances_spec (pMesh : Mesh) (hvalid : validIndices pMesh)
    (nodes : List SubMeshInstance) :
    ∀ s : SceneUpload, (∀ node ∈ nodes, node.MeshIndex < pMesh.m_Meshes.length) →
      s.meshes.length + pMesh.m_Meshes.length < 2 ^ 32 →
      s.materials.length + pMesh.m_Materials.length < 2 ^ 32 →
      s.transforms.length + nodes.length < 2 ^ 32 →
      ∃ s2 added, uploadInstances pMesh nodes s = some s2 ∧
        s2.meshes = s.meshes ∧ s2.materials = s.materials ∧
        s2.transforms = s.transforms ++ nodes.map (fun node => node.Transform) ∧
        s2.meshInstances = s.meshInstances ++ added ∧
        List.Forall₂ (Pending pMesh s.meshes.length s.materials.length s2.transforms)
          added nodes := by
  induction nodes with
  | nil =>
    intro s _ _ _ _
    exact ⟨s, [], rfl, rfl, rfl, by simp, by simp, List.Forall₂.nil⟩
  | cons node rest ih =>
    intro s hn hm hb ht
    have hidx : node.MeshIndex < pMesh.m_Meshes.length := hn node (List.mem_cons_self _ _)
    obtain ⟨subMesh, hsub⟩ : ∃ subMesh, pMesh.GetMesh node.MeshIndex = some subMesh :=
      ⟨pMesh.m_Meshes[node.MeshIndex], by simp [Mesh.GetMesh, hidx]⟩
    have hsubmem : subMesh ∈ pMesh.m_Meshes := by
      unfold Mesh.GetMesh at hsub
      exact List.mem_iff_getElem?.mpr ⟨_, hsub⟩
    have hmat : subMesh.MaterialId < pMesh.m_Materials.length := hvalid.2 subMesh hsubmem
    obtain ⟨material, hmaterial⟩ :
        ∃ material, pMesh.GetMaterial subMesh.MaterialId = some material :=
      ⟨pMesh.m_Materials[subMesh.MaterialId], by simp [Mesh.GetMaterial, hmat]⟩
    simp only [List.length_cons] at ht
    obtain ⟨s2, added, hrun, hm2, hb2, ht2, hi2, hall⟩ :=
      ih { s with
            meshInstances := s.meshInstances ++ [meshInstanceOf s node subMesh]
            transforms := s.transforms ++ [node.Transform] }
        (fun x hx => hn x (List.mem_cons_of_mem _ hx)) hm hb
        (by simp only [List.length_append, List.length_singleton]; omega)
    simp only at hm2 hb2 ht2 hi2 hall
    refine ⟨s2, meshInstanceOf s node subMesh :: added, ?_, hm2, hb2, ?_, ?_, ?_⟩
    · simp only [uploadInstances, hsub, hmaterial]
      exact hrun
    · rw [ht2]; simp
    · rw [hi2, List.append_assoc, List.singleton_append]
    · refine List.Forall₂.cons ?_ hall
      refine ⟨subMesh, material, hsub, hmaterial, ?_, ?_, ?_⟩
      · simp only [meshInstanceOf, castUInt32]
        rw [Nat.mod_eq_of_lt (a := s.meshes.length) (by omega), Nat.mod_eq_of_lt (by omega)]
      · simp only [meshInstanceOf, castUInt32]
        rw [Nat.mod_eq_of_lt (a := s.materials.length) (by omega), Nat.mod_eq_of_lt (by omega)]
      · simp only [meshInstanceOf, castUInt32]
        rw [Nat.mod_eq_of_lt (by omega), ht2, List.append_assoc,
          List.getElem?_append_right (le_refl _), Nat.sub_self, List.singleton_append,
          List.getElem?_cons_zero]

theorem uploadMesh_spec (pMesh : Mesh) (hvalid : validIndices pMesh) (s : SceneUpload)
    (hm : s.meshes.length + pMesh.m_Meshes.length < 2 ^ 32)
    (hb : s.materials.length + pMesh.m_Materials.length < 2 ^ 32)
    (ht : s.transforms.length + pMesh.m_MeshInstances.length < 2 ^ 32) :
    ∃ s2 added, uploadMesh pMesh s = some s2 ∧
      s2.meshes = s.meshes ++ pMesh.m_Meshes.map (meshDataOf pMesh) ∧
      s2.materials = s.materials ++ pMesh.m_Materials.map materialDataOf ∧
      s2.transforms = s.transforms ++ pMesh.m_MeshInstances.map (fun node => node.Transform) ∧
      s2.meshInstances = s.meshInstances ++ added ∧
      List.Forall₂ (PointsAtOwn s2) added
        (pMesh.m_MeshInstances.map fun node => (pMesh, node)) := by
  obtain ⟨s1, added, hrun, hm1, hb1, ht1, hi1, hall⟩ :=
    uploadInstances_spec pMesh hvalid pMesh.m_MeshInstances s hvalid.1 hm hb ht
  refine ⟨{ s1 with meshes := s1.meshes ++ pMesh.m_Meshes.map (meshDataOf pMesh)
                    materials := s1.materials ++ pMesh.m_Materials.map materialDataOf },
    added, by simp only [uploadMesh, hrun], by simp only [hm1], by simp only [hb1],
    ht1, hi1, ?_⟩
  rw [List.forall₂_map_right_iff]
  refine hall.imp ?_
  rintro inst node ⟨subMesh, material, h1, h2, h3, h4, h5⟩
  refine ⟨subMesh, material, h1, h2, ?_, ?_, h5⟩
  · simp only [hm1, h3]
    rw [List.getElem?_append_right (Nat.le_add_right _ _), Nat.add_sub_cancel_left,
      List.getElem?_map]
    unfold Mesh.GetMesh at h1
    rw [h1]; rfl
  · simp only [hb1, h4]
    rw [List.getElem?_append_right (Nat.le_add_right _ _), Nat.add_sub_cancel_left,
      List.getElem?_map]
    unfold Mesh.GetMaterial at h2
    rw [h2]; rfl

theorem uploadMeshes_spec (m_Meshes : List Mesh) :
    ∀ (s : SceneUpload) (visited : List (Mesh × SubMeshInstance)),
      (∀ pMesh ∈ m_Meshes, validIndices pMesh) →
      s.meshes.length + (m_Meshes.map fun pMesh => pMesh.m_Meshes.length).sum < 2 ^ 32 →
      s.materials.length + (m_Meshes.map fun pMesh => pMesh.m_Materials.length).sum < 2 ^ 32 →
      s.transforms.length + (m_Meshes.map fun pMesh => pMesh.m_MeshInstances.length).sum
        < 2 ^ 32 →
      List.Forall₂ (PointsAtOwn s) s.meshInstances visited →
      ∃ r, uploadMeshes m_Meshes s = some r ∧
        List.Forall₂ (PointsAtOwn r) r.meshInstances (visited ++ nodesOf m_Meshes) := by
  induction m_Meshes with
  | nil =>
    intro s visited _ _ _ _ h
    exact ⟨s, rfl, by simpa [nodesOf] using h⟩
  | cons pMesh rest ih =>
    intro s visited hvalid hm hb ht h
    simp only [List.map_cons, List.sum_cons] at hm hb ht
    obtain ⟨s2, added, hrun, hm2, hb2, ht2, hi2, hall⟩ :=
      uploadMesh_spec pMesh (hvalid pMesh (List.mem_cons_self _ _)) s (by omega) (by omega)
        (by omega)
    have hvis : List.Forall₂ (PointsAtOwn s2) s2.meshInstances
        (visited ++ pMesh.m_MeshInstances.map fun node => (pMesh, node)) := by
      rw [hi2]
      exact List.rel_append
        (h.imp fun inst p hp => PointsAtOwn_mono s s2 inst p _ _ _ hm2 hb2 ht2 hp) hall
    obtain ⟨r, hr, hfinal⟩ := ih s2 _ (fun x hx => hvalid x (List.mem_cons_of_mem _ hx))
      (by rw [hm2]; simp only [List.length_append, List.length_map]; omega)
      (by rw [hb2]; simp only [List.length_append, List.length_map]; omega)
      (by rw [ht2]; simp only [List.length_append, List.length_map]; omega) hvis
    refine ⟨r, by simp only [uploadMeshes, hrun]; exact hr, ?_⟩
    simpa [nodesOf, List.append_assoc] using hfinal

/-- C27: for every list of loaded meshes in which each node's MeshIndex and each sub-mesh's
MaterialId is valid within its own mesh (and with fewer than 2^32 sub-meshes, materials and
nodes in total), `UploadSceneData` produces one mesh instance per node, in the order of the
nodes, whose Mesh field is the position in `meshes` of the MeshData built from the node's
own sub-mesh, whose Material field is the position in `materials` of that sub-mesh's own
material, and whose World field is the position in `transforms` of the node's own
transform. -/
theorem UploadSceneData_instances (m_Meshes : List Mesh)
    (hvalid : ∀ pMesh ∈ m_Meshes, validIndices pMesh)
    (hmeshes : (m_Meshes.map fun pMesh => pMesh.m_Meshes.length).sum < 2 ^ 32)
    (hmaterials : (m_Meshes.map fun pMesh => pMesh.m_Materials.length).sum < 2 ^ 32)
    (hnodes : (m_Meshes.map fun pMesh => pMesh.m_MeshInstances.length).sum < 2 ^ 32) :
    ∃ r, UploadSceneData m_Meshes = some r ∧
      List.Forall₂ (PointsAtOwn r) r.meshInstances (nodesOf m_Meshes) := by
  have := uploadMeshes_spec m_Meshes
    { materials := [], meshes := [], meshInstances := [], transforms := [] } [] hvalid
    (by simpa using hmeshes) (by simpa using hmaterials) (by simpa using hnodes)
    List.Forall₂.nil
  simpa [UploadSceneData] using this

theorem UploadSceneData_instances_witness :
    ((∀ pMesh ∈ [(⟨[⟨0, 1⟩, ⟨1, 0⟩], [⟨0, 4, 0, 0, 0, 0, 0, 0, 0, 0, 0, 1⟩,
        ⟨0, 2, 96, 0, 0, 0, 0, 0, 0, 0, 0, 3⟩],
        [⟨none, some 5, none, none, ⟨1, 1, 1, 1⟩, 1, 1, ⟨0, 0, 0, 1⟩, 1 / 2⟩], 7⟩ : Mesh)],
        validIndices pMesh) ∧
      (([(⟨[⟨0, 1⟩, ⟨1, 0⟩], [⟨0, 4, 0, 0, 0, 0, 0, 0, 0, 0, 0, 1⟩,
        ⟨0, 2, 96, 0, 0, 0, 0, 0, 0, 0, 0, 3⟩],
        [⟨none, some 5, none, none, ⟨1, 1, 1, 1⟩, 1, 1, ⟨0, 0, 0, 1⟩, 1 / 2⟩], 7⟩ : Mesh)].map
          fun pMesh => pMesh.m_Meshes.length).sum < 2 ^ 32)) ∧
    ∃ r, UploadSceneData [(⟨[⟨0, 1⟩, ⟨1, 0⟩], [⟨0, 4, 0, 0, 0, 0, 0, 0, 0, 0, 0, 1⟩,
        ⟨0, 2, 96, 0, 0, 0, 0, 0, 0, 0, 0, 3⟩],
        [⟨none, some 5, none, none, ⟨1, 1, 1, 1⟩, 1, 1, ⟨0, 0, 0, 1⟩, 1 / 2⟩], 7⟩ : Mesh)]
        = some r ∧
      List.Forall₂ (PointsAtOwn r) r.meshInstances
        (nodesOf [(⟨[⟨0, 1⟩, ⟨1, 0⟩], [⟨0, 4, 0, 0, 0, 0, 0, 0, 0, 0, 0, 1⟩,
          ⟨0, 2, 96, 0, 0, 0, 0, 0, 0, 0, 0, 3⟩],
          [⟨none, some 5, none, none, ⟨1, 1, 1, 1⟩, 1, 1, ⟨0, 0, 0, 1⟩, 1 / 2⟩], 7⟩ : Mesh)]) :=
  ⟨⟨by simp [validIndices], by simp⟩,
   UploadSceneData_instances _ (by simp [validIndices]) (by simp) (by simp) (by simp)⟩

end DemoApp

namespace Graphics

/-! ### `OnlineDescriptorAllocator`: the heaps an allocator holds -/

theorem heapsDistinct_initial (mask : BitField) (table : List RootDescriptorEntry) :
    (OnlineDescriptorAllocator.initial mask table).heapsDistinct := by
  simp [OnlineDescriptorAllocator.heapsDistinct, OnlineDescriptorAllocator.heldHeaps,
    OnlineDescriptorAllocator.initial]

/-- The two ways `RequestNewHeap` ends. -/
theorem RequestNewHeap_cases (done : Nat → Bool) (a : OnlineDescriptorAllocator) :
    (∃ fence rest, a.m_FreeDescriptors = (fence, (a.RequestNewHeap done).1) :: rest ∧
        done fence = true ∧
        (a.RequestNewHeap done).2 = { a with m_FreeDescriptors := rest }) ∨
    ((a.m_FreeDescriptors = [] ∨
        ∃ fence pHeap rest, a.m_FreeDescriptors = (fence, pHeap) :: rest ∧ done fence = false) ∧
      (a.RequestNewHeap done).1 = a.m_DescriptorHeaps ∧
      (a.RequestNewHeap done).2 = { a with m_DescriptorHeaps := a.m_DescriptorHeaps + 1 }) := by
  unfold OnlineDescriptorAllocator.RequestNewHeap
  split
  · rename_i fence pHeap rest hq
    split
    · rename_i hd
      exact Or.inl ⟨fence, rest, hq, hd, rfl⟩
    · rename_i hd
      exact Or.inr ⟨Or.inr ⟨fence, pHeap, rest, hq, by simpa using hd⟩, rfl, rfl⟩
  · rename_i hq
    exact Or.inr ⟨Or.inl hq, rfl, rfl⟩

theorem GetHeap_heapsDistinct (done : Nat → Bool) (a : OnlineDescriptorAllocator)
    (h : a.heapsDistinct) : (a.GetHeap done).2.heapsDistinct := by
  unfold OnlineDescriptorAllocator.GetHeap
  cases hc : a.m_pCurrentHeap with
  | some pHeap => exact h
  | none =>
    simp only
    obtain ⟨hnodup, hlt⟩ := h
    simp only [OnlineDescriptorAllocator.heldHeaps, hc, Option.toList_none, List.nil_append]
      at hnodup hlt
    rcases RequestNewHeap_cases done a with ⟨fence, rest, hq, _, hr⟩ | ⟨_, h1, hr⟩
    · rw [hr]
      rw [hq] at hnodup hlt
      simp only [List.map_cons] at hnodup hlt
      constructor
      · simp only [OnlineDescriptorAllocator.heldHeaps, Option.toList_some, List.singleton_append]
        exact (List.perm_middle.nodup_iff).mp hnodup
      · intro p hp
        simp only [OnlineDescriptorAllocator.heldHeaps, Option.toList_some,
          List.singleton_append] at hp
        exact hlt p ((List.perm_middle.mem_iff).mpr hp)
    · rw [hr, h1]
      constructor
      · simp only [OnlineDescriptorAllocator.heldHeaps, Option.toList_some, List.singleton_append]
        rw [List.nodup_cons]
        exact ⟨fun hm => Nat.lt_irrefl _ (hlt _ hm), hnodup⟩
      · intro p hp
        simp only [OnlineDescriptorAllocator.heldHeaps, Option.toList_some,
          List.singleton_append, List.mem_cons] at hp
        rcases hp with rfl | hp
        · exact Nat.lt_succ_self _
        · exact Nat.lt_succ_of_lt (hlt p hp)

theorem ReleaseHeap_heapsDistinct (a a1 : OnlineDescriptorAllocator) (h : a.heapsDistinct)
    (hr : a.ReleaseHeap = some a1) : a1.heapsDistinct := by
  unfold OnlineDescriptorAllocator.ReleaseHeap at hr
  by_cases h0 : a.m_CurrentOffset = 0
  · rw [if_pos h0] at hr
    by_cases hn : a.m_pCurrentHeap = none
    · rw [if_pos hn] at hr
      cases hr
      exact h
    · rw [if_neg hn] at hr
      cases hr
  · rw [if_neg h0] at hr
    cases hc : a.m_pCurrentHeap with
    | none => rw [hc] at hr; cases hr
    | some pHeap =>
      rw [hc] at hr
      simp only [Option.some.injEq] at hr
      subst hr
      obtain ⟨hnodup, hlt⟩ := h
      simp only [OnlineDescriptorAllocator.heldHeaps, hc, Option.toList_some,
        List.singleton_append] at hnodup hlt
      have hperm : (a.m_UsedDescriptorHeaps ++ [pHeap] ++ a.m_FreeDescriptors.map Prod.snd).Perm
          (pHeap :: (a.m_UsedDescriptorHeaps ++ a.m_FreeDescriptors.map Prod.snd)) := by
        rw [List.append_assoc, List.singleton_append]
        exact List.perm_middle
      constructor
      · simp only [OnlineDescriptorAllocator.heldHeaps, Option.toList_none, List.nil_append,
          List.append_assoc] at hperm ⊢
        exact hperm.nodup_iff.mpr hnodup
      · intro p hp
        simp only [OnlineDescriptorAllocator.heldHeaps, Option.toList_none,
          List.nil_append, List.append_assoc] at hperm hp
        exact hlt p (hperm.mem_iff.mp hp)

theorem ReleaseUsedHeaps_heapsDistinct (a a1 : OnlineDescriptorAllocator) (fenceValue : Nat)
    (h : a.heapsDistinct) (hr : a.ReleaseUsedHeaps fenceValue = some a1) :
    a1.heapsDistinct := by
  unfold OnlineDescriptorAllocator.ReleaseUsedHeaps at hr
  cases hrel : a.ReleaseHeap with
  | none => rw [hrel] at hr; cases hr
  | some b =>
    rw [hrel] at hr
    simp only [Option.some.injEq] at hr
    subst hr
    obtain ⟨hnodup, hlt⟩ := ReleaseHeap_heapsDistinct a b h hrel
    have hperm : (b.m_pCurrentHeap.toList ++ ([] ++ (b.m_FreeDescriptors ++
        b.m_UsedDescriptorHeaps.map fun pHeap => (fenceValue, pHeap)).map Prod.snd)).Perm
        b.heldHeaps := by
      simp only [OnlineDescriptorAllocator.heldHeaps, List.nil_append, List.map_append,
        List.map_map]
      have e : (Prod.snd ∘ fun pHeap : Nat => (fenceValue, pHeap)) = id := rfl
      rw [e, List.map_id]
      exact List.Perm.append_left _ List.perm_append_comm
    exact ⟨hperm.nodup_iff.mpr hnodup, fun p hp => hlt p (hperm.mem_iff.mp hp)⟩

theorem heapsDistinct_congr (a b : OnlineDescriptorAllocator)
    (h1 : b.m_pCurrentHeap = a.m_pCurrentHeap)
    (h2 : b.m_UsedDescriptorHeaps = a.m_UsedDescriptorHeaps)
    (h3 : b.m_FreeDescriptors = a.m_FreeDescriptors)
    (h4 : b.m_DescriptorHeaps = a.m_DescriptorHeaps) (h : a.heapsDistinct) :
    b.heapsDistinct := by
  unfold OnlineDescriptorAllocator.heapsDistinct OnlineDescriptorAllocator.heldHeaps at *
  rw [h1, h2, h3, h4]
  exact h

theorem AllocateTransientDescriptor_heapsDistinct (N : Nat) (done : Nat → Bool)
    (a : OnlineDescriptorAllocator) (count : Nat) (r : DescriptorHandle × OnlineDescriptorAllocator)
    (h : a.heapsDistinct) (hr : a.AllocateTransientDescriptor N done count = some r) :
    r.2.heapsDistinct := by
  unfold OnlineDescriptorAllocator.AllocateTransientDescriptor at hr
  simp only at hr
  split at hr
  · simp only [Option.some.injEq] at hr
    subst hr
    exact heapsDistinct_congr _ _ rfl rfl rfl rfl (GetHeap_heapsDistinct done a h)
  · cases hr

theorem SetDescriptors_heapsDistinct (a a1 : OnlineDescriptorAllocator)
    (rootIndex offset : Nat) (pHandles : List Nat) (h : a.heapsDistinct)
    (hr : a.SetDescriptors rootIndex offset pHandles = some a1) : a1.heapsDistinct := by
  unfold OnlineDescriptorAllocator.SetDescriptors at hr
  split at hr
  · cases hr
  · split at hr
    · cases hr
    · simp only [Option.some.injEq] at hr
      subst hr
      exact heapsDistinct_congr _ _ rfl rfl rfl rfl h

theorem makeSpace_heapsDistinct (N : Nat) (a a1 : OnlineDescriptorAllocator)
    (requiredSpace : Nat) (h : a.heapsDistinct)
    (hr : a.makeSpace N = some (a1, requiredSpace)) : a1.heapsDistinct := by
  unfold OnlineDescriptorAllocator.makeSpace at hr
  simp only at hr
  split at hr
  · cases hrel : a.ReleaseHeap with
    | none => rw [hrel] at hr; cases hr
    | some b =>
      rw [hrel] at hr
      simp only [Option.some.injEq, Prod.mk.injEq] at hr
      rw [← hr.1]
      exact heapsDistinct_congr _ _ rfl rfl rfl rfl (ReleaseHeap_heapsDistinct a b h hrel)
  · simp only [Option.some.injEq, Prod.mk.injEq] at hr
    rw [← hr.1]
    exact h

theorem copyAndBind_allocator (MAX : Nat) (a : OnlineDescriptorAllocator)
    (gpuHandle : DescriptorHandle) (requiredSpace : Nat) (u : Upload)
    (hr : a.copyAndBind MAX gpuHandle requiredSpace = some u) :
    u.allocator = { a with m_StaleRootParameters := a.m_StaleRootParameters.ClearAll } := by
  unfold OnlineDescriptorAllocator.copyAndBind at hr
  split at hr
  · cases hr
  · simp only [Option.some.injEq] at hr
    subst hr
    rfl

theorem UploadAndBindStagedDescriptors_heapsDistinct (N M : Nat) (done : Nat → Bool)
    (a : OnlineDescriptorAllocator) (u : Upload) (h : a.heapsDistinct)
    (hr : a.UploadAndBindStagedDescriptors N M done = some u) : u.allocator.heapsDistinct := by
  unfold OnlineDescriptorAllocator.UploadAndBindStagedDescriptors at hr
  split at hr
  · simp only [Option.some.injEq] at hr
    subst hr
    exact h
  · split at hr
    · cases hr
    · rename_i a1 requiredSpace hsw
      simp only at hr
      rw [copyAndBind_allocator _ _ _ _ u hr]
      exact heapsDistinct_congr _ _ rfl rfl rfl rfl
        (GetHeap_heapsDistinct done a1 (makeSpace_heapsDistinct N a a1 requiredSpace h hsw))

theorem call_heapsDistinct (N M : Nat) (a a1 : OnlineDescriptorAllocator)
    (c : (Nat → Bool) × Call) (h : a.heapsDistinct) (hr : a.call N M c = some a1) :
    a1.heapsDistinct := by
  obtain ⟨done, c⟩ := c
  cases c with
  | AllocateTransientDescriptor count =>
    simp only [OnlineDescriptorAllocator.call, Option.map_eq_some'] at hr
    obtain ⟨r, hr, rfl⟩ := hr
    exact AllocateTransientDescriptor_heapsDistinct N done a count r h hr
  | SetDescriptors rootIndex offset pHandles =>
    exact SetDescriptors_heapsDistinct a a1 rootIndex offset pHandles h hr
  | UploadAndBindStagedDescriptors =>
    simp only [OnlineDescriptorAllocator.call, Option.map_eq_some'] at hr
    obtain ⟨u, hr, rfl⟩ := hr
    exact UploadAndBindStagedDescriptors_heapsDistinct N M done a u h hr
  | ReleaseUsedHeaps fenceValue =>
    exact ReleaseUsedHeaps_heapsDistinct a a1 fenceValue h hr

theorem run_heapsDistinct (N M : Nat) (calls : List ((Nat → Bool) × Call)) :
    ∀ a a1 : OnlineDescriptorAllocator, a.heapsDistinct →
      OnlineDescriptorAllocator.run N M calls a = some a1 → a1.heapsDistinct := by
  induction calls with
  | nil =>
    intro a a1 h hr
    simp only [OnlineDescriptorAllocator.run, Option.some.injEq] at hr
    subst hr
    exact h
  | cons c rest ih =>
    intro a a1 h hr
    simp only [OnlineDescriptorAllocator.run] at hr
    cases hc : a.call N M c with
    | none => rw [hc] at hr; cases hr
    | some b =>
      rw [hc] at hr
      exact ih b a1 (call_heapsDistinct N M a b c h hc) hr

/-- C30: `RequestNewHeap` either returns the heap of the oldest entry of the free queue,
whose fence is complete, and removes that entry, or it finds the queue empty or the oldest
fence not complete, creates a new heap and leaves the free queue unchanged;
`ReleaseUsedHeaps` stores its fence value with every heap it appends to the queue; and in
every state an allocator reaches, the heap `RequestNewHeap` returns is not a heap waiting in
the free queue with a fence that is not complete. -/
theorem RequestNewHeap_reuses_completed :
    (∀ (done : Nat → Bool) (a : OnlineDescriptorAllocator),
      (∃ fence rest, a.m_FreeDescriptors = (fence, (a.RequestNewHeap done).1) :: rest ∧
          done fence = true ∧
          (a.RequestNewHeap done).2 = { a with m_FreeDescriptors := rest }) ∨
      ((a.m_FreeDescriptors = [] ∨
          ∃ fence pHeap rest, a.m_FreeDescriptors = (fence, pHeap) :: rest ∧
            done fence = false) ∧
        (a.RequestNewHeap done).1 = a.m_DescriptorHeaps ∧
        (a.RequestNewHeap done).2 = { a with m_DescriptorHeaps := a.m_DescriptorHeaps + 1 })) ∧
    (∀ (a a1 : OnlineDescriptorAllocator) (fenceValue : Nat),
      a.ReleaseUsedHeaps fenceValue = some a1 →
      ∃ released, a1.m_FreeDescriptors
          = a.m_FreeDescriptors ++ released.map (fun pHeap => (fenceValue, pHeap)) ∧
        a1.m_UsedDescriptorHeaps = [] ∧ a1.m_pCurrentHeap = none ∧
        released = a.m_UsedDescriptorHeaps ++ a.m_pCurrentHeap.toList) ∧
    (∀ (N M : Nat) (mask : BitField) (table : List RootDescriptorEntry)
      (calls : List ((Nat → Bool) × Call)) (a : OnlineDescriptorAllocator),
      OnlineDescriptorAllocator.run N M calls (OnlineDescriptorAllocator.initial mask table)
        = some a →
      ∀ (done : Nat → Bool) (fence pHeap : Nat), (fence, pHeap) ∈ a.m_FreeDescriptors →
        (a.RequestNewHeap done).1 = pHeap → done fence = true) := by
  refine ⟨RequestNewHeap_cases, ?_, ?_⟩
  · intro a a1 fenceValue hr
    unfold OnlineDescriptorAllocator.ReleaseUsedHeaps at hr
    cases hrel : a.ReleaseHeap with
    | none => rw [hrel] at hr; cases hr
    | some b =>
      rw [hrel] at hr
      simp only [Option.some.injEq] at hr
      subst hr
      unfold OnlineDescriptorAllocator.ReleaseHeap at hrel
      by_cases h0 : a.m_CurrentOffset = 0
      · rw [if_pos h0] at hrel
        by_cases hn : a.m_pCurrentHeap = none
        · rw [if_pos hn] at hrel
          cases hrel
          exact ⟨_, rfl, rfl, hn, by simp [hn]⟩
        · rw [if_neg hn] at hrel
          cases hrel
      · rw [if_neg h0] at hrel
        cases hc : a.m_pCurrentHeap with
        | none => rw [hc] at hrel; cases hrel
        | some pHeap =>
          rw [hc] at hrel
          simp only [Option.some.injEq] at hrel
          subst hrel
          exact ⟨_, rfl, rfl, rfl, by simp⟩
  · intro N M mask table calls a hrun done fence pHeap hmem hret
    obtain ⟨hnodup, hlt⟩ := run_heapsDistinct N M calls _ a (heapsDistinct_initial mask table) hrun
    have hsub : ∀ p ∈ a.m_FreeDescriptors.map Prod.snd, p ∈ a.heldHeaps := by
      intro p hp
      simp only [OnlineDescriptorAllocator.heldHeaps, List.mem_append]
      exact Or.inr (Or.inr hp)
    have hfree : (a.m_FreeDescriptors.map Prod.snd).Nodup := by
      unfold OnlineDescriptorAllocator.heldHeaps at hnodup
      exact (List.nodup_append.mp (List.nodup_append.mp hnodup).2.1).2.1
    rcases RequestNewHeap_cases done a with ⟨f0, rest, hq, hd, _⟩ | ⟨_, h1, _⟩
    · rw [hret] at hq
      rw [hq] at hmem hfree
      simp only [List.map_cons, List.nodup_cons, List.mem_map, not_exists, not_and] at hfree
      rcases List.mem_cons.mp hmem with he | hin
      · simp only [Prod.mk.injEq] at he
        rw [he.1]
        exact hd
      · exact absurd rfl (hfree.1 (fence, pHeap) hin)
    · rw [hret] at h1
      have := hlt pHeap (hsub pHeap (List.mem_map.mpr ⟨(fence, pHeap), hmem, rfl⟩))
      omega


/-! ### `OnlineDescriptorAllocator`: space in the current heap -/

theorem GetHeap_current (done : Nat → Bool) (a : OnlineDescriptorAllocator) :
    (a.GetHeap done).2.m_pCurrentHeap = some (a.GetHeap done).1 ∧
    (a.GetHeap done).2.m_CurrentOffset = a.m_CurrentOffset ∧
    (a.GetHeap done).2.m_RootDescriptorTable = a.m_RootDescriptorTable ∧
    (a.GetHeap done).2.m_StaleRootParameters = a.m_StaleRootParameters ∧
    (a.GetHeap done).2.m_RootDescriptorMask = a.m_RootDescriptorMask := by
  unfold OnlineDescriptorAllocator.GetHeap
  cases hc : a.m_pCurrentHeap with
  | some pHeap => exact ⟨hc, rfl, rfl, rfl, rfl⟩
  | none =>
    simp only
    rcases RequestNewHeap_cases done a with ⟨_, _, _, _, hr⟩ | ⟨_, _, hr⟩ <;>
    · rw [hr]
      simp

theorem GetHeap_of_current (done : Nat → Bool) (a : OnlineDescriptorAllocator) (pHeap : Nat)
    (h : a.m_pCurrentHeap = some pHeap) : a.GetHeap done = (pHeap, a) := by
  unfold OnlineDescriptorAllocator.GetHeap
  rw [h]

theorem GetHeap_of_none (done : Nat → Bool) (a : OnlineDescriptorAllocator)
    (h : a.m_pCurrentHeap = none) :
    (a.GetHeap done).2.m_StartHandle = some (a.GetHeap done).1 := by
  unfold OnlineDescriptorAllocator.GetHeap
  rw [h]

theorem GetRequiredSpace_ge (a : OnlineDescriptorAllocator) : 10 ≤ a.GetRequiredSpace := by
  unfold OnlineDescriptorAllocator.GetRequiredSpace
  omega

theorem ReleaseHeap_of_heapInUse (a : OnlineDescriptorAllocator) (h : a.heapInUse) :
    ∃ b, a.ReleaseHeap = some b ∧ b.m_pCurrentHeap = none ∧ b.m_CurrentOffset = 0 ∧
      b.m_RootDescriptorTable = a.m_RootDescriptorTable ∧
      b.m_StaleRootParameters = a.m_StaleRootParameters ∧
      b.m_RootDescriptorMask = a.m_RootDescriptorMask := by
  unfold OnlineDescriptorAllocator.heapInUse at h
  unfold OnlineDescriptorAllocator.ReleaseHeap
  by_cases h0 : a.m_CurrentOffset = 0
  · rw [if_pos h0, if_pos (h.mp h0)]
    exact ⟨a, rfl, h.mp h0, h0, rfl, rfl, rfl⟩
  · rw [if_neg h0]
    cases hc : a.m_pCurrentHeap with
    | none => exact absurd (h.mpr hc) h0
    | some pHeap => exact ⟨_, rfl, rfl, rfl, rfl, rfl, rfl⟩

theorem ReleaseHeap_heapInUse (a b : OnlineDescriptorAllocator) (hr : a.ReleaseHeap = some b) :
    b.m_pCurrentHeap = none ∧ b.m_CurrentOffset = 0 := by
  unfold OnlineDescriptorAllocator.ReleaseHeap at hr
  by_cases h0 : a.m_CurrentOffset = 0
  · rw [if_pos h0] at hr
    by_cases hn : a.m_pCurrentHeap = none
    · rw [if_pos hn] at hr
      cases hr
      exact ⟨hn, h0⟩
    · rw [if_neg hn] at hr
      cases hr
  · rw [if_neg h0] at hr
    cases hc : a.m_pCurrentHeap with
    | none => rw [hc] at hr; cases hr
    | some pHeap =>
      rw [hc] at hr
      simp only [Option.some.injEq] at hr
      subst hr
      exact ⟨rfl, rfl⟩

theorem makeSpace_requiredSpace (N : Nat) (a a1 : OnlineDescriptorAllocator)
    (requiredSpace : Nat) (hr : a.makeSpace N = some (a1, requiredSpace)) :
    10 ≤ requiredSpace := by
  unfold OnlineDescriptorAllocator.makeSpace at hr
  simp only at hr
  split at hr
  · cases hrel : a.ReleaseHeap with
    | none => rw [hrel] at hr; cases hr
    | some b =>
      rw [hrel] at hr
      simp only [Option.some.injEq, Prod.mk.injEq] at hr
      rw [← hr.2]
      exact GetRequiredSpace_ge _
  · simp only [Option.some.injEq, Prod.mk.injEq] at hr
    rw [← hr.2]
    exact GetRequiredSpace_ge _

theorem call_heapInUse (N M : Nat) (a a1 : OnlineDescriptorAllocator)
    (c : (Nat → Bool) × Call)
    (hc : ∀ count, c.2 = Call.AllocateTransientDescriptor count → 1 ≤ count)
    (h : a.heapInUse) (hr : a.call N M c = some a1) : a1.heapInUse := by
  obtain ⟨done, c⟩ := c
  cases c with
  | AllocateTransientDescriptor count =>
    have hpos := hc count rfl
    simp only [OnlineDescriptorAllocator.call, Option.map_eq_some'] at hr
    obtain ⟨r, hr, rfl⟩ := hr
    unfold OnlineDescriptorAllocator.AllocateTransientDescriptor at hr
    simp only at hr
    split at hr
    · simp only [Option.some.injEq] at hr
      subst hr
      have hg := (GetHeap_current done a).1
      simp only [OnlineDescriptorAllocator.heapInUse, OnlineDescriptorAllocator.Allocate, hg]
      constructor
      · intro h0; omega
      · intro hn; cases hn
    · cases hr
  | SetDescriptors rootIndex offset pHandles =>
    simp only [OnlineDescriptorAllocator.call] at hr
    unfold OnlineDescriptorAllocator.SetDescriptors at hr
    split at hr
    · cases hr
    · split at hr
      · cases hr
      · simp only [Option.some.injEq] at hr
        subst hr
        exact h
  | UploadAndBindStagedDescriptors =>
    simp only [OnlineDescriptorAllocator.call, Option.map_eq_some'] at hr
    obtain ⟨u, hr, rfl⟩ := hr
    unfold OnlineDescriptorAllocator.UploadAndBindStagedDescriptors at hr
    split at hr
    · simp only [Option.some.injEq] at hr
      subst hr
      exact h
    · split at hr
      · cases hr
      · rename_i a1 requiredSpace hsw
        simp only at hr
        rw [copyAndBind_allocator _ _ _ _ u hr]
        have hreq := makeSpace_requiredSpace N a a1 requiredSpace hsw
        have hg := (GetHeap_current done a1).1
        simp only [OnlineDescriptorAllocator.heapInUse, OnlineDescriptorAllocator.Allocate, hg]
        constructor
        · intro h0; omega
        · intro hn; cases hn
  | ReleaseUsedHeaps fenceValue =>
    simp only [OnlineDescriptorAllocator.call] at hr
    unfold OnlineDescriptorAllocator.ReleaseUsedHeaps at hr
    cases hrel : a.ReleaseHeap with
    | none => rw [hrel] at hr; cases hr
    | some b =>
      rw [hrel] at hr
      simp only [Option.some.injEq] at hr
      subst hr
      obtain ⟨h1, h2⟩ := ReleaseHeap_heapInUse a b hrel
      simp only [OnlineDescriptorAllocator.heapInUse, h1, h2]

/-- In every state an allocator reaches by calls that ask for at least one transient
descriptor each, it has a current heap exactly when its offset is not zero. -/
theorem run_heapInUse (N M : Nat) (calls : List ((Nat → Bool) × Call)) :
    ∀ a a1 : OnlineDescriptorAllocator, countsPositive calls → a.heapInUse →
      OnlineDescriptorAllocator.run N M calls a = some a1 → a1.heapInUse := by
  induction calls with
  | nil =>
    intro a a1 _ h hr
    simp only [OnlineDescriptorAllocator.run, Option.some.injEq] at hr
    subst hr
    exact h
  | cons c rest ih =>
    intro a a1 hpos h hr
    simp only [OnlineDescriptorAllocator.run] at hr
    cases hc : a.call N M c with
    | none => rw [hc] at hr; cases hr
    | some b =>
      rw [hc] at hr
      exact ih b a1 (fun x hx => hpos x (List.mem_cons_of_mem _ hx))
        (call_heapInUse N M a b c (hpos c (List.mem_cons_self _ _)) h hc) hr

/-- C28, evaluated: on a new allocator with heaps of n+1 descriptors,
`AllocateTransientDescriptor(n+1)` hands out the whole of heap 0 and leaves the offset at
n+1; a following `AllocateTransientDescriptor(1)` finds `HasSpace(1)` false, so its
assertion fails, although 1 <= n+1; without the assertion `Allocate(1)` hands out the
descriptor at index n+1, outside the heap, and raises the offset to n+2. -/
theorem AllocateTransientDescriptor_full_heap (n : Nat) (mask : BitField)
    (table : List RootDescriptorEntry) (done : Nat → Bool) :
    ∃ a, (OnlineDescriptorAllocator.initial mask table).AllocateTransientDescriptor (n + 1) done
          (n + 1) = some (⟨some 0, 0⟩, a) ∧
      a.m_pCurrentHeap = some 0 ∧ a.m_CurrentOffset = n + 1 ∧
      a.HasSpace (n + 1) 1 = false ∧
      a.AllocateTransientDescriptor (n + 1) done 1 = none ∧
      (a.Allocate 1).1 = ⟨some 0, n + 1⟩ ∧
      (a.Allocate 1).2.m_CurrentOffset = n + 2 := by
  refine ⟨{ m_pCurrentHeap := some 0, m_StartHandle := some 0, m_CurrentOffset := n + 1,
            m_UsedDescriptorHeaps := [], m_RootDescriptorMask := mask,
            m_StaleRootParameters := mask.ClearAll, m_RootDescriptorTable := table,
            m_DescriptorHeaps := 1, m_FreeDescriptors := [] }, ?_, ?_⟩
  · simp [OnlineDescriptorAllocator.AllocateTransientDescriptor,
      OnlineDescriptorAllocator.GetHeap, OnlineDescriptorAllocator.RequestNewHeap,
      OnlineDescriptorAllocator.initial, OnlineDescriptorAllocator.HasSpace,
      OnlineDescriptorAllocator.Allocate]
  · simp [OnlineDescriptorAllocator.AllocateTransientDescriptor,
      OnlineDescriptorAllocator.GetHeap, OnlineDescriptorAllocator.HasSpace,
      OnlineDescriptorAllocator.Allocate]


/-! ### `OnlineDescriptorAllocator`: the upload of the staged descriptors -/

theorem entry_congr (a b : OnlineDescriptorAllocator)
    (h : b.m_RootDescriptorTable = a.m_RootDescriptorTable) (i : Nat) : b.entry i = a.entry i := by
  unfold OnlineDescriptorAllocator.entry
  rw [h]

theorem rangeSize_congr (a b : OnlineDescriptorAllocator)
    (h : b.m_RootDescriptorTable = a.m_RootDescriptorTable) (i : Nat) :
    b.rangeSize i = a.rangeSize i := by
  unfold OnlineDescriptorAllocator.rangeSize
  rw [entry_congr a b h]

theorem rangeSize_pos (a : OnlineDescriptorAllocator) (i : Nat) : 1 ≤ a.rangeSize i := by
  unfold OnlineDescriptorAllocator.rangeSize
  omega

theorem uploadLoop_congr (MAX : Nat) (a b : OnlineDescriptorAllocator)
    (h : b.m_RootDescriptorTable = a.m_RootDescriptorTable) (roots : List Nat) :
    ∀ l, uploadLoop MAX b roots l = uploadLoop MAX a roots l := by
  induction roots with
  | nil => intro l; rfl
  | cons i rest ih =>
    intro l
    simp only [uploadLoop, rangeSize_congr a b h, entry_congr a b h, ih]

theorem requiredSpaceLoop_eq (a : OnlineDescriptorAllocator) (roots : List Nat) :
    ∀ acc, requiredSpaceLoop a roots acc = acc + (roots.map a.rangeSize).sum := by
  induction roots with
  | nil => intro acc; simp [requiredSpaceLoop]
  | cons i rest ih =>
    intro acc
    rw [requiredSpaceLoop, ih]
    simp [Nat.add_assoc]

theorem GetRequiredSpace_eq (a : OnlineDescriptorAllocator) :
    a.GetRequiredSpace = (a.m_StaleRootParameters.setBits.map a.rangeSize).sum + 10 := by
  unfold OnlineDescriptorAllocator.GetRequiredSpace
  rw [requiredSpaceLoop_eq, Nat.zero_add]

theorem ClearAll_AnyBitSet (b : BitField) : b.ClearAll.AnyBitSet = false := by
  unfold BitField.ClearAll BitField.AnyBitSet
  simp

theorem rangesFrom_sizes (heap : Option Nat) (sizes : List Nat) :
    ∀ start, (rangesFrom heap start sizes).map Prod.snd = sizes := by
  induction sizes with
  | nil => intro start; rfl
  | cons s rest ih => intro start; simp [rangesFrom, ih]

theorem rangesFrom_append (heap : Option Nat) (xs ys : List Nat) :
    ∀ start, rangesFrom heap start (xs ++ ys)
      = rangesFrom heap start xs ++ rangesFrom heap (start + xs.sum) ys := by
  induction xs with
  | nil => intro start; simp [rangesFrom]
  | cons s rest ih =>
    intro start
    simp [rangesFrom, ih, Nat.add_assoc]

theorem rangesFrom_bounds (heap : Option Nat) (sizes : List Nat) :
    ∀ start, ∀ r ∈ rangesFrom heap start sizes,
      r.1.heap = heap ∧ start ≤ r.1.index ∧ r.1.index + r.2 ≤ start + sizes.sum := by
  induction sizes with
  | nil => intro start r hr; simp [rangesFrom] at hr
  | cons s rest ih =>
    intro start r hr
    simp only [rangesFrom, List.mem_cons] at hr
    rcases hr with rfl | hr
    · simp
    · obtain ⟨h1, h2, h3⟩ := ih (start + s) r hr
      simp only [List.sum_cons]
      exact ⟨h1, by omega, by omega⟩

theorem rangesFrom_pairwise (heap : Option Nat) (sizes : List Nat) :
    ∀ start, (rangesFrom heap start sizes).Pairwise rangesDisjoint := by
  induction sizes with
  | nil => intro start; simp [rangesFrom]
  | cons s rest ih =>
    intro start
    simp only [rangesFrom, List.pairwise_cons]
    refine ⟨fun r hr => ?_, ih (start + s)⟩
    have := (rangesFrom_bounds heap rest (start + s) r hr).2.1
    exact Or.inl this

/-- The first loop of `UploadAndBindStagedDescriptors`, when the source array holds every
range: the destination ranges of the copies made and pending grow by one range per root
parameter, each behind the one before. -/
theorem uploadLoop_spec (MAX : Nat) (a : OnlineDescriptorAllocator) (roots : List Nat) :
    ∀ l : UploadLocals, copyFits MAX a roots l.sourceRanges.length = true →
      ∃ l2, uploadLoop MAX a roots l = some l2 ∧
        (l2.copies.flatMap fun c => c.destinationRanges) ++ l2.destinationRanges
          = ((l.copies.flatMap fun c => c.destinationRanges) ++ l.destinationRanges) ++
              rangesFrom l.gpuHandle.heap l.gpuHandle.index (roots.map a.rangeSize) ∧
        l2.newDescriptorTables = l.newDescriptorTables ++
          (rangesFrom l.gpuHandle.heap l.gpuHandle.index (roots.map a.rangeSize)).map Prod.fst := by
  induction roots with
  | nil =>
    intro l _
    exact ⟨l, rfl, by simp [rangesFrom], by simp [rangesFrom]⟩
  | cons i rest ih =>
    intro l hfit
    simp only [copyFits, Bool.and_eq_true, decide_eq_true_eq] at hfit
    obtain ⟨hle, hrest⟩ := hfit
    by_cases hflush : l.sourceRanges.length ≥ MAX
    · simp only [if_pos hflush] at hle hrest
      obtain ⟨l2, hrun, hd, ht⟩ := ih
        { sourceRanges := [] ++ (List.range (a.rangeSize i)).map
            fun j => (a.entry i).TableStart.getD j 0
          destinationRanges := [] ++ [(l.gpuHandle, a.rangeSize i)]
          copies := l.copies ++ [⟨l.destinationRanges, l.sourceRanges⟩]
          newDescriptorTables := l.newDescriptorTables ++ [l.gpuHandle]
          gpuHandle := ⟨l.gpuHandle.heap, l.gpuHandle.index + a.rangeSize i⟩ }
        (by simpa using hrest)
      refine ⟨l2, ?_, ?_, ?_⟩
      · simp only [uploadLoop, if_pos hflush, List.length_nil, Nat.zero_add]
        rw [if_pos (by simpa using hle)]
        exact hrun
      · rw [hd]
        simp [rangesFrom, List.flatMap_append]
      · rw [ht]
        simp [rangesFrom]
    · simp only [if_neg hflush] at hle hrest
      obtain ⟨l2, hrun, hd, ht⟩ := ih
        { sourceRanges := l.sourceRanges ++ (List.range (a.rangeSize i)).map
            fun j => (a.entry i).TableStart.getD j 0
          destinationRanges := l.destinationRanges ++ [(l.gpuHandle, a.rangeSize i)]
          copies := l.copies
          newDescriptorTables := l.newDescriptorTables ++ [l.gpuHandle]
          gpuHandle := ⟨l.gpuHandle.heap, l.gpuHandle.index + a.rangeSize i⟩ }
        (by simpa using hrest)
      refine ⟨l2, ?_, ?_, ?_⟩
      · simp only [uploadLoop, if_neg hflush]
        rw [if_pos hle]
        exact hrun
      · rw [hd]
        simp [rangesFrom]
      · rw [ht]
        simp [rangesFrom]

/-- The loop overruns the source array and the run ends when a range does not fit behind
the entries the array holds. -/
theorem uploadLoop_overrun (MAX : Nat) (a : OnlineDescriptorAllocator) (i : Nat)
    (rest : List Nat) (l : UploadLocals) (hl : l.sourceRanges = [])
    (h : MAX < a.rangeSize i) : uploadLoop MAX a (i :: rest) l = none := by
  by_cases hflush : l.sourceRanges.length ≥ MAX
  · simp only [uploadLoop, if_pos hflush, List.length_nil, Nat.zero_add]
    rw [if_neg (by omega)]
  · simp only [uploadLoop, if_neg hflush, hl, List.length_nil, Nat.zero_add]
    rw [if_neg (by omega)]


theorem copyFits_congr (MAX : Nat) (a b : OnlineDescriptorAllocator)
    (h : b.m_RootDescriptorTable = a.m_RootDescriptorTable) (roots : List Nat) :
    ∀ count, copyFits MAX b roots count = copyFits MAX a roots count := by
  induction roots with
  | nil => intro count; rfl
  | cons i rest ih =>
    intro count
    simp only [copyFits, rangeSize_congr a b h, ih]

theorem map_rangeSize_congr (a b : OnlineDescriptorAllocator)
    (h : b.m_RootDescriptorTable = a.m_RootDescriptorTable) (roots : List Nat) :
    roots.map b.rangeSize = roots.map a.rangeSize :=
  List.map_congr_left fun i _ => rangeSize_congr a b h i

theorem unbindAllLoop_congr (a b : OnlineDescriptorAllocator)
    (h : b.m_RootDescriptorTable = a.m_RootDescriptorTable) (roots : List Nat) :
    ∀ stale, unbindAllLoop b roots stale = unbindAllLoop a roots stale := by
  induction roots with
  | nil => intro stale; rfl
  | cons i rest ih =>
    intro stale
    simp only [unbindAllLoop, entry_congr a b h, ih]

theorem UnbindAll_stale_congr (a b : OnlineDescriptorAllocator)
    (h : b.m_RootDescriptorTable = a.m_RootDescriptorTable)
    (hm : b.m_RootDescriptorMask = a.m_RootDescriptorMask)
    (hs : b.m_StaleRootParameters = a.m_StaleRootParameters) :
    b.UnbindAll.m_StaleRootParameters = a.UnbindAll.m_StaleRootParameters := by
  simp only [OnlineDescriptorAllocator.UnbindAll, unbindAllLoop_congr a b h, hm, hs]

/-- The copy and bind part, when the source array holds every range: one destination range
per stale root parameter, laid one behind the other from `gpuHandle` on, and bound to the
root parameters in the same order. -/
theorem copyAndBind_spec (MAX : Nat) (a : OnlineDescriptorAllocator)
    (gpuHandle : DescriptorHandle) (requiredSpace : Nat)
    (hfit : copyFits MAX a a.m_StaleRootParameters.setBits 0 = true) :
    ∃ u, a.copyAndBind MAX gpuHandle requiredSpace = some u ∧
      u.allocator = { a with m_StaleRootParameters := a.m_StaleRootParameters.ClearAll } ∧
      u.block = some (gpuHandle, requiredSpace) ∧
      u.destinationRanges = rangesFrom gpuHandle.heap gpuHandle.index
        (a.m_StaleRootParameters.setBits.map a.rangeSize) ∧
      u.rootDescriptorTables = a.m_StaleRootParameters.setBits.zip
        (u.destinationRanges.map Prod.fst) := by
  obtain ⟨l2, hrun, hd, ht⟩ := uploadLoop_spec MAX a a.m_StaleRootParameters.setBits
    { sourceRanges := [], destinationRanges := [], copies := [],
      newDescriptorTables := [], gpuHandle := gpuHandle } hfit
  simp only [List.flatMap_nil, List.nil_append] at hd ht
  have hdest : (l2.copies ++ [(⟨l2.destinationRanges, l2.sourceRanges⟩ : CopyDescriptors)]).flatMap
      (fun c => c.destinationRanges)
      = rangesFrom gpuHandle.heap gpuHandle.index
          (a.m_StaleRootParameters.setBits.map a.rangeSize) := by
    rw [← hd]
    simp [List.flatMap_append]
  refine ⟨{ allocator := { a with m_StaleRootParameters := a.m_StaleRootParameters.ClearAll }
            block := some (gpuHandle, requiredSpace)
            copies := l2.copies ++ [⟨l2.destinationRanges, l2.sourceRanges⟩]
            rootDescriptorTables := a.m_StaleRootParameters.setBits.zip l2.newDescriptorTables },
    by simp only [OnlineDescriptorAllocator.copyAndBind, hrun], rfl, rfl, ?_, ?_⟩
  · exact hdest
  · simp only [Upload.destinationRanges]
    rw [hdest, ht]

theorem makeSpace_of_space (N : Nat) (a : OnlineDescriptorAllocator)
    (hs : a.HasSpace N a.GetRequiredSpace = true) :
    a.makeSpace N = some (a, a.GetRequiredSpace) := by
  simp [OnlineDescriptorAllocator.makeSpace, hs]

theorem makeSpace_of_no_space (N : Nat) (a : OnlineDescriptorAllocator) (hheap : a.heapInUse)
    (hs : a.HasSpace N a.GetRequiredSpace = false) :
    ∃ b : OnlineDescriptorAllocator,
      a.makeSpace N = some (b.UnbindAll, b.UnbindAll.GetRequiredSpace) ∧
      b.m_pCurrentHeap = none ∧ b.m_CurrentOffset = 0 ∧
      b.m_RootDescriptorTable = a.m_RootDescriptorTable ∧
      b.m_StaleRootParameters = a.m_StaleRootParameters ∧
      b.m_RootDescriptorMask = a.m_RootDescriptorMask := by
  obtain ⟨b, hb, h1, h2, h3, h4, h5⟩ := ReleaseHeap_of_heapInUse a hheap
  exact ⟨b, by simp [OnlineDescriptorAllocator.makeSpace, hs, hb], h1, h2, h3, h4, h5⟩


theorem Upload_after_makeSpace (N MAX : Nat) (done : Nat → Bool)
    (a a1 : OnlineDescriptorAllocator) (requiredSpace : Nat)
    (hstale : a.m_StaleRootParameters.AnyBitSet = true)
    (hsw : a.makeSpace N = some (a1, requiredSpace))
    (htable : a1.m_RootDescriptorTable = a.m_RootDescriptorTable)
    (hfit : copyFits MAX a a1.m_StaleRootParameters.setBits 0 = true) :
    ∃ u, a.UploadAndBindStagedDescriptors N MAX done = some u ∧
      u.block = some (⟨(a1.GetHeap done).2.m_StartHandle, a1.m_CurrentOffset⟩, requiredSpace) ∧
      u.destinationRanges = rangesFrom (a1.GetHeap done).2.m_StartHandle a1.m_CurrentOffset
        (a1.m_StaleRootParameters.setBits.map a.rangeSize) ∧
      u.rootDescriptorTables = a1.m_StaleRootParameters.setBits.zip
        (u.destinationRanges.map Prod.fst) ∧
      u.allocator.m_CurrentOffset = a1.m_CurrentOffset + requiredSpace ∧
      u.allocator.m_StaleRootParameters.AnyBitSet = false := by
  obtain ⟨_, hoff, htab, hst, _⟩ := GetHeap_current done a1
  have htab3 : ((a1.GetHeap done).2.Allocate requiredSpace).2.m_RootDescriptorTable
      = a.m_RootDescriptorTable := htab.trans htable
  have hst3 : ((a1.GetHeap done).2.Allocate requiredSpace).2.m_StaleRootParameters
      = a1.m_StaleRootParameters := hst
  have hfit3 : copyFits MAX ((a1.GetHeap done).2.Allocate requiredSpace).2
      ((a1.GetHeap done).2.Allocate requiredSpace).2.m_StaleRootParameters.setBits 0 = true := by
    rw [hst3, copyFits_congr MAX a _ htab3]
    exact hfit
  obtain ⟨u, hu, hall, hblock, hdest, hroot⟩ :=
    copyAndBind_spec MAX ((a1.GetHeap done).2.Allocate requiredSpace).2
      ((a1.GetHeap done).2.Allocate requiredSpace).1 requiredSpace hfit3
  rw [hst3, map_rangeSize_congr a _ htab3] at hdest
  rw [hst3] at hroot
  refine ⟨u, ?_, ?_, ?_, hroot, ?_, ?_⟩
  · unfold OnlineDescriptorAllocator.UploadAndBindStagedDescriptors
    rw [if_neg (by simp [hstale]), hsw]
    exact hu
  · rw [hblock]
    simp only [OnlineDescriptorAllocator.Allocate, hoff]
  · rw [hdest]
    simp only [OnlineDescriptorAllocator.Allocate, hoff]
  · rw [hall]
    simp only [OnlineDescriptorAllocator.Allocate, hoff]
  · rw [hall]
    exact ClearAll_AnyBitSet _

theorem descriptorsWritten_of_ranges (u : Upload) (heap : Option Nat) (start : Nat)
    (sizes : List Nat) (h : u.destinationRanges = rangesFrom heap start sizes) :
    u.descriptorsWritten = sizes.sum := by
  unfold Upload.descriptorsWritten
  rw [h, rangesFrom_sizes]

/-- C29, amended: in `UploadAndBindStagedDescriptors`, for every staged state in which the
allocator has a current heap exactly when its offset is not zero and the source array of
MAX_DESCRIPTORS_PER_COPY entries holds the ranges: with no stale root parameter the call
changes nothing; with a stale root parameter it uploads the tables of the stale root
parameters if the current heap has space for GetRequiredSpace() descriptors, and else, after
the heap was released, the tables of all root parameters of the mask with an assigned
handle; the number of descriptors written equals requiredSpace - 10 for the requiredSpace
given to Allocate, which is the sum over the uploaded root parameters of (index of the
highest assigned handle + 1, or 1 without an assigned handle); the destination ranges are
consecutive from the start of the block, pairwise disjoint and end inside the block
reserved by Allocate(requiredSpace), and after the call no root parameter is stale. -/
theorem UploadAndBindStagedDescriptors_ranges (N MAX : Nat) (done : Nat → Bool)
    (a : OnlineDescriptorAllocator) (hheap : a.heapInUse)
    (hfit : copyFits MAX a (a.uploadSet N) 0 = true) :
    (a.m_StaleRootParameters.AnyBitSet = false →
      a.UploadAndBindStagedDescriptors N MAX done
        = some { allocator := a, block := none, copies := [], rootDescriptorTables := [] }) ∧
    (a.m_StaleRootParameters.AnyBitSet = true →
      ∃ u base requiredSpace,
        a.UploadAndBindStagedDescriptors N MAX done = some u ∧
        u.block = some (base, requiredSpace) ∧
        requiredSpace = ((a.uploadSet N).map a.rangeSize).sum + 10 ∧
        (a.HasSpace N a.GetRequiredSpace = true →
          a.uploadSet N = a.m_StaleRootParameters.setBits ∧
          requiredSpace = a.GetRequiredSpace ∧
          base = ⟨a.m_StartHandle, a.m_CurrentOffset⟩) ∧
        (a.HasSpace N a.GetRequiredSpace = false →
          a.uploadSet N = a.UnbindAll.m_StaleRootParameters.setBits ∧ base.index = 0) ∧
        u.destinationRanges
          = rangesFrom base.heap base.index ((a.uploadSet N).map a.rangeSize) ∧
        u.descriptorsWritten = requiredSpace - 10 ∧
        u.destinationRanges.Pairwise rangesDisjoint ∧
        (∀ r ∈ u.destinationRanges, r.1.heap = base.heap ∧ base.index ≤ r.1.index ∧
          r.1.index + r.2 ≤ base.index + (requiredSpace - 10)) ∧
        u.rootDescriptorTables = (a.uploadSet N).zip (u.destinationRanges.map Prod.fst) ∧
        u.allocator.m_CurrentOffset = base.index + requiredSpace ∧
        u.allocator.m_StaleRootParameters.AnyBitSet = false) := by
  constructor
  · intro hno
    unfold OnlineDescriptorAllocator.UploadAndBindStagedDescriptors
    rw [if_pos hno]
  · intro hstale
    by_cases hs : a.HasSpace N a.GetRequiredSpace = true
    · have hset : a.uploadSet N = a.m_StaleRootParameters.setBits := by
        simp [OnlineDescriptorAllocator.uploadSet, hs]
      rw [hset] at hfit ⊢
      obtain ⟨p, hp⟩ : ∃ p, a.m_pCurrentHeap = some p := by
        unfold OnlineDescriptorAllocator.HasSpace at hs
        simp only [Bool.and_eq_true] at hs
        exact Option.isSome_iff_exists.mp hs.1
      obtain ⟨u, hu, hblock, hdest, hroot, hoff, hclear⟩ :=
        Upload_after_makeSpace N MAX done a a a.GetRequiredSpace hstale
          (makeSpace_of_space N a hs) rfl hfit
      rw [GetHeap_of_current done a p hp] at hblock hdest
      simp only at hblock hdest
      refine ⟨u, ⟨a.m_StartHandle, a.m_CurrentOffset⟩, a.GetRequiredSpace, hu, hblock,
        GetRequiredSpace_eq a, fun _ => ⟨rfl, rfl, rfl⟩, fun h => absurd hs (by simp [h]),
        hdest, ?_, ?_, ?_, hroot, hoff, hclear⟩
      · rw [descriptorsWritten_of_ranges u _ _ _ hdest, GetRequiredSpace_eq]
        omega
      · rw [hdest]
        exact rangesFrom_pairwise _ _ _
      · intro r hr
        rw [hdest] at hr
        have := rangesFrom_bounds _ _ _ r hr
        rw [GetRequiredSpace_eq]
        simpa using this
    · have hs2 : a.HasSpace N a.GetRequiredSpace = false := by simpa using hs
      have hset : a.uploadSet N = a.UnbindAll.m_StaleRootParameters.setBits := by
        simp [OnlineDescriptorAllocator.uploadSet, hs2]
      rw [hset] at hfit ⊢
      obtain ⟨b, hsw, hnone, hzero, htab, hst, hmask⟩ := makeSpace_of_no_space N a hheap hs2
      have hstale2 : b.UnbindAll.m_StaleRootParameters = a.UnbindAll.m_StaleRootParameters :=
        UnbindAll_stale_congr a b htab hmask hst
      have htab2 : b.UnbindAll.m_RootDescriptorTable = a.m_RootDescriptorTable := htab
      have hreq : b.UnbindAll.GetRequiredSpace
          = (a.UnbindAll.m_StaleRootParameters.setBits.map a.rangeSize).sum + 10 := by
        rw [GetRequiredSpace_eq, hstale2, map_rangeSize_congr a _ htab2]
      obtain ⟨u, hu, hblock, hdest, hroot, hoff, hclear⟩ :=
        Upload_after_makeSpace N MAX done a b.UnbindAll b.UnbindAll.GetRequiredSpace hstale
          hsw htab2 (by rw [hstale2]; exact hfit)
      have hoff0 : b.UnbindAll.m_CurrentOffset = 0 := hzero
      rw [hstale2, hoff0] at hdest
      rw [hstale2] at hroot
      rw [hoff0] at hblock hoff
      refine ⟨u, ⟨(b.UnbindAll.GetHeap done).2.m_StartHandle, 0⟩, b.UnbindAll.GetRequiredSpace,
        hu, hblock, hreq, fun h => absurd h hs, fun _ => ⟨rfl, rfl⟩, hdest, ?_, ?_, ?_,
        hroot, hoff, hclear⟩
      · rw [descriptorsWritten_of_ranges u _ _ _ hdest, hreq]
        omega
      · rw [hdest]
        exact rangesFrom_pairwise _ _ _
      · intro r hr
        rw [hdest] at hr
        have := rangesFrom_bounds _ _ _ r hr
        rw [hreq]
        simpa using this


/-- C29, as stated: the calls SetDescriptors(0, 0, 1 handle), SetDescriptors(1, 0, 1 handle),
UploadAndBindStagedDescriptors, SetDescriptors(0, 0, 1 handle) on a new allocator with heaps
of 16 descriptors lead to a staged state in which only root parameter 0 is stale and
GetRequiredSpace() is 11, but heap 0 has no space for 11 more descriptors, so the call
releases it, marks both root parameters stale and writes 2 descriptors, not 11 - 10 = 1. -/
theorem UploadAndBindStagedDescriptors_counterexample :
    OnlineDescriptorAllocator.run 16 8
        [(fun _ => false, Call.SetDescriptors 0 0 [100]),
         (fun _ => false, Call.SetDescriptors 1 0 [200]),
         (fun _ => false, Call.UploadAndBindStagedDescriptors),
         (fun _ => false, Call.SetDescriptors 0 0 [300])]
        (OnlineDescriptorAllocator.initial ⟨[true, true]⟩
          [⟨⟨[false]⟩, [0], 1⟩, ⟨⟨[false]⟩, [0], 1⟩])
      = some stagedExample ∧
    stagedExample.m_StaleRootParameters.setBits = [0] ∧
    stagedExample.GetRequiredSpace = 11 ∧
    stagedExample.HasSpace 16 11 = false ∧
    (stagedExample.UploadAndBindStagedDescriptors 16 8 fun _ => false).map
        Upload.descriptorsWritten = some 2 ∧
    (stagedExample.UploadAndBindStagedDescriptors 16 8 fun _ => false).map
        Upload.descriptorsWritten ≠ some (stagedExample.GetRequiredSpace - 10) := by
  decide

theorem UploadAndBindStagedDescriptors_ranges_witness :
    (stagedExample.heapInUse ∧ copyFits 8 stagedExample (stagedExample.uploadSet 16) 0 = true) ∧
    ∃ u base requiredSpace,
      stagedExample.UploadAndBindStagedDescriptors 16 8 (fun _ => false) = some u ∧
      u.block = some (base, requiredSpace) ∧
      u.descriptorsWritten = requiredSpace - 10 ∧
      u.allocator.m_StaleRootParameters.AnyBitSet = false :=
  ⟨⟨by decide, by decide⟩,
   match (UploadAndBindStagedDescriptors_ranges 16 8 (fun _ => false) stagedExample
      (by decide) (by decide)).2 (by decide) with
   | ⟨u, base, requiredSpace, h1, h2, _, _, _, _, h7, _, _, _, _, h12⟩ =>
     ⟨u, base, requiredSpace, h1, h2, h7, h12⟩⟩

end Graphics
